import Mathlib

/-!
# Row-wise Top-K selection (CPUTopKV2.cpp) and Concat shape computation (ShapeConcat.cpp)

A verification development for `source/backend/cpu/CPUTopKV2.cpp` and
`source/shape/ShapeConcat.cpp`.

Conventions of the embedding.

* Candidate indices (`int32_t`, always non-negative here) are natural numbers.  An element
  is a 32-bit word: an `int32_t` element is the integer it holds, a `float` element is the
  word holding its IEEE 754 binary32 bit pattern, compared by `floatLt`.  Values are only
  compared and copied, and rows hold fewer than `2^31 - 1` elements (`elementSize()` is an
  `int`), so no index arithmetic wraps.
* A buffer is a list; a pointer `p + off` into a buffer is the suffix `List.drop off`,
  a read `p[i]` is `List.getD i 0`, a write `p[i] = v` is `List.set i v`.
* `std::vector<int32_t> mContainer` is a `List Nat`.
* The C++ standard-library routines `std::make_heap`, `std::push_heap`, `std::pop_heap`,
  `std::sort_heap` and `std::sort` are given by the usual array algorithms
  (sift-up, sift-down, Floyd heap construction, repeated pop, insertion sort).
  Loops carry an explicit fuel argument that the callers set to the range length.
-/

namespace MNN

/-! ## Standard-library algorithms on `[begin, begin + n)` -/

/-- The exchange `std::iter_swap(begin + i, begin + j)`. -/
def swapAt (xs : List Nat) (i j : Nat) : List Nat :=
  (xs.set i (xs.getD j 0)).set j (xs.getD i 0)

/-- The child of `i` holding the greater element (under `comp`) inside `[0, n)`;
only meaningful when the left child `2 * i + 1` is inside the range. -/
def largerChild (comp : Nat → Nat → Bool) (xs : List Nat) (n i : Nat) : Nat :=
  if 2 * i + 2 < n ∧ comp (xs.getD (2 * i + 1) 0) (xs.getD (2 * i + 2) 0) = true then 2 * i + 2
  else 2 * i + 1

/-- Sift the element at position `i` down inside the range `[0, n)`. -/
def siftDown (comp : Nat → Nat → Bool) : Nat → List Nat → Nat → Nat → List Nat
  | 0, xs, _, _ => xs
  | fuel + 1, xs, n, i =>
    if 2 * i + 1 < n then
      if comp (xs.getD i 0) (xs.getD (largerChild comp xs n i) 0) = true then
        siftDown comp fuel (swapAt xs i (largerChild comp xs n i)) n (largerChild comp xs n i)
      else xs
    else xs

/-- Sift the element at position `i` up towards the root. -/
def siftUp (comp : Nat → Nat → Bool) : Nat → List Nat → Nat → List Nat
  | 0, xs, _ => xs
  | fuel + 1, xs, i =>
    if i = 0 then xs
    else if comp (xs.getD ((i - 1) / 2) 0) (xs.getD i 0) = true then
      siftUp comp fuel (swapAt xs ((i - 1) / 2) i) ((i - 1) / 2)
    else xs

/-- The call `std::push_heap(begin, begin + n, comp)`: the element at `n - 1` is inserted into
the heap `[0, n - 1)`. -/
def push_heap (comp : Nat → Nat → Bool) (xs : List Nat) (n : Nat) : List Nat :=
  siftUp comp n xs (n - 1)

/-- The call `std::pop_heap(begin, begin + n, comp)`: the root is exchanged with position
`n - 1` and `[0, n - 1)` is made a heap again. -/
def pop_heap (comp : Nat → Nat → Bool) (xs : List Nat) (n : Nat) : List Nat :=
  if n ≤ 1 then xs else siftDown comp n (swapAt xs 0 (n - 1)) (n - 1) 0

/-- Loop of `std::make_heap`: sift down the positions `j - 1, j - 2, ..., 0`. -/
def makeHeapLoop (comp : Nat → Nat → Bool) (n : Nat) : Nat → List Nat → List Nat
  | 0, xs => xs
  | j + 1, xs => makeHeapLoop comp n j (siftDown comp n xs n j)

/-- The call `std::make_heap(begin, begin + n, comp)`. -/
def make_heap (comp : Nat → Nat → Bool) (xs : List Nat) (n : Nat) : List Nat :=
  makeHeapLoop comp n (n / 2) xs

/-- The call `std::sort_heap(begin, begin + n, comp)`: pop the root `n` times. -/
def sort_heap (comp : Nat → Nat → Bool) : Nat → List Nat → List Nat
  | 0, xs => xs
  | n + 1, xs => sort_heap comp n (pop_heap comp xs (n + 1))

/-- The call `std::sort(begin, end, comp)` on the whole vector. -/
def std_sort (comp : Nat → Nat → Bool) (xs : List Nat) : List Nat :=
  xs.insertionSort (fun a b => comp b a = false)

/-- The call `v.resize(n)` of `std::vector<int32_t>`. -/
def resize (xs : List Nat) (n : Nat) : List Nat :=
  xs.take n ++ List.replicate (n - xs.length) 0

/-- The call `std::copy(src.begin(), src.end(), out + off)`. -/
def std_copy {α : Type} : List α → Nat → List α → List α
  | [], _, out => out
  | x :: src, off, out => std_copy src (off + 1) (out.set off x)

/-! ## TopContainer -/

/-- The comparison `compareDescend(a, b)` of `TopContainer<int32_t>` over the row
`mValues`. -/
def compareDescend (mValues : List Int) (a b : Nat) : Bool :=
  if mValues.getD b 0 < mValues.getD a 0 then true
  else if mValues.getD b 0 > mValues.getD a 0 then false
  else decide (a < b)

/-- The comparison `compareAscend(a, b)` of `TopContainer<int32_t>` over the row
`mValues`. -/
def compareAscend (mValues : List Int) (a b : Nat) : Bool :=
  if mValues.getD b 0 < mValues.getD a 0 then false
  else if mValues.getD b 0 > mValues.getD a 0 then true
  else decide (a < b)

/-- The state of a `TopContainer<T>`; `mValues` is the row bound by `startCollecting`, as
32-bit words (`T = int32_t` or `T = float`). -/
structure TopContainer where
  mK : Nat
  mLargest : Bool
  mContainer : List Nat
  mValues : List Int
deriving DecidableEq, Repr

namespace TopContainer

/-- The constructor `TopContainer(k, rowSize, largest)`; `reserve` only sets the capacity. -/
def new (k : Nat) (_rowSize : Nat) (largest : Bool) : TopContainer :=
  ⟨k, largest, [], []⟩

/-- The method `startCollecting(values)`. -/
def startCollecting (t : TopContainer) (values : List Int) : TopContainer :=
  ⟨t.mK, t.mLargest, [], values⟩

/-- The local `comparator` selected by `mLargest` in `push` and `sortedResult` of
`TopContainer<int32_t>`. -/
def comparator (t : TopContainer) : Nat → Nat → Bool :=
  if t.mLargest then compareDescend t.mValues else compareAscend t.mValues

/-- The method `push(a)` of `TopContainer<int32_t>`. -/
def push (t : TopContainer) (a : Nat) : TopContainer :=
  if t.mContainer.length ≤ t.mK then
    if (t.mContainer ++ [a]).length = t.mK + 1 then
      ⟨t.mK, t.mLargest,
        pop_heap t.comparator
          (make_heap t.comparator (t.mContainer ++ [a]) (t.mContainer ++ [a]).length)
          (t.mContainer ++ [a]).length,
        t.mValues⟩
    else ⟨t.mK, t.mLargest, t.mContainer ++ [a], t.mValues⟩
  else if t.comparator a (t.mContainer.getD 0 0) = true then
    ⟨t.mK, t.mLargest,
      pop_heap t.comparator
        (push_heap t.comparator (t.mContainer.set (t.mContainer.length - 1) a)
          t.mContainer.length)
        t.mContainer.length,
      t.mValues⟩
  else t

/-- The method `sortedResult()` of `TopContainer<int32_t>`; the returned reference is the
field `mContainer` of the resulting state. -/
def sortedResult (t : TopContainer) : TopContainer :=
  if t.mContainer.length ≤ t.mK then
    ⟨t.mK, t.mLargest, std_sort t.comparator t.mContainer, t.mValues⟩
  else
    ⟨t.mK, t.mLargest,
      resize (sort_heap t.comparator (t.mContainer.length - 1) t.mContainer) t.mK, t.mValues⟩

end TopContainer

/-- One iteration of the row loop of `findTopK` up to `sortedResult`: bind the row,
push the columns `0 .. rowSize - 1`, finalise. -/
def collectRow (topc : TopContainer) (valuesRow : List Int) (rowSize : Nat) : TopContainer :=
  ((List.range rowSize).foldl TopContainer.push (topc.startCollecting valuesRow)).sortedResult

/-- The body of the row loop of `findTopK` for row index `row`; the state is the container
and the two output buffers. -/
def findTopKRow (rowSize : Nat) (data : List Int) (k : Nat)
    (st : TopContainer × List Nat × List Int) (row : Nat) :
    TopContainer × List Nat × List Int :=
  let valuesRow := data.drop (row * rowSize)
  let topc := collectRow st.1 valuesRow rowSize
  (topc,
   std_copy topc.mContainer (row * k) st.2.1,
   std_copy (topc.mContainer.map (fun loc => valuesRow.getD loc 0)) (row * k) st.2.2)

/-- The function `findTopK<int32_t>`; returns the final `(outputIndexes, outputValues)`. -/
def findTopK (rowSize numRows : Nat) (data : List Int) (k : Nat)
    (outputIndexes : List Nat) (outputValues : List Int) (largest : Bool) :
    List Nat × List Int :=
  ((List.range numRows).foldl (findTopKRow rowSize data k)
    (TopContainer.new k rowSize largest, outputIndexes, outputValues)).2

/-- The full comparator of the specification on the column indices of a row:
`compareDescend` for Largest, `compareAscend` for Smallest. -/
def fullComparator (largest : Bool) (row : List Int) : Nat → Nat → Bool :=
  if largest then compareDescend row else compareAscend row

/-- Brute force of the specification: all column indices `0 .. rowSize - 1` of the row
sorted by the full comparator (best first). -/
def bruteForceOrder (row : List Int) (largest : Bool) : List Nat :=
  (List.range row.length).insertionSort
    (fun a b => fullComparator largest row a b = true ∨ a = b)

/-- The `r`-th row of a row-major buffer with rows of `rowSize` elements. -/
def rowOf (data : List Int) (rowSize r : Nat) : List Int :=
  (data.drop (r * rowSize)).take rowSize

/-- The best `k` column indices of the row at `valuesRow`, best first. -/
def rowTopK (largest : Bool) (valuesRow : List Int) (rowSize k : Nat) : List Nat :=
  (std_sort (fullComparator largest valuesRow) (List.range rowSize)).take k

/-! ## The instantiation for `float`

The templates `TopContainer<T>` and `findTopK<T>` are instantiated for `float` with the same
code; the comparisons `<` and `>` on the values are those of IEEE 754 binary32. -/

/-- The exponent and fraction bits (the 31 low bits) of the `float` held in the word `w`. -/
def floatMagnitude (w : Int) : Int :=
  w % 2147483648

/-- The sign bit (bit 31) of the `float` held in the word `w`. -/
def floatSign (w : Int) : Bool :=
  decide (2147483648 ≤ w % 4294967296)

/-- The `float` held in the word `w` is a NaN: all exponent bits set and a fraction that is
not zero. -/
def floatIsNaN (w : Int) : Bool :=
  decide (2139095040 < floatMagnitude w)

/-- An integer that orders the floats other than NaN as IEEE 754 does: the magnitude bits,
negated under the sign bit; both zeros have the key 0. -/
def floatKey (w : Int) : Int :=
  if floatSign w = true then -floatMagnitude w else floatMagnitude w

/-- The comparison `x < y` of two `float` values given by their words; it is false when
either is a NaN.  The comparison `x > y` is `floatLt y x`. -/
def floatLt (x y : Int) : Bool :=
  !floatIsNaN x && !floatIsNaN y && decide (floatKey x < floatKey y)

/-- The comparison `compareDescend(a, b)` of `TopContainer<float>` over the row `mValues`. -/
def compareDescendFloat (mValues : List Int) (a b : Nat) : Bool :=
  if floatLt (mValues.getD b 0) (mValues.getD a 0) = true then true
  else if floatLt (mValues.getD a 0) (mValues.getD b 0) = true then false
  else decide (a < b)

/-- The comparison `compareAscend(a, b)` of `TopContainer<float>` over the row `mValues`. -/
def compareAscendFloat (mValues : List Int) (a b : Nat) : Bool :=
  if floatLt (mValues.getD b 0) (mValues.getD a 0) = true then false
  else if floatLt (mValues.getD a 0) (mValues.getD b 0) = true then true
  else decide (a < b)

namespace TopContainer

/-- The local `comparator` selected by `mLargest` in `push` and `sortedResult` of
`TopContainer<float>`. -/
def comparatorFloat (t : TopContainer) : Nat → Nat → Bool :=
  if t.mLargest then compareDescendFloat t.mValues else compareAscendFloat t.mValues

/-- The method `push(a)` of `TopContainer<float>`. -/
def pushFloat (t : TopContainer) (a : Nat) : TopContainer :=
  if t.mContainer.length ≤ t.mK then
    if (t.mContainer ++ [a]).length = t.mK + 1 then
      ⟨t.mK, t.mLargest,
        pop_heap t.comparatorFloat
          (make_heap t.comparatorFloat (t.mContainer ++ [a]) (t.mContainer ++ [a]).length)
          (t.mContainer ++ [a]).length,
        t.mValues⟩
    else ⟨t.mK, t.mLargest, t.mContainer ++ [a], t.mValues⟩
  else if t.comparatorFloat a (t.mContainer.getD 0 0) = true then
    ⟨t.mK, t.mLargest,
      pop_heap t.comparatorFloat
        (push_heap t.comparatorFloat (t.mContainer.set (t.mContainer.length - 1) a)
          t.mContainer.length)
        t.mContainer.length,
      t.mValues⟩
  else t

/-- The method `sortedResult()` of `TopContainer<float>`. -/
def sortedResultFloat (t : TopContainer) : TopContainer :=
  if t.mContainer.length ≤ t.mK then
    ⟨t.mK, t.mLargest, std_sort t.comparatorFloat t.mContainer, t.mValues⟩
  else
    ⟨t.mK, t.mLargest,
      resize (sort_heap t.comparatorFloat (t.mContainer.length - 1) t.mContainer) t.mK,
      t.mValues⟩

/-- The container of `TopContainer<float>` read over the integer keys of its row: the same
candidates, the row of `float` words replaced by the row of their keys. -/
def keyed (t : TopContainer) : TopContainer :=
  ⟨t.mK, t.mLargest, t.mContainer, t.mValues.map floatKey⟩

end TopContainer

/-- One iteration of the row loop of `findTopK<float>` up to `sortedResult`. -/
def collectRowFloat (topc : TopContainer) (valuesRow : List Int) (rowSize : Nat) :
    TopContainer :=
  ((List.range rowSize).foldl TopContainer.pushFloat
    (topc.startCollecting valuesRow)).sortedResultFloat

/-- The body of the row loop of `findTopK<float>` for row index `row`. -/
def findTopKRowFloat (rowSize : Nat) (data : List Int) (k : Nat)
    (st : TopContainer × List Nat × List Int) (row : Nat) :
    TopContainer × List Nat × List Int :=
  let valuesRow := data.drop (row * rowSize)
  let topc := collectRowFloat st.1 valuesRow rowSize
  (topc,
   std_copy topc.mContainer (row * k) st.2.1,
   std_copy (topc.mContainer.map (fun loc => valuesRow.getD loc 0)) (row * k) st.2.2)

/-- The function `findTopK<float>`; returns the final `(outputIndexes, outputValues)`. -/
def findTopKFloat (rowSize numRows : Nat) (data : List Int) (k : Nat)
    (outputIndexes : List Nat) (outputValues : List Int) (largest : Bool) :
    List Nat × List Int :=
  ((List.range numRows).foldl (findTopKRowFloat rowSize data k)
    (TopContainer.new k rowSize largest, outputIndexes, outputValues)).2

/-! ## Heap order and the state of the container -/

/-- The comparator is a strict total order on candidate indices. -/
structure StrictTotal (comp : Nat → Nat → Bool) : Prop where
  irrefl : ∀ a, comp a a = false
  trans : ∀ a b c, comp a b = true → comp b c = true → comp a c = true
  total : ∀ a b, a ≠ b → comp a b = true ∨ comp b a = true

/-- Every parent-child edge of `[0, n)` whose parent position is at least `lo` is in heap
order: the parent does not compare less than the child. -/
def HeapFrom (comp : Nat → Nat → Bool) (xs : List Nat) (n lo : Nat) : Prop :=
  ∀ c, 0 < c → c < n → lo ≤ (c - 1) / 2 →
    comp (xs.getD ((c - 1) / 2) 0) (xs.getD c 0) = false

/-- The range `[0, n)` of `xs` is a binary heap with respect to `comp`. -/
def IsHeap (comp : Nat → Nat → Bool) (xs : List Nat) (n : Nat) : Prop :=
  HeapFrom comp xs n 0

/-- State of the container after the candidates `ps` have been pushed since the last
`startCollecting`: a plain vector while at most `mK` were pushed, afterwards a heap of the
`mK` best candidates followed by one overflow slot. -/
def PushInv (t : TopContainer) (ps : List Nat) : Prop :=
  (ps.length ≤ t.mK → t.mContainer = ps) ∧
  (t.mK < ps.length →
    t.mContainer.length = t.mK + 1 ∧ IsHeap t.comparator t.mContainer t.mK ∧
    ∃ rest, ps.Perm (t.mContainer.take t.mK ++ rest) ∧ t.mContainer.getD t.mK 0 ∈ rest ∧
      ∀ x ∈ t.mContainer.take t.mK, ∀ d ∈ rest, t.comparator x d = true)

/-! ## The `k == 1 && mLargest` branch of `CPUTopKV2::onExecute` -/

/-- One iteration `j` of the scalar remainder loop: `best` is the content of the cells
`(rowTopkData[0], rowTopkIndexData[0])`. -/
def remainderStep (inputRowData : List Int) (rowC4ElementSize : Nat) (best : Int × Nat)
    (j : Nat) : Int × Nat :=
  if inputRowData.getD (rowC4ElementSize + j) 0 > best.1 then
    (inputRowData.getD (rowC4ElementSize + j) 0, rowC4ElementSize + j)
  else best

/-- The body of the row loop of the `int32_t` fast path.  The block primitive
`MNNVectorTop1Int32(inputRowData, rowTopkData, rowTopkIndexData, rowC4Blocks)` is the
parameter `top1`: from the row, the block count and the previous content of the two output
cells it gives their new content.  The result is the final content of the two cells. -/
def fastPathRow (top1 : List Int → Nat → Int × Nat → Int × Nat) (inputRowData : List Int)
    (rowSize : Nat) (cells : Int × Nat) : Int × Nat :=
  (List.range (rowSize % 4)).foldl (remainderStep inputRowData (rowSize / 4 * 4))
    (top1 inputRowData (rowSize / 4) cells)

/-- The row loop of the `int32_t` fast path (`k = 1`).  The rows are handed to
`MNN_CONCURRENCY_BEGIN`; every row reads and writes only its own cells, so the rows are
taken one after the other. -/
def fastPathInt32 (top1 : List Int → Nat → Int × Nat → Int × Nat) (rowSize numRows : Nat)
    (inputData : List Int) (k : Nat) (topkData : List Int) (indicesData : List Nat) :
    List Int × List Nat :=
  (List.range numRows).foldl
    (fun out i =>
      ((out.1.set (i * k)
          (fastPathRow top1 (inputData.drop (i * rowSize)) rowSize
            (out.1.getD (i * k) 0, out.2.getD (i * k) 0)).1),
       (out.2.set (i * k)
          (fastPathRow top1 (inputData.drop (i * rowSize)) rowSize
            (out.1.getD (i * k) 0, out.2.getD (i * k) 0)).2)))
    (topkData, indicesData)

/-- One iteration `j` of the scalar remainder loop of the `float` fast path. -/
def remainderStepFloat (inputRowData : List Int) (rowC4ElementSize : Nat) (best : Int × Nat)
    (j : Nat) : Int × Nat :=
  if floatLt best.1 (inputRowData.getD (rowC4ElementSize + j) 0) = true then
    (inputRowData.getD (rowC4ElementSize + j) 0, rowC4ElementSize + j)
  else best

/-- The body of the row loop of the `float` fast path.  The block primitive
`MNNVectorTop1Float(inputRowData, rowTopkData, rowTopkIndexData, rowC4Blocks)` is the
parameter `top1F`. -/
def fastPathRowFloat (top1F : List Int → Nat → Int × Nat → Int × Nat)
    (inputRowData : List Int) (rowSize : Nat) (cells : Int × Nat) : Int × Nat :=
  (List.range (rowSize % 4)).foldl (remainderStepFloat inputRowData (rowSize / 4 * 4))
    (top1F inputRowData (rowSize / 4) cells)

/-- The row loop of the `float` fast path (`k = 1`), the rows taken one after the other. -/
def fastPathFloat (top1F : List Int → Nat → Int × Nat → Int × Nat) (rowSize numRows : Nat)
    (inputData : List Int) (k : Nat) (topkData : List Int) (indicesData : List Nat) :
    List Int × List Nat :=
  (List.range numRows).foldl
    (fun out i =>
      ((out.1.set (i * k)
          (fastPathRowFloat top1F (inputData.drop (i * rowSize)) rowSize
            (out.1.getD (i * k) 0, out.2.getD (i * k) 0)).1),
       (out.2.set (i * k)
          (fastPathRowFloat top1F (inputData.drop (i * rowSize)) rowSize
            (out.1.getD (i * k) 0, out.2.getD (i * k) 0)).2)))
    (topkData, indicesData)

/-- Modelled from the spec: the contract of the block-reduction primitive
`MNNVectorTop1Int32`, whose body is not part of the sources.  It yields the single best
(value, index) pair of the block region `[0, 4 * blocks)` under the Largest rule with the
lowest-index tie-break; on an empty block region (a row shorter than 4) this is the pair
`(input[0], 0)`, as the scenario of the single-element row `[10]` requires. -/
def Top1Contract (top1 : List Int → Nat → Int × Nat → Int × Nat) : Prop :=
  ∀ (input : List Int) (blocks : Nat) (cells : Int × Nat), 4 * blocks ≤ input.length →
    (blocks = 0 → top1 input blocks cells = (input.getD 0 0, 0)) ∧
    (1 ≤ blocks →
      (top1 input blocks cells).2 < 4 * blocks ∧
      (top1 input blocks cells).1 = input.getD (top1 input blocks cells).2 0 ∧
      ∀ j, j < 4 * blocks →
        compareDescend input (top1 input blocks cells).2 j = true ∨
          j = (top1 input blocks cells).2)

/-- Modelled from the spec: the contract of the block-reduction primitive
`MNNVectorTop1Float`, whose body is not part of the sources: as `Top1Contract`, on block
regions that hold no NaN. -/
def Top1ContractFloat (top1F : List Int → Nat → Int × Nat → Int × Nat) : Prop :=
  ∀ (input : List Int) (blocks : Nat) (cells : Int × Nat), 4 * blocks ≤ input.length →
    (∀ j, j < 4 * blocks → floatIsNaN (input.getD j 0) = false) →
    (blocks = 0 → top1F input blocks cells = (input.getD 0 0, 0)) ∧
    (1 ≤ blocks →
      (top1F input blocks cells).2 < 4 * blocks ∧
      (top1F input blocks cells).1 = input.getD (top1F input blocks cells).2 0 ∧
      ∀ j, j < 4 * blocks →
        compareDescendFloat input (top1F input blocks cells).2 j = true ∨
          j = (top1F input blocks cells).2)

/-- Modelled from the spec: a block-reduction primitive that scans the block region from
the pair `(input[0], 0)` and replaces the best pair on a strictly greater value. -/
def top1Scan (input : List Int) (blocks : Nat) (_cells : Int × Nat) : Int × Nat :=
  (List.range (4 * blocks)).foldl (remainderStep input 0) (input.getD 0 0, 0)

/-- Modelled from the spec: the block-reduction primitive for `float` that scans the block
region from the pair `(input[0], 0)` and replaces the best pair on a strictly greater
value. -/
def top1ScanFloat (input : List Int) (blocks : Nat) (_cells : Int × Nat) : Int × Nat :=
  (List.range (4 * blocks)).foldl (remainderStepFloat input 0) (input.getD 0 0, 0)

/-- The pair `best = (value, index)` is the best of the first `m` elements of the row under
the Largest rule with the lowest-index tie-break (for `m = 0` it is the pair of index 0). -/
def BestPair (row : List Int) (m : Nat) (best : Int × Nat) : Prop :=
  best.1 = row.getD best.2 0 ∧ best.2 < max m 1 ∧
    ∀ j, j < m → compareDescend row best.2 j = true ∨ j = best.2

/-! ## CPUTopKV2::onExecute -/

/-- The type codes `halide_type_code_t` of the tensor element type. -/
inductive HalideTypeCode
  | halide_type_int
  | halide_type_uint
  | halide_type_float
  | halide_type_handle
  | halide_type_bfloat
deriving DecidableEq, Repr

/-- The element type `halide_type_t` of a tensor: type code and width in bits. -/
structure HalideType where
  code : HalideTypeCode
  bits : Nat
deriving DecidableEq, Repr

/-- How `CPUTopKV2::onExecute` ends.  Modelled from the spec: `MNN_ASSERT` (core/Macro.h,
not part of the sources) is a fatal assertion.  The return of `NO_ERROR` carries the final
content of the host buffers of the two outputs, as 32-bit words. -/
inductive ExecResult
  | invalidK
  | divisionByZero
  | unsupportedType
  | NO_ERROR (outputData : List Int) (outputIndices : List Nat)
deriving DecidableEq, Repr

/-- The method `CPUTopKV2::onExecute`.  The arguments are the two block primitives
`MNNVectorTop1Float` and `MNNVectorTop1Int32`, and the fields the method reads: the flag
`mLargest`, the element type, the last extent `rowSize`, `elementSize()` and the host
words of `inputs[0]`, the value `k` of `inputs[1]`, and the host buffers of the two
outputs. -/
def onExecute (top1F top1 : List Int → Nat → Int × Nat → Int × Nat) (mLargest : Bool)
    (type : HalideType) (rowSize elementSize : Nat) (inputData : List Int) (k : Nat)
    (outputData : List Int) (outputIndices : List Nat) : ExecResult :=
  if ¬ k ≤ rowSize then ExecResult.invalidK
  else if rowSize = 0 then ExecResult.divisionByZero
  else if k = 1 ∧ mLargest = true then
    if type.code = HalideTypeCode.halide_type_float then
      ExecResult.NO_ERROR
        (fastPathFloat top1F rowSize (elementSize / rowSize) inputData k outputData
          outputIndices).1
        (fastPathFloat top1F rowSize (elementSize / rowSize) inputData k outputData
          outputIndices).2
    else if type.code = HalideTypeCode.halide_type_int ∧ type.bits = 32 then
      ExecResult.NO_ERROR
        (fastPathInt32 top1 rowSize (elementSize / rowSize) inputData k outputData
          outputIndices).1
        (fastPathInt32 top1 rowSize (elementSize / rowSize) inputData k outputData
          outputIndices).2
    else ExecResult.unsupportedType
  else if type.code = HalideTypeCode.halide_type_float then
    ExecResult.NO_ERROR
      (findTopKFloat rowSize (elementSize / rowSize) inputData k outputIndices outputData
        mLargest).2
      (findTopKFloat rowSize (elementSize / rowSize) inputData k outputIndices outputData
        mLargest).1
  else if type.code = HalideTypeCode.halide_type_int ∧ type.bits = 32 then
    ExecResult.NO_ERROR
      (findTopK rowSize (elementSize / rowSize) inputData k outputIndices outputData
        mLargest).2
      (findTopK rowSize (elementSize / rowSize) inputData k outputIndices outputData
        mLargest).1
  else ExecResult.unsupportedType

/-! ## ShapeConcat.cpp

The tensor, operator and buffer classes are not part of the sources; a tensor is given by
the fields that `ConcatSizeComputer::onComputeSize` reads or writes.  Extents are integers;
the accumulator `int sum` is a 32-bit two's complement integer and its addition wraps. -/

/-- The operator types told apart by `onComputeSize`. -/
inductive OpType
  | OpType_Concat
  | OpType_QuantizedConcat
  | OpType_Other
deriving DecidableEq, Repr

/-- The fields of `MNN::Op` read by `onComputeSize`: `type()`, `main_as_Axis()->axis()` and
`main_as_QuantizedConcat()->axis()`. -/
structure Op where
  type : OpType
  main_as_Axis_axis : Int
  main_as_QuantizedConcat_axis : Int
deriving DecidableEq, Repr

/-- The fields of a `Tensor` used by the shape computation: `buffer().dimensions`, the extents
`buffer().dim[i].extent`, `buffer().type`, the value of `size()` and the `dimensionFormat` of
its description. -/
structure Tensor where
  dimensions : Nat
  dim : List Int
  type : HalideType
  size : Int
  dimensionFormat : Nat
deriving DecidableEq, Repr

/-- The read `dim[axis].extent` with an `int` index; an index below zero or past the array
reads 0. -/
def extentAt (dim : List Int) (axis : Int) : Int :=
  if axis < 0 then 0 else dim.getD axis.toNat 0

/-- The write `dim[axis].extent = value` with an `int` index. -/
def setExtent (dim : List Int) (axis : Int) (value : Int) : List Int :=
  if axis < 0 then dim else dim.set axis.toNat value

/-- The call `::memcpy(ob.dim, input->buffer().dim, sizeof(halide_dimension_t) * n)`. -/
def memcpyDims (obDim inputDim : List Int) (n : Nat) : List Int :=
  std_copy (inputDim.take n) 0 obDim

/-- The value of `basicAxis` after the test of `op->type()`. -/
def basicAxis (op : Op) : Int :=
  if op.type = OpType.OpType_Concat then op.main_as_Axis_axis
  else if op.type = OpType.OpType_QuantizedConcat then op.main_as_QuantizedConcat_axis
  else 0

/-- The first loop of `onComputeSize` over the inputs still to visit; the result is
`(valid, output, axis, maxDim)` at the end of the loop. -/
def scanFirstNonEmpty (ob : Tensor) (axis : Int) :
    Nat → List Tensor → Bool × Tensor × Int × Nat
  | maxDim, [] => (false, ob, axis, maxDim)
  | maxDim, input :: rest =>
    if input.size ≤ 0 then
      scanFirstNonEmpty ob axis (if input.dimensions > maxDim then input.dimensions else maxDim)
        rest
    else
      (true,
       ⟨input.dimensions, memcpyDims ob.dim input.dim input.dimensions, input.type, ob.size,
         ob.dimensionFormat⟩,
       if axis < 0 then (input.dimensions : Int) + axis else axis,
       maxDim)

/-- The inner loop over the dimensions `i` of the input `t`: `true` when the loop ends without
`return false`, that is when every extent other than the one at `axis` equals the extent of
the output. -/
def dimsMatch (axis : Int) (t : Tensor) (obDim : List Int) : Bool :=
  (List.range t.dimensions).all
    (fun i => decide ((i : Int) = axis) || decide (t.dim.getD i 0 = obDim.getD i 0))

/-- The value of a 32-bit two's complement `int` holding the integer `x`: the
representative of `x` modulo `2^32` in `[-2^31, 2^31)`. -/
def wrapInt32 (x : Int) : Int :=
  (x + 2147483648) % 4294967296 - 2147483648

/-- The second loop of `onComputeSize` over the inputs still to visit; the result is
`(ok, output, sum)`, with `ok = false` when the loop left through `return false`.  The
statement `sum += t->buffer().dim[axis].extent` is a 32-bit `int` addition. -/
def sumAndCheck (axis : Int) : List Tensor → Tensor → Int → Bool × Tensor × Int
  | [], ob, sum => (true, ob, sum)
  | t :: rest, ob, sum =>
    if dimsMatch axis t ob.dim then
      sumAndCheck axis rest ⟨ob.dimensions, ob.dim, t.type, ob.size, ob.dimensionFormat⟩
        (wrapInt32 (sum + extentAt t.dim axis))
    else
      (false, ⟨ob.dimensions, ob.dim, t.type, ob.size, ob.dimensionFormat⟩,
        wrapInt32 (sum + extentAt t.dim axis))

/-- The first loop of `onComputeSize` run on the inputs from `valid = false`, `axis = basicAxis`
and `maxDim = 0`. -/
def firstLoop (op : Op) (inputs : List Tensor) (output : Tensor) : Bool × Tensor × Int × Nat :=
  scanFirstNonEmpty output (basicAxis op) 0 inputs

/-- The second loop of `onComputeSize` run on the inputs from `sum = 0` with the axis and the
output left by the first loop. -/
def secondLoop (op : Op) (inputs : List Tensor) (output : Tensor) : Bool × Tensor × Int :=
  sumAndCheck (firstLoop op inputs output).2.2.1 inputs (firstLoop op inputs output).2.1 0

/-- The method `ConcatSizeComputer::onComputeSize` on the one output tensor `output`:
`none` when `MNN_ASSERT(inputs.size() >= 2)` fails, else the returned flag and the output
tensor. -/
def onComputeSize (op : Op) (inputs : List Tensor) (output : Tensor) : Option (Bool × Tensor) :=
  match inputs with
  | [] => none
  | [_] => none
  | first :: _ :: _ =>
    if (firstLoop op inputs output).1 = false then
      some (true,
        ⟨(firstLoop op inputs output).2.2.2, output.dim, first.type, output.size,
          first.dimensionFormat⟩)
    else if (secondLoop op inputs output).1 = false then
      some (false, (secondLoop op inputs output).2.1)
    else
      some (true,
        ⟨(secondLoop op inputs output).2.1.dimensions,
          setExtent (secondLoop op inputs output).2.1.dim (firstLoop op inputs output).2.2.1
            (secondLoop op inputs output).2.2,
          (secondLoop op inputs output).2.1.type, output.size, first.dimensionFormat⟩)

/-- The normalised axis: `a + d` when `a < 0`, else `a`. -/
def normalizedAxis (a : Int) (d : Nat) : Int :=
  if a < 0 then (d : Int) + a else a

/-! ## Exchanges -/

theorem length_swapAt (xs : List Nat) (i j : Nat) : (swapAt xs i j).length = xs.length := by
  simp [swapAt]

theorem getD_swapAt (xs : List Nat) (i j m : Nat) (hi : i < xs.length) (hj : j < xs.length) :
    (swapAt xs i j).getD m 0 =
      if m = j then xs.getD i 0 else if m = i then xs.getD j 0 else xs.getD m 0 := by
  unfold swapAt
  simp only [List.getD_eq_getElem?_getD, List.getElem?_set, List.length_set]
  split_ifs <;> first | rfl | (exfalso; omega)

theorem swapAt_perm (xs : List Nat) (i j : Nat) (hi : i < xs.length) (hj : j < xs.length) :
    (swapAt xs i j).Perm xs := by
  rw [List.perm_iff_count]
  intro a
  unfold swapAt
  rw [List.count_set _ _ _ _ (by simpa using hj), List.count_set _ _ _ _ hi]
  have h1 : 0 < List.count xs[i] xs := List.count_pos_iff.2 (List.getElem_mem _)
  have h2 : 0 < List.count xs[j] xs := List.count_pos_iff.2 (List.getElem_mem _)
  simp only [List.getElem_set, List.getD_eq_getElem?_getD, List.getElem?_eq_getElem hi,
    List.getElem?_eq_getElem hj, Option.getD_some, beq_iff_eq]
  split_ifs <;> first | omega | (subst_vars; omega)

/-! ## Strict total orders -/

theorem StrictTotal.asymm {comp : Nat → Nat → Bool} (hc : StrictTotal comp) {a b : Nat}
    (h : comp a b = true) : comp b a = false := by
  cases hba : comp b a
  · rfl
  · have := hc.trans a b a h hba
    rw [hc.irrefl a] at this
    exact absurd this (by decide)

theorem StrictTotal.ntrans {comp : Nat → Nat → Bool} (hc : StrictTotal comp) {a b c : Nat}
    (h1 : comp a b = false) (h2 : comp b c = false) : comp a c = false := by
  cases hac : comp a c
  · rfl
  · exfalso
    by_cases hab : a = b
    · subst hab
      rw [h2] at hac
      exact absurd hac (by decide)
    · rcases hc.total a b hab with h | h
      · rw [h1] at h
        exact absurd h (by decide)
      · have := hc.trans b a c h hac
        rw [h2] at this
        exact absurd this (by decide)

theorem StrictTotal.lt_of_not_gt {comp : Nat → Nat → Bool} (hc : StrictTotal comp) {a b : Nat}
    (h : comp b a = false) (hne : a ≠ b) : comp a b = true := by
  rcases hc.total a b hne with h1 | h1
  · exact h1
  · rw [h] at h1
    exact absurd h1 (by decide)

/-! ## Sift-down -/

theorem largerChild_spec {comp : Nat → Nat → Bool} (hc : StrictTotal comp) (xs : List Nat)
    (n i : Nat) (hl : 2 * i + 1 < n) :
    (largerChild comp xs n i = 2 * i + 1 ∨ largerChild comp xs n i = 2 * i + 2) ∧
    largerChild comp xs n i < n ∧
    ∀ d, 0 < d → d < n → (d - 1) / 2 = i →
      comp (xs.getD (largerChild comp xs n i) 0) (xs.getD d 0) = false := by
  unfold largerChild
  split_ifs with h
  · refine ⟨Or.inr rfl, h.1, ?_⟩
    intro d hd0 hdn hpd
    have hd : d = 2 * i + 1 ∨ d = 2 * i + 2 := by omega
    rcases hd with hd | hd
    · rw [hd]
      exact hc.asymm h.2
    · rw [hd]
      exact hc.irrefl _
  · refine ⟨Or.inl rfl, hl, ?_⟩
    intro d hd0 hdn hpd
    have hd : d = 2 * i + 1 ∨ d = 2 * i + 2 := by omega
    rcases hd with hd | hd
    · rw [hd]
      exact hc.irrefl _
    · rw [hd]
      cases hcmp : comp (xs.getD (2 * i + 1) 0) (xs.getD (2 * i + 2) 0)
      · rfl
      · exact absurd ⟨by omega, hcmp⟩ h

theorem siftDown_heapFrom {comp : Nat → Nat → Bool} (hc : StrictTotal comp) (n lo : Nat) :
    ∀ (fuel : Nat) (xs : List Nat) (i : Nat), n ≤ xs.length → lo ≤ i → n ≤ fuel + i →
      (∀ c, 0 < c → c < n → lo ≤ (c - 1) / 2 → (c - 1) / 2 ≠ i →
        comp (xs.getD ((c - 1) / 2) 0) (xs.getD c 0) = false) →
      (0 < i → lo ≤ (i - 1) / 2 → ∀ c, 0 < c → c < n → (c - 1) / 2 = i →
        comp (xs.getD ((i - 1) / 2) 0) (xs.getD c 0) = false) →
      HeapFrom comp (siftDown comp fuel xs n i) n lo := by
  intro fuel
  induction fuel with
  | zero =>
    intro xs i _ _ hfuel h1 _ c hc0 hcn hlo
    by_cases hp : (c - 1) / 2 = i
    · omega
    · exact h1 c hc0 hcn hlo hp
  | succ fuel ih =>
    intro xs i hlen hlo hfuel h1 h2
    unfold siftDown
    by_cases hl : 2 * i + 1 < n
    · rw [if_pos hl]
      obtain ⟨hch, hcn, hmax⟩ := largerChild_spec hc xs n i hl
      generalize largerChild comp xs n i = ch at hch hcn hmax
      have hpc : (ch - 1) / 2 = i := by omega
      have hic : i < ch := by omega
      by_cases hlt : comp (xs.getD i 0) (xs.getD ch 0) = true
      · rw [if_pos hlt]
        have hy : ∀ m, (swapAt xs i ch).getD m 0 =
            if m = ch then xs.getD i 0 else if m = i then xs.getD ch 0 else xs.getD m 0 :=
          fun m => getD_swapAt xs i ch m (by omega) (by omega)
        apply ih (swapAt xs i ch) ch (by rw [length_swapAt]; exact hlen) (by omega) (by omega)
        · intro d hd0 hdn hdlo hdp
          rw [hy, hy]
          by_cases hpi : (d - 1) / 2 = i
          · rw [if_neg hdp, if_pos hpi]
            by_cases hdc : d = ch
            · rw [if_pos hdc]
              exact hc.asymm hlt
            · rw [if_neg hdc, if_neg (by omega)]
              exact hmax d hd0 hdn hpi
          · rw [if_neg hdp, if_neg hpi]
            by_cases hdi : d = i
            · rw [if_neg (by omega), if_pos hdi]
              subst hdi
              exact h2 hd0 hdlo ch (by omega) hcn hpc
            · rw [if_neg (by omega), if_neg hdi]
              exact h1 d hd0 hdn hdlo hpi
        · intro _ _ d hd0 hdn hdp
          rw [hy, hy, hpc, if_neg (by omega), if_pos rfl, if_neg (by omega), if_neg (by omega)]
          have := h1 d hd0 hdn (by omega) (by omega)
          rw [hdp] at this
          exact this
      · rw [if_neg hlt]
        intro d hd0 hdn hdlo
        by_cases hpi : (d - 1) / 2 = i
        · rw [hpi]
          exact hc.ntrans (by simpa using hlt) (hmax d hd0 hdn hpi)
        · exact h1 d hd0 hdn hdlo hpi
    · rw [if_neg hl]
      intro c hc0 hcn hclo
      by_cases hp : (c - 1) / 2 = i
      · omega
      · exact h1 c hc0 hcn hclo hp

theorem largerChild_bounds (comp : Nat → Nat → Bool) (xs : List Nat) (n i : Nat)
    (hl : 2 * i + 1 < n) : i < largerChild comp xs n i ∧ largerChild comp xs n i < n := by
  unfold largerChild
  split_ifs with h
  · exact ⟨by omega, h.1⟩
  · exact ⟨by omega, hl⟩

theorem siftDown_length (comp : Nat → Nat → Bool) (n : Nat) :
    ∀ (fuel : Nat) (xs : List Nat) (i : Nat), (siftDown comp fuel xs n i).length = xs.length := by
  intro fuel
  induction fuel with
  | zero => intro xs i; rfl
  | succ fuel ih =>
    intro xs i
    unfold siftDown
    split_ifs
    · rw [ih, length_swapAt]
    · rfl
    · rfl

theorem siftDown_perm (comp : Nat → Nat → Bool) (n : Nat) :
    ∀ (fuel : Nat) (xs : List Nat) (i : Nat), n ≤ xs.length →
      (siftDown comp fuel xs n i).Perm xs := by
  intro fuel
  induction fuel with
  | zero => intro xs i _; exact List.Perm.refl _
  | succ fuel ih =>
    intro xs i hlen
    unfold siftDown
    split_ifs with hl hlt
    · obtain ⟨h1, h2⟩ := largerChild_bounds comp xs n i hl
      exact (ih _ _ (by rw [length_swapAt]; exact hlen)).trans
        (swapAt_perm xs i _ (by omega) (by omega))
    · exact List.Perm.refl _
    · exact List.Perm.refl _

theorem siftDown_frame (comp : Nat → Nat → Bool) (n : Nat) :
    ∀ (fuel : Nat) (xs : List Nat) (i : Nat), n ≤ xs.length → ∀ m, n ≤ m →
      (siftDown comp fuel xs n i).getD m 0 = xs.getD m 0 := by
  intro fuel
  induction fuel with
  | zero => intro xs i _ m _; rfl
  | succ fuel ih =>
    intro xs i hlen m hm
    unfold siftDown
    split_ifs with hl hlt
    · obtain ⟨h1, h2⟩ := largerChild_bounds comp xs n i hl
      rw [ih _ _ (by rw [length_swapAt]; exact hlen) m hm,
        getD_swapAt xs i _ m (by omega) (by omega), if_neg (by omega), if_neg (by omega)]
    · rfl
    · rfl

/-! ## Sift-up -/

theorem siftUp_length (comp : Nat → Nat → Bool) :
    ∀ (fuel : Nat) (xs : List Nat) (i : Nat), (siftUp comp fuel xs i).length = xs.length := by
  intro fuel
  induction fuel with
  | zero => intro xs i; rfl
  | succ fuel ih =>
    intro xs i
    unfold siftUp
    split_ifs
    · rfl
    · rw [ih, length_swapAt]
    · rfl

theorem siftUp_perm (comp : Nat → Nat → Bool) :
    ∀ (fuel : Nat) (xs : List Nat) (i : Nat), i < xs.length →
      (siftUp comp fuel xs i).Perm xs := by
  intro fuel
  induction fuel with
  | zero => intro xs i _; exact List.Perm.refl _
  | succ fuel ih =>
    intro xs i hi
    unfold siftUp
    split_ifs with h0 hlt
    · exact List.Perm.refl _
    · exact (ih _ _ (by rw [length_swapAt]; omega)).trans
        (swapAt_perm xs _ i (by omega) hi)
    · exact List.Perm.refl _

theorem siftUp_frame (comp : Nat → Nat → Bool) :
    ∀ (fuel : Nat) (xs : List Nat) (i : Nat), i < xs.length → ∀ m, i < m →
      (siftUp comp fuel xs i).getD m 0 = xs.getD m 0 := by
  intro fuel
  induction fuel with
  | zero => intro xs i _ m _; rfl
  | succ fuel ih =>
    intro xs i hi m hm
    unfold siftUp
    split_ifs with h0 hlt
    · rfl
    · rw [ih _ _ (by rw [length_swapAt]; omega) m (by omega),
        getD_swapAt xs _ i m (by omega) hi, if_neg (by omega), if_neg (by omega)]
    · rfl

theorem siftUp_heap {comp : Nat → Nat → Bool} (hc : StrictTotal comp) (n : Nat) :
    ∀ (fuel : Nat) (xs : List Nat) (i : Nat), n ≤ xs.length → i < n → i ≤ fuel →
      (∀ c, 0 < c → c < n → c ≠ i →
        comp (xs.getD ((c - 1) / 2) 0) (xs.getD c 0) = false) →
      (0 < i → ∀ c, 0 < c → c < n → (c - 1) / 2 = i →
        comp (xs.getD ((i - 1) / 2) 0) (xs.getD c 0) = false) →
      IsHeap comp (siftUp comp fuel xs i) n := by
  intro fuel
  induction fuel with
  | zero =>
    intro xs i _ _ hfuel h1 _ c hc0 hcn _
    exact h1 c hc0 hcn (by omega)
  | succ fuel ih =>
    intro xs i hlen hin hfuel h1 h2
    unfold siftUp
    by_cases h0 : i = 0
    · rw [if_pos h0]
      intro c hc0 hcn _
      exact h1 c hc0 hcn (by omega)
    · rw [if_neg h0]
      have hi0 : 0 < i := Nat.pos_of_ne_zero h0
      by_cases hlt : comp (xs.getD ((i - 1) / 2) 0) (xs.getD i 0) = true
      · rw [if_pos hlt]
        have hy : ∀ m, (swapAt xs ((i - 1) / 2) i).getD m 0 =
            if m = i then xs.getD ((i - 1) / 2) 0
            else if m = (i - 1) / 2 then xs.getD i 0 else xs.getD m 0 :=
          fun m => getD_swapAt xs ((i - 1) / 2) i m (by omega) (by omega)
        apply ih (swapAt xs ((i - 1) / 2) i) ((i - 1) / 2)
          (by rw [length_swapAt]; exact hlen) (by omega) (by omega)
        · intro c hc0 hcn hcp
          rw [hy, hy]
          by_cases hci : c = i
          · subst hci
            rw [if_neg (by omega), if_pos rfl, if_pos rfl]
            exact hc.asymm hlt
          · rw [if_neg hci, if_neg hcp]
            by_cases hpp : (c - 1) / 2 = (i - 1) / 2
            · rw [if_neg (by omega), if_pos hpp]
              have hs := h1 c hc0 hcn hci
              rw [hpp] at hs
              cases hx : comp (xs.getD i 0) (xs.getD c 0)
              · rfl
              · rw [hc.trans _ _ _ hlt hx] at hs
                exact absurd hs (by decide)
            · by_cases hpi : (c - 1) / 2 = i
              · rw [if_pos hpi]
                exact h2 hi0 c hc0 hcn hpi
              · rw [if_neg hpi, if_neg hpp]
                exact h1 c hc0 hcn hci
        · intro hp0 c hc0 hcn hcp
          rw [hy, hy, if_neg (by omega), if_neg (by omega)]
          have hpar := h1 ((i - 1) / 2) hp0 (by omega) (by omega)
          by_cases hci : c = i
          · rw [if_pos hci]
            exact hpar
          · rw [if_neg hci, if_neg (by omega)]
            have hs := h1 c hc0 hcn hci
            rw [hcp] at hs
            exact hc.ntrans hpar hs
      · rw [if_neg hlt]
        intro c hc0 hcn _
        by_cases hci : c = i
        · subst hci
          simpa using hlt
        · exact h1 c hc0 hcn hci

/-! ## Ranges of a buffer -/

theorem drop_eq_of_frame (xs ys : List Nat) (n : Nat) (hlen : ys.length = xs.length)
    (hf : ∀ m, n ≤ m → ys.getD m 0 = xs.getD m 0) : ys.drop n = xs.drop n := by
  apply List.ext_getElem
  · simp [hlen]
  · intro i h1 h2
    have h3 : n + i < ys.length := by
      rw [List.length_drop] at h1
      omega
    have h4 := hf (n + i) (by omega)
    rw [List.getD_eq_getElem _ _ h3, List.getD_eq_getElem _ _ (by omega)] at h4
    simpa using h4

theorem take_perm_of_frame (xs ys : List Nat) (n : Nat) (hlen : ys.length = xs.length)
    (hp : ys.Perm xs) (hf : ∀ m, n ≤ m → ys.getD m 0 = xs.getD m 0) :
    (ys.take n).Perm (xs.take n) := by
  have hd := drop_eq_of_frame xs ys n hlen hf
  have h1 : (ys.take n ++ ys.drop n).Perm (xs.take n ++ xs.drop n) := by
    rw [List.take_append_drop, List.take_append_drop]
    exact hp
  rw [hd] at h1
  exact (List.perm_append_right_iff _).1 h1

theorem mem_take_iff_getD (xs : List Nat) (n : Nat) (hn : n ≤ xs.length) (a : Nat) :
    a ∈ xs.take n ↔ ∃ c, c < n ∧ xs.getD c 0 = a := by
  rw [List.mem_iff_getElem]
  constructor
  · rintro ⟨c, hc, rfl⟩
    rw [List.length_take] at hc
    refine ⟨c, by omega, ?_⟩
    rw [List.getD_eq_getElem _ _ (by omega)]
    simp
  · rintro ⟨c, hc, rfl⟩
    refine ⟨c, by rw [List.length_take]; omega, ?_⟩
    rw [List.getD_eq_getElem _ _ (by omega)]
    simp

theorem take_succ_eq_append_getD (xs : List Nat) (n : Nat) (hn : n < xs.length) :
    xs.take (n + 1) = xs.take n ++ [xs.getD n 0] := by
  rw [List.take_succ, List.getD_eq_getElem _ _ hn, List.getElem?_eq_getElem hn]
  rfl

/-! ## Heap operations -/

theorem IsHeap.root_max {comp : Nat → Nat → Bool} (hc : StrictTotal comp) {xs : List Nat}
    {n : Nat} (h : IsHeap comp xs n) : ∀ c, c < n → comp (xs.getD 0 0) (xs.getD c 0) = false := by
  intro c
  induction c using Nat.strong_induction_on with
  | _ c ih =>
    intro hcn
    by_cases hc0 : c = 0
    · subst hc0
      exact hc.irrefl _
    · exact hc.ntrans (ih ((c - 1) / 2) (by omega) (by omega))
        (h c (by omega) hcn (Nat.zero_le _))

theorem push_heap_length (comp : Nat → Nat → Bool) (xs : List Nat) (n : Nat) :
    (push_heap comp xs n).length = xs.length :=
  siftUp_length comp n xs (n - 1)

theorem push_heap_perm (comp : Nat → Nat → Bool) (xs : List Nat) (n : Nat) (h0 : 0 < n)
    (hn : n ≤ xs.length) : (push_heap comp xs n).Perm xs :=
  siftUp_perm comp n xs (n - 1) (by omega)

theorem push_heap_frame (comp : Nat → Nat → Bool) (xs : List Nat) (n : Nat) (h0 : 0 < n)
    (hn : n ≤ xs.length) (m : Nat) (hm : n ≤ m) :
    (push_heap comp xs n).getD m 0 = xs.getD m 0 :=
  siftUp_frame comp n xs (n - 1) (by omega) m (by omega)

theorem push_heap_isHeap {comp : Nat → Nat → Bool} (hc : StrictTotal comp) (xs : List Nat)
    (n : Nat) (h0 : 0 < n) (hn : n ≤ xs.length) (h : IsHeap comp xs (n - 1)) :
    IsHeap comp (push_heap comp xs n) n := by
  apply siftUp_heap hc n n xs (n - 1) hn (by omega) (by omega)
  · intro c hc0 hcn hne
    exact h c hc0 (by omega) (Nat.zero_le _)
  · intro _ c hc0 hcn hp
    omega

theorem pop_heap_length (comp : Nat → Nat → Bool) (xs : List Nat) (n : Nat) :
    (pop_heap comp xs n).length = xs.length := by
  unfold pop_heap
  split_ifs
  · rfl
  · rw [siftDown_length, length_swapAt]

theorem pop_heap_perm (comp : Nat → Nat → Bool) (xs : List Nat) (n : Nat)
    (hn : n ≤ xs.length) : (pop_heap comp xs n).Perm xs := by
  unfold pop_heap
  split_ifs with h
  · exact List.Perm.refl _
  · exact (siftDown_perm comp (n - 1) n _ 0 (by rw [length_swapAt]; omega)).trans
      (swapAt_perm xs 0 (n - 1) (by omega) (by omega))

theorem pop_heap_frame (comp : Nat → Nat → Bool) (xs : List Nat) (n : Nat)
    (hn : n ≤ xs.length) (m : Nat) (hm : n ≤ m) :
    (pop_heap comp xs n).getD m 0 = xs.getD m 0 := by
  unfold pop_heap
  split_ifs with h
  · rfl
  · rw [siftDown_frame comp (n - 1) n _ 0 (by rw [length_swapAt]; omega) m (by omega),
      getD_swapAt xs 0 (n - 1) m (by omega) (by omega), if_neg (by omega), if_neg (by omega)]

theorem pop_heap_back (comp : Nat → Nat → Bool) (xs : List Nat) (n : Nat) (h0 : 0 < n)
    (hn : n ≤ xs.length) : (pop_heap comp xs n).getD (n - 1) 0 = xs.getD 0 0 := by
  unfold pop_heap
  split_ifs with h
  · have : n - 1 = 0 := by omega
    rw [this]
  · rw [siftDown_frame comp (n - 1) n _ 0 (by rw [length_swapAt]; omega) (n - 1) (le_refl _),
      getD_swapAt xs 0 (n - 1) (n - 1) (by omega) (by omega), if_pos rfl]

theorem pop_heap_isHeap {comp : Nat → Nat → Bool} (hc : StrictTotal comp) (xs : List Nat)
    (n : Nat) (hn : n ≤ xs.length) (h : IsHeap comp xs n) :
    IsHeap comp (pop_heap comp xs n) (n - 1) := by
  unfold pop_heap
  split_ifs with h1
  · intro c hc0 hcn _
    omega
  · apply siftDown_heapFrom hc (n - 1) 0 n _ 0 (by rw [length_swapAt]; omega) (le_refl _)
      (by omega)
    · intro c hc0 hcn _ hp
      rw [getD_swapAt xs 0 (n - 1) _ (by omega) (by omega),
        getD_swapAt xs 0 (n - 1) _ (by omega) (by omega),
        if_neg (by omega), if_neg hp, if_neg (by omega), if_neg (by omega)]
      exact h c hc0 (by omega) (Nat.zero_le _)
    · intro h0
      omega

theorem makeHeapLoop_length (comp : Nat → Nat → Bool) (n : Nat) :
    ∀ (j : Nat) (xs : List Nat), (makeHeapLoop comp n j xs).length = xs.length := by
  intro j
  induction j with
  | zero => intro xs; rfl
  | succ j ih => intro xs; unfold makeHeapLoop; rw [ih, siftDown_length]

theorem makeHeapLoop_perm (comp : Nat → Nat → Bool) (n : Nat) :
    ∀ (j : Nat) (xs : List Nat), n ≤ xs.length → (makeHeapLoop comp n j xs).Perm xs := by
  intro j
  induction j with
  | zero => intro xs _; exact List.Perm.refl _
  | succ j ih =>
    intro xs hn
    unfold makeHeapLoop
    exact (ih _ (by rw [siftDown_length]; exact hn)).trans (siftDown_perm comp n n xs j hn)

theorem makeHeapLoop_frame (comp : Nat → Nat → Bool) (n : Nat) :
    ∀ (j : Nat) (xs : List Nat), n ≤ xs.length → ∀ m, n ≤ m →
      (makeHeapLoop comp n j xs).getD m 0 = xs.getD m 0 := by
  intro j
  induction j with
  | zero => intro xs _ m _; rfl
  | succ j ih =>
    intro xs hn m hm
    unfold makeHeapLoop
    rw [ih _ (by rw [siftDown_length]; exact hn) m hm, siftDown_frame comp n n xs j hn m hm]

theorem makeHeapLoop_heapFrom {comp : Nat → Nat → Bool} (hc : StrictTotal comp) (n : Nat) :
    ∀ (j : Nat) (xs : List Nat), n ≤ xs.length → HeapFrom comp xs n j →
      IsHeap comp (makeHeapLoop comp n j xs) n := by
  intro j
  induction j with
  | zero => intro xs _ h; exact h
  | succ j ih =>
    intro xs hn h
    unfold makeHeapLoop
    apply ih _ (by rw [siftDown_length]; exact hn)
    apply siftDown_heapFrom hc n j n xs j hn (le_refl _) (by omega)
    · intro c hc0 hcn hlo hne
      exact h c hc0 hcn (by omega)
    · intro h0 hlo
      omega

theorem make_heap_length (comp : Nat → Nat → Bool) (xs : List Nat) (n : Nat) :
    (make_heap comp xs n).length = xs.length :=
  makeHeapLoop_length comp n _ xs

theorem make_heap_perm (comp : Nat → Nat → Bool) (xs : List Nat) (n : Nat)
    (hn : n ≤ xs.length) : (make_heap comp xs n).Perm xs :=
  makeHeapLoop_perm comp n _ xs hn

theorem make_heap_frame (comp : Nat → Nat → Bool) (xs : List Nat) (n : Nat)
    (hn : n ≤ xs.length) (m : Nat) (hm : n ≤ m) :
    (make_heap comp xs n).getD m 0 = xs.getD m 0 :=
  makeHeapLoop_frame comp n _ xs hn m hm

theorem make_heap_isHeap {comp : Nat → Nat → Bool} (hc : StrictTotal comp) (xs : List Nat)
    (n : Nat) (hn : n ≤ xs.length) : IsHeap comp (make_heap comp xs n) n := by
  apply makeHeapLoop_heapFrom hc n _ xs hn
  intro c hc0 hcn hlo
  omega

theorem sort_heap_spec {comp : Nat → Nat → Bool} (hc : StrictTotal comp) :
    ∀ (n : Nat) (xs : List Nat), n ≤ xs.length → IsHeap comp xs n →
      (sort_heap comp n xs).length = xs.length ∧
      (∀ m, n ≤ m → (sort_heap comp n xs).getD m 0 = xs.getD m 0) ∧
      (sort_heap comp n xs).Perm xs ∧
      ((sort_heap comp n xs).take n).Pairwise (fun a b => comp b a = false) := by
  intro n
  induction n with
  | zero =>
    intro xs _ _
    exact ⟨rfl, fun _ _ => rfl, List.Perm.refl _, by simp⟩
  | succ n ih =>
    intro xs hn h
    unfold sort_heap
    have hlen := pop_heap_length comp xs (n + 1)
    have hheap : IsHeap comp (pop_heap comp xs (n + 1)) n := pop_heap_isHeap hc xs (n + 1) hn h
    have hperm := pop_heap_perm comp xs (n + 1) hn
    have hframe := pop_heap_frame comp xs (n + 1) hn
    have hback : (pop_heap comp xs (n + 1)).getD n 0 = xs.getD 0 0 :=
      pop_heap_back comp xs (n + 1) (by omega) hn
    obtain ⟨h1, h2, h3, h4⟩ := ih (pop_heap comp xs (n + 1)) (by omega) hheap
    refine ⟨h1.trans hlen, fun m hm => (h2 m (by omega)).trans (hframe m hm), h3.trans hperm, ?_⟩
    rw [take_succ_eq_append_getD _ n (by omega), h2 n (le_refl _), hback, List.pairwise_append]
    refine ⟨h4, by simp, ?_⟩
    intro a ha b hb
    rw [List.mem_singleton] at hb
    subst hb
    have ha1 : a ∈ (pop_heap comp xs (n + 1)).take n :=
      (take_perm_of_frame _ _ n h1 h3 h2).subset ha
    have ha2 : a ∈ (pop_heap comp xs (n + 1)).take (n + 1) := by
      rw [take_succ_eq_append_getD _ n (by omega)]
      exact List.mem_append_left _ ha1
    have ha3 : a ∈ xs.take (n + 1) := (take_perm_of_frame _ _ (n + 1) hlen hperm hframe).subset ha2
    obtain ⟨c, hcn, rfl⟩ := (mem_take_iff_getD xs (n + 1) hn a).1 ha3
    exact h.root_max hc c hcn

theorem sort_heap_take_perm {comp : Nat → Nat → Bool} (hc : StrictTotal comp) (n : Nat)
    (xs : List Nat) (hn : n ≤ xs.length) (h : IsHeap comp xs n) :
    ((sort_heap comp n xs).take n).Perm (xs.take n) := by
  obtain ⟨h1, h2, h3, _⟩ := sort_heap_spec hc n xs hn h
  exact take_perm_of_frame _ _ n h1 h3 h2

/-! ## Sorted lists under a strict total order -/

theorem sorted_unique {comp : Nat → Nat → Bool} (hc : StrictTotal comp) {l₁ l₂ : List Nat}
    (hp : l₁.Perm l₂) (h1 : l₁.Pairwise (fun a b => comp a b = true))
    (h2 : l₂.Pairwise (fun a b => comp a b = true)) : l₁ = l₂ := by
  haveI : IsAntisymm Nat (fun a b => comp a b = true) :=
    ⟨fun a b hab hba => by
      have := hc.asymm hab
      rw [hba] at this
      exact absurd this (by decide)⟩
  exact List.eq_of_perm_of_sorted hp h1 h2

theorem strict_of_pairwise_ge {comp : Nat → Nat → Bool} (hc : StrictTotal comp) {l : List Nat}
    (h : l.Pairwise (fun a b => comp b a = false)) (hnd : l.Nodup) :
    l.Pairwise (fun a b => comp a b = true) :=
  (h.and hnd).imp (fun hab => hc.lt_of_not_gt hab.1 hab.2)

theorem std_sort_perm (comp : Nat → Nat → Bool) (xs : List Nat) : (std_sort comp xs).Perm xs :=
  List.perm_insertionSort _ xs

theorem std_sort_sorted {comp : Nat → Nat → Bool} (hc : StrictTotal comp) (xs : List Nat)
    (hnd : xs.Nodup) : (std_sort comp xs).Pairwise (fun a b => comp a b = true) := by
  haveI : IsTotal Nat (fun a b => comp b a = false) :=
    ⟨fun a b => by
      cases hba : comp b a
      · exact Or.inl rfl
      · exact Or.inr (hc.asymm hba)⟩
  haveI : IsTrans Nat (fun a b => comp b a = false) :=
    ⟨fun a b c hab hbc => hc.ntrans hbc hab⟩
  exact strict_of_pairwise_ge hc (List.sorted_insertionSort _ xs)
    ((std_sort_perm comp xs).nodup_iff.2 hnd)

/-- Any strictly sorted arrangement of the same candidates is the output of `std::sort`. -/
theorem std_sort_eq_of_sorted {comp : Nat → Nat → Bool} (hc : StrictTotal comp) {xs l : List Nat}
    (hp : l.Perm xs) (hs : l.Pairwise (fun a b => comp a b = true)) : std_sort comp xs = l := by
  have hnd : l.Nodup := hs.imp (fun {a b} hab hEq => by
    subst hEq
    rw [hc.irrefl a] at hab
    exact absurd hab (by decide))
  exact sorted_unique hc ((std_sort_perm comp xs).trans hp.symm)
    (std_sort_sorted hc xs (hp.nodup_iff.1 hnd)) hs

/-! ## The comparators -/

theorem compareDescend_eq_true_iff (v : List Int) (a b : Nat) :
    compareDescend v a b = true ↔
      v.getD a 0 > v.getD b 0 ∨ (v.getD a 0 = v.getD b 0 ∧ a < b) := by
  unfold compareDescend
  split_ifs with h1 h2
  · simp only [true_iff]
    omega
  · simp only [Bool.false_eq_true, false_iff]
    omega
  · simp only [decide_eq_true_eq]
    omega

theorem compareAscend_eq_true_iff (v : List Int) (a b : Nat) :
    compareAscend v a b = true ↔
      v.getD a 0 < v.getD b 0 ∨ (v.getD a 0 = v.getD b 0 ∧ a < b) := by
  unfold compareAscend
  split_ifs with h1 h2
  · simp only [Bool.false_eq_true, false_iff]
    omega
  · simp only [true_iff]
    omega
  · simp only [decide_eq_true_eq]
    omega

theorem compareDescend_strictTotal (v : List Int) : StrictTotal (compareDescend v) := by
  refine ⟨fun a => ?_, fun a b c h1 h2 => ?_, fun a b hne => ?_⟩
  · rw [Bool.eq_false_iff, Ne, compareDescend_eq_true_iff]
    omega
  · rw [compareDescend_eq_true_iff] at *
    omega
  · rw [compareDescend_eq_true_iff, compareDescend_eq_true_iff]
    omega

theorem compareAscend_strictTotal (v : List Int) : StrictTotal (compareAscend v) := by
  refine ⟨fun a => ?_, fun a b c h1 h2 => ?_, fun a b hne => ?_⟩
  · rw [Bool.eq_false_iff, Ne, compareAscend_eq_true_iff]
    omega
  · rw [compareAscend_eq_true_iff] at *
    omega
  · rw [compareAscend_eq_true_iff, compareAscend_eq_true_iff]
    omega

theorem TopContainer.comparator_strictTotal (t : TopContainer) : StrictTotal t.comparator := by
  unfold TopContainer.comparator
  split_ifs
  · exact compareDescend_strictTotal _
  · exact compareAscend_strictTotal _

/-! ## The container while candidates are pushed -/

theorem TopContainer.push_mK (t : TopContainer) (a : Nat) : (t.push a).mK = t.mK := by
  unfold TopContainer.push
  split_ifs <;> rfl

theorem TopContainer.push_comparator (t : TopContainer) (a : Nat) :
    (t.push a).comparator = t.comparator := by
  unfold TopContainer.push
  split_ifs <;> rfl

theorem TopContainer.pushInv_start (t : TopContainer) (values : List Int) :
    PushInv (t.startCollecting values) [] :=
  ⟨fun _ => rfl, fun h => absurd h (by simp)⟩

theorem TopContainer.push_container_small (t : TopContainer) (a : Nat)
    (h : t.mContainer.length < t.mK) : (t.push a).mContainer = t.mContainer ++ [a] := by
  unfold TopContainer.push
  rw [if_pos (by omega), if_neg (by rw [List.length_append, List.length_singleton]; omega)]

theorem TopContainer.push_container_fill (t : TopContainer) (a : Nat)
    (h : t.mContainer.length = t.mK) :
    (t.push a).mContainer =
      pop_heap t.comparator (make_heap t.comparator (t.mContainer ++ [a]) (t.mK + 1))
        (t.mK + 1) := by
  have hl : (t.mContainer ++ [a]).length = t.mK + 1 := by
    rw [List.length_append, List.length_singleton, h]
  unfold TopContainer.push
  rw [if_pos (by omega), if_pos hl, hl]

theorem TopContainer.push_container_better (t : TopContainer) (a : Nat)
    (h : t.mContainer.length = t.mK + 1)
    (hb : t.comparator a (t.mContainer.getD 0 0) = true) :
    (t.push a).mContainer =
      pop_heap t.comparator (push_heap t.comparator (t.mContainer.set t.mK a) (t.mK + 1))
        (t.mK + 1) := by
  unfold TopContainer.push
  rw [if_neg (by omega), if_pos hb, h, Nat.add_sub_cancel]

theorem TopContainer.push_container_worse (t : TopContainer) (a : Nat)
    (h : t.mContainer.length = t.mK + 1)
    (hb : t.comparator a (t.mContainer.getD 0 0) = false) :
    t.push a = t := by
  unfold TopContainer.push
  rw [if_neg (by omega), if_neg (by rw [hb]; decide)]

theorem pop_heap_overflow {comp : Nat → Nat → Bool} (hc : StrictTotal comp) (v : List Nat)
    (k : Nat) (hlen : v.length = k + 1) (hnd : v.Nodup) (hh : IsHeap comp v (k + 1)) :
    (pop_heap comp v (k + 1)).length = k + 1 ∧
    IsHeap comp (pop_heap comp v (k + 1)) k ∧
    (pop_heap comp v (k + 1)).Perm v ∧
    pop_heap comp v (k + 1) =
      (pop_heap comp v (k + 1)).take k ++ [(pop_heap comp v (k + 1)).getD k 0] ∧
    ∀ x ∈ (pop_heap comp v (k + 1)).take k,
      comp x ((pop_heap comp v (k + 1)).getD k 0) = true := by
  have h1 : (pop_heap comp v (k + 1)).length = k + 1 := (pop_heap_length comp v _).trans hlen
  have h2 : IsHeap comp (pop_heap comp v (k + 1)) k := pop_heap_isHeap hc v (k + 1) (by omega) hh
  have h3 := pop_heap_perm comp v (k + 1) (by omega)
  have h4 : pop_heap comp v (k + 1) =
      (pop_heap comp v (k + 1)).take k ++ [(pop_heap comp v (k + 1)).getD k 0] := by
    rw [← take_succ_eq_append_getD _ k (by omega), List.take_of_length_le (by omega)]
  have h5 : (pop_heap comp v (k + 1)).getD k 0 = v.getD 0 0 :=
    pop_heap_back comp v (k + 1) (by omega) (by omega)
  refine ⟨h1, h2, h3, h4, ?_⟩
  intro x hx
  have hnd2 : ((pop_heap comp v (k + 1)).take k ++ [(pop_heap comp v (k + 1)).getD k 0]).Nodup := by
    rw [← h4]
    exact h3.nodup_iff.2 hnd
  have hne : x ≠ (pop_heap comp v (k + 1)).getD k 0 := by
    intro hEq
    exact (List.disjoint_of_nodup_append hnd2) hx (by rw [hEq]; exact List.mem_singleton_self _)
  have hxv : x ∈ v.take (k + 1) := by
    rw [List.take_of_length_le (by omega)]
    exact h3.subset (List.mem_of_mem_take hx)
  obtain ⟨c, hck, hcx⟩ := (mem_take_iff_getD v (k + 1) (by omega) x).1 hxv
  have hmax := hh.root_max hc c hck
  rw [hcx, ← h5] at hmax
  exact hc.lt_of_not_gt hmax hne

theorem isHeap_congr (comp : Nat → Nat → Bool) (xs ys : List Nat) (n : Nat)
    (h : ∀ m, m < n → ys.getD m 0 = xs.getD m 0) (hx : IsHeap comp xs n) : IsHeap comp ys n := by
  intro c hc0 hcn hlo
  rw [h c hcn, h ((c - 1) / 2) (by omega)]
  exact hx c hc0 hcn hlo

theorem set_last_eq (xs : List Nat) (k a : Nat) (h : xs.length = k + 1) :
    xs.set k a = xs.take k ++ [a] := by
  rw [List.set_eq_take_append_cons_drop, if_pos (by omega), List.drop_of_length_le (by omega)]

theorem TopContainer.push_pushInv (t : TopContainer) (ps : List Nat) (a : Nat)
    (hinv : PushInv t ps) (hnd : (ps ++ [a]).Nodup) : PushInv (t.push a) (ps ++ [a]) := by
  have hc := t.comparator_strictTotal
  obtain ⟨hsmall, hbig⟩ := hinv
  have hlenA : (ps ++ [a]).length = ps.length + 1 := by
    rw [List.length_append, List.length_singleton]
  unfold PushInv
  rw [TopContainer.push_mK, TopContainer.push_comparator, hlenA]
  rcases Nat.lt_trichotomy ps.length t.mK with hlt | heq | hgt
  · have hcont := hsmall (by omega)
    refine ⟨fun _ => ?_, fun h => ?_⟩
    · rw [TopContainer.push_container_small t a (by rw [hcont]; exact hlt), hcont]
    · omega
  · have hcont := hsmall (by omega)
    refine ⟨fun h => ?_, fun _ => ?_⟩
    · omega
    · rw [TopContainer.push_container_fill t a (by rw [hcont]; exact heq), hcont]
      have hmlen : (make_heap t.comparator (ps ++ [a]) (t.mK + 1)).length = t.mK + 1 := by
        rw [make_heap_length, hlenA, heq]
      have hmperm : (make_heap t.comparator (ps ++ [a]) (t.mK + 1)).Perm (ps ++ [a]) :=
        make_heap_perm _ _ _ (by omega)
      have hmheap : IsHeap t.comparator (make_heap t.comparator (ps ++ [a]) (t.mK + 1))
          (t.mK + 1) := make_heap_isHeap hc _ _ (by omega)
      obtain ⟨h1, h2, h3, h4, h5⟩ :=
        pop_heap_overflow hc _ t.mK hmlen (hmperm.nodup_iff.2 hnd) hmheap
      refine ⟨h1, h2, [_], ?_, List.mem_singleton_self _, ?_⟩
      · rw [← h4]
        exact (h3.trans hmperm).symm
      · intro x hx d hd
        rw [List.mem_singleton] at hd
        subst hd
        exact h5 x hx
  · obtain ⟨hlen, hheap, rest, hperm, hback, hbest⟩ := hbig hgt
    refine ⟨fun h => ?_, fun _ => ?_⟩
    · omega
    · cases hb : t.comparator a (t.mContainer.getD 0 0)
      · rw [TopContainer.push_container_worse t a hlen hb]
        refine ⟨hlen, hheap, rest ++ [a], ?_, List.mem_append_left _ hback, ?_⟩
        · rw [← List.append_assoc]
          exact hperm.append_right [a]
        · intro x hx d hd
          rcases List.mem_append.1 hd with hd | hd
          · exact hbest x hx d hd
          · rw [List.mem_singleton] at hd
            subst hd
            obtain ⟨c, hck, hcx⟩ := (mem_take_iff_getD _ t.mK (by omega) x).1 hx
            have hmax := hheap.root_max hc c hck
            rw [hcx] at hmax
            have hxps : x ∈ ps := hperm.symm.subset (List.mem_append_left _ hx)
            have hxa : x ≠ d := by
              intro hEq
              exact (List.disjoint_of_nodup_append hnd) hxps
                (by rw [hEq]; exact List.mem_singleton_self _)
            exact hc.lt_of_not_gt (hc.ntrans hb hmax) hxa
      · rw [TopContainer.push_container_better t a hlen hb]
        have hv : t.mContainer.set t.mK a = t.mContainer.take t.mK ++ [a] :=
          set_last_eq _ _ _ hlen
        have hvlen : (t.mContainer.set t.mK a).length = t.mK + 1 := by
          rw [List.length_set, hlen]
        have hvheap : IsHeap t.comparator (t.mContainer.set t.mK a) (t.mK + 1 - 1) := by
          rw [Nat.add_sub_cancel]
          apply isHeap_congr _ t.mContainer _ _ _ hheap
          intro m hm
          rw [List.getD_eq_getElem?_getD, List.getD_eq_getElem?_getD,
            List.getElem?_set_ne (by omega)]
        have hvnd : (t.mContainer.set t.mK a).Nodup := by
          rw [hv]
          have hsub : List.Sublist (t.mContainer.take t.mK ++ [a])
              ((t.mContainer.take t.mK ++ rest) ++ [a]) :=
            List.Sublist.append (List.sublist_append_left _ _) (List.Sublist.refl _)
          exact ((hperm.append_right [a]).nodup_iff.1 hnd).sublist hsub
        have hplen := (push_heap_length t.comparator (t.mContainer.set t.mK a) (t.mK + 1)).trans
          hvlen
        have hpperm := push_heap_perm t.comparator (t.mContainer.set t.mK a) (t.mK + 1)
          (by omega) (by omega)
        have hpheap := push_heap_isHeap hc (t.mContainer.set t.mK a) (t.mK + 1)
          (by omega) (by omega) hvheap
        obtain ⟨h1, h2, h3, h4, h5⟩ :=
          pop_heap_overflow hc _ t.mK hplen (hpperm.nodup_iff.2 hvnd) hpheap
        refine ⟨h1, h2, _ :: rest, ?_, List.mem_cons_self _ _, ?_⟩
        · have e1 : ∀ (r : List Nat) (y : Nat), r.take t.mK ++ y :: rest =
              (r.take t.mK ++ [y]) ++ rest := by
            intro r y
            simp
          rw [e1, ← h4]
          have hrv : (pop_heap t.comparator
              (push_heap t.comparator (t.mContainer.set t.mK a) (t.mK + 1)) (t.mK + 1) ++ rest).Perm
              ((t.mContainer.take t.mK ++ [a]) ++ rest) := by
            rw [← hv]
            exact (h3.trans hpperm).append_right rest
          refine List.Perm.symm (hrv.trans ?_)
          rw [List.append_assoc]
          refine List.Perm.trans ?_ (hperm.symm.append_right [a])
          rw [List.append_assoc]
          exact List.Perm.append_left _ List.perm_append_comm
        · intro x hx d hd
          rcases List.mem_cons.1 hd with hd1 | hd1
          · subst hd1
            exact h5 x hx
          · clear hd
            have hxv : x ∈ t.mContainer.take t.mK ++ [a] := by
              rw [← hv]
              exact (h3.trans hpperm).subset (List.mem_of_mem_take hx)
            rcases List.mem_append.1 hxv with hx1 | hx1
            · exact hbest x hx1 d hd1
            · rw [List.mem_singleton] at hx1
              subst hx1
              have hk0 : 0 < t.mK := by
                rcases Nat.eq_zero_or_pos t.mK with h0 | h0
                · rw [h0, List.take_zero] at hx
                  exact absurd hx (List.not_mem_nil _)
                · exact h0
              have hfront : t.mContainer.getD 0 0 ∈ t.mContainer.take t.mK :=
                (mem_take_iff_getD _ t.mK (by omega) _).2 ⟨0, hk0, rfl⟩
              exact hc.trans _ _ _ hb (hbest _ hfront d hd1)

theorem TopContainer.foldl_push_mK (qs : List Nat) :
    ∀ t : TopContainer, (qs.foldl TopContainer.push t).mK = t.mK := by
  induction qs with
  | nil => intro t; rfl
  | cons q qs ih => intro t; rw [List.foldl_cons, ih, TopContainer.push_mK]

theorem TopContainer.foldl_push_comparator (qs : List Nat) :
    ∀ t : TopContainer, (qs.foldl TopContainer.push t).comparator = t.comparator := by
  induction qs with
  | nil => intro t; rfl
  | cons q qs ih => intro t; rw [List.foldl_cons, ih, TopContainer.push_comparator]

theorem TopContainer.foldl_push_pushInv (qs : List Nat) :
    ∀ (t : TopContainer) (ps : List Nat), PushInv t ps → (ps ++ qs).Nodup →
      PushInv (qs.foldl TopContainer.push t) (ps ++ qs) := by
  induction qs with
  | nil =>
    intro t ps h _
    rw [List.append_nil]
    exact h
  | cons q qs ih =>
    intro t ps h hnd
    have hnd2 : ((ps ++ [q]) ++ qs).Nodup := by
      rw [List.append_assoc]
      exact hnd
    have h1 := t.push_pushInv ps q h (List.Nodup.of_append_left hnd2)
    have h2 := ih (t.push q) (ps ++ [q]) h1 hnd2
    rw [List.append_assoc] at h2
    exact h2

theorem resize_of_length_succ (zs : List Nat) (k : Nat) (h : zs.length = k + 1) :
    resize zs k = zs.take k := by
  unfold resize
  rw [h, show k - (k + 1) = 0 by omega, List.replicate_zero, List.append_nil]

theorem TopContainer.sortedResult_of_pushInv (t : TopContainer) (ps : List Nat)
    (hinv : PushInv t ps) (hnd : ps.Nodup) :
    t.sortedResult.mContainer = (std_sort t.comparator ps).take t.mK := by
  have hc := t.comparator_strictTotal
  obtain ⟨hsmall, hbig⟩ := hinv
  by_cases hle : ps.length ≤ t.mK
  · have hcont := hsmall hle
    unfold TopContainer.sortedResult
    rw [if_pos (by rw [hcont]; exact hle), hcont]
    have hl : (std_sort t.comparator ps).length ≤ t.mK := by
      rw [(std_sort_perm _ ps).length_eq]
      exact hle
    rw [List.take_of_length_le hl]
  · obtain ⟨hlen, hheap, rest, hperm, _, hbest⟩ := hbig (by omega)
    unfold TopContainer.sortedResult
    rw [if_neg (by omega), hlen, Nat.add_sub_cancel]
    obtain ⟨h1, _, _, h4⟩ := sort_heap_spec hc t.mK t.mContainer (by omega) hheap
    have hSperm := sort_heap_take_perm hc t.mK t.mContainer (by omega) hheap
    rw [show (TopContainer.mk t.mK t.mLargest
        (resize (sort_heap t.comparator t.mK t.mContainer) t.mK) t.mValues).mContainer =
        resize (sort_heap t.comparator t.mK t.mContainer) t.mK from rfl,
      resize_of_length_succ _ _ (h1.trans hlen)]
    have hndAll : (t.mContainer.take t.mK ++ rest).Nodup := hperm.nodup_iff.1 hnd
    have hSnd : ((sort_heap t.comparator t.mK t.mContainer).take t.mK).Nodup :=
      hSperm.nodup_iff.2 (List.Nodup.of_append_left hndAll)
    have hSlen : ((sort_heap t.comparator t.mK t.mContainer).take t.mK).length = t.mK := by
      rw [List.length_take, h1, hlen]
      omega
    have hL : std_sort t.comparator ps =
        (sort_heap t.comparator t.mK t.mContainer).take t.mK ++ std_sort t.comparator rest := by
      apply std_sort_eq_of_sorted hc
      · exact ((hSperm.append (std_sort_perm _ rest)).trans hperm.symm)
      · rw [List.pairwise_append]
        refine ⟨strict_of_pairwise_ge hc h4 hSnd,
          std_sort_sorted hc rest (List.Nodup.of_append_right hndAll), ?_⟩
        intro x hx d hd
        exact hbest x (hSperm.subset hx) d ((std_sort_perm _ rest).subset hd)
    rw [hL, List.take_left' hSlen]

theorem TopContainer.startCollecting_comparator (t : TopContainer) (values : List Int) :
    (t.startCollecting values).comparator = fullComparator t.mLargest values := rfl

/-- The container returned for a row holds the first `mK` entries of the sorted column
indices. -/
theorem collectRow_container (topc : TopContainer) (values : List Int) (rowSize : Nat) :
    (collectRow topc values rowSize).mContainer =
      (std_sort (fullComparator topc.mLargest values) (List.range rowSize)).take topc.mK := by
  have hinv := TopContainer.foldl_push_pushInv (List.range rowSize)
    (topc.startCollecting values) [] (TopContainer.pushInv_start topc values)
    (by rw [List.nil_append]; exact List.nodup_range rowSize)
  rw [List.nil_append] at hinv
  unfold collectRow
  rw [TopContainer.sortedResult_of_pushInv _ _ hinv (List.nodup_range rowSize),
    TopContainer.foldl_push_comparator, TopContainer.foldl_push_mK,
    TopContainer.startCollecting_comparator]
  rfl

theorem TopContainer.sortedResult_mK (t : TopContainer) : t.sortedResult.mK = t.mK := by
  unfold TopContainer.sortedResult
  split_ifs <;> rfl

theorem TopContainer.sortedResult_mLargest (t : TopContainer) :
    t.sortedResult.mLargest = t.mLargest := by
  unfold TopContainer.sortedResult
  split_ifs <;> rfl

theorem TopContainer.push_mLargest (t : TopContainer) (a : Nat) :
    (t.push a).mLargest = t.mLargest := by
  unfold TopContainer.push
  split_ifs <;> rfl

theorem TopContainer.foldl_push_mLargest (qs : List Nat) :
    ∀ t : TopContainer, (qs.foldl TopContainer.push t).mLargest = t.mLargest := by
  induction qs with
  | nil => intro t; rfl
  | cons q qs ih => intro t; rw [List.foldl_cons, ih, TopContainer.push_mLargest]

theorem collectRow_mK (topc : TopContainer) (values : List Int) (rowSize : Nat) :
    (collectRow topc values rowSize).mK = topc.mK := by
  unfold collectRow
  rw [TopContainer.sortedResult_mK, TopContainer.foldl_push_mK]
  rfl

theorem collectRow_mLargest (topc : TopContainer) (values : List Int) (rowSize : Nat) :
    (collectRow topc values rowSize).mLargest = topc.mLargest := by
  unfold collectRow
  rw [TopContainer.sortedResult_mLargest, TopContainer.foldl_push_mLargest]
  rfl

theorem fullComparator_strictTotal (largest : Bool) (row : List Int) :
    StrictTotal (fullComparator largest row) := by
  unfold fullComparator
  split_ifs
  · exact compareDescend_strictTotal _
  · exact compareAscend_strictTotal _

theorem bruteForceOrder_perm (row : List Int) (largest : Bool) :
    (bruteForceOrder row largest).Perm (List.range row.length) :=
  List.perm_insertionSort _ _

theorem bruteForceOrder_sorted (row : List Int) (largest : Bool) :
    (bruteForceOrder row largest).Pairwise (fun a b => fullComparator largest row a b = true) := by
  have hc := fullComparator_strictTotal largest row
  haveI : IsTotal Nat (fun a b => fullComparator largest row a b = true ∨ a = b) :=
    ⟨fun a b => by
      by_cases hab : a = b
      · exact Or.inl (Or.inr hab)
      · rcases hc.total a b hab with h | h
        · exact Or.inl (Or.inl h)
        · exact Or.inr (Or.inl h)⟩
  haveI : IsTrans Nat (fun a b => fullComparator largest row a b = true ∨ a = b) :=
    ⟨fun a b c hab hbc => by
      rcases hab with hab | hab
      · rcases hbc with hbc | hbc
        · exact Or.inl (hc.trans _ _ _ hab hbc)
        · exact Or.inl (hbc ▸ hab)
      · exact hab ▸ hbc⟩
  have hs : (bruteForceOrder row largest).Pairwise
      (fun a b => fullComparator largest row a b = true ∨ a = b) :=
    List.sorted_insertionSort _ _
  have hnd : (bruteForceOrder row largest).Nodup :=
    (bruteForceOrder_perm row largest).nodup_iff.2 (List.nodup_range _)
  exact (hs.and hnd).imp (fun hab => hab.1.resolve_right hab.2)

theorem std_sort_eq_bruteForceOrder (row : List Int) (largest : Bool) :
    std_sort (fullComparator largest row) (List.range row.length) = bruteForceOrder row largest :=
  std_sort_eq_of_sorted (fullComparator_strictTotal largest row)
    (bruteForceOrder_perm row largest) (bruteForceOrder_sorted row largest)

/-! ## Output buffers -/

theorem std_copy_length {α : Type} :
    ∀ (src : List α) (off : Nat) (out : List α), (std_copy src off out).length = out.length := by
  intro src
  induction src with
  | nil => intro off out; rfl
  | cons x src ih =>
    intro off out
    unfold std_copy
    rw [ih, List.length_set]

theorem std_copy_getElem? {α : Type} :
    ∀ (src : List α) (off : Nat) (out : List α), off + src.length ≤ out.length → ∀ p,
      (std_copy src off out)[p]? =
        if off ≤ p ∧ p < off + src.length then src[p - off]? else out[p]? := by
  intro src
  induction src with
  | nil =>
    intro off out _ p
    unfold std_copy
    rw [if_neg (by simp)]
  | cons x src ih =>
    intro off out h p
    rw [List.length_cons] at h
    unfold std_copy
    rw [ih (off + 1) (out.set off x) (by rw [List.length_set]; omega) p]
    by_cases h1 : off + 1 ≤ p ∧ p < off + 1 + src.length
    · rw [if_pos h1, if_pos (by rw [List.length_cons]; omega)]
      obtain ⟨q, hq⟩ : ∃ q, p - off = q + 1 := ⟨p - off - 1, by omega⟩
      rw [hq, List.getElem?_cons_succ, show p - (off + 1) = q by omega]
    · rw [if_neg h1]
      by_cases h2 : p = off
      · subst h2
        rw [if_pos (by rw [List.length_cons]; omega), Nat.sub_self, List.getElem?_cons_zero,
          List.getElem?_set_self (by omega)]
      · rw [if_neg (by rw [List.length_cons]; omega), List.getElem?_set_ne (by omega)]

theorem std_copy_whole {α : Type} (src out : List α) (h : out.length = src.length) :
    std_copy src 0 out = src := by
  apply List.ext_getElem?
  intro p
  rw [std_copy_getElem? src 0 out (by omega) p]
  by_cases hp : p < src.length
  · rw [if_pos (by omega), Nat.sub_zero]
  · rw [if_neg (by omega), List.getElem?_eq_none (by omega), List.getElem?_eq_none (by omega)]

/-! ## The row loop of findTopK -/

theorem findTopKRow_fst (rowSize : Nat) (data : List Int) (k : Nat)
    (st : TopContainer × List Nat × List Int) (row : Nat) :
    (findTopKRow rowSize data k st row).1 = collectRow st.1 (data.drop (row * rowSize)) rowSize :=
  rfl

theorem findTopKRow_indexes (rowSize : Nat) (data : List Int) (k : Nat)
    (st : TopContainer × List Nat × List Int) (row : Nat) :
    (findTopKRow rowSize data k st row).2.1 =
      std_copy ((std_sort (fullComparator st.1.mLargest (data.drop (row * rowSize)))
        (List.range rowSize)).take st.1.mK) (row * k) st.2.1 := by
  rw [← collectRow_container]
  rfl

theorem findTopKRow_values (rowSize : Nat) (data : List Int) (k : Nat)
    (st : TopContainer × List Nat × List Int) (row : Nat) :
    (findTopKRow rowSize data k st row).2.2 =
      std_copy (((std_sort (fullComparator st.1.mLargest (data.drop (row * rowSize)))
        (List.range rowSize)).take st.1.mK).map
          (fun loc => (data.drop (row * rowSize)).getD loc 0)) (row * k) st.2.2 := by
  rw [← collectRow_container]
  rfl

theorem findTopK_one (rowSize : Nat) (data : List Int) (k : Nat) (outputIndexes : List Nat)
    (outputValues : List Int) (largest : Bool) :
    findTopK rowSize 1 data k outputIndexes outputValues largest =
      (findTopKRow rowSize data k (TopContainer.new k rowSize largest, outputIndexes,
        outputValues) 0).2 := rfl

theorem bruteForceOrder_length (row : List Int) (largest : Bool) :
    (bruteForceOrder row largest).length = row.length := by
  rw [(bruteForceOrder_perm row largest).length_eq, List.length_range]

theorem findTopK_single_row (row : List Int) (k : Nat) (largest : Bool)
    (outputIndexes : List Nat) (outputValues : List Int) (hk : k ≤ row.length)
    (hI : outputIndexes.length = k) (hV : outputValues.length = k) :
    findTopK row.length 1 row k outputIndexes outputValues largest =
      ((bruteForceOrder row largest).take k,
       ((bruteForceOrder row largest).take k).map (fun i => row.getD i 0)) := by
  have hlen : ((bruteForceOrder row largest).take k).length = k := by
    rw [List.length_take, bruteForceOrder_length]
    omega
  rw [findTopK_one]
  apply Prod.ext
  · rw [findTopKRow_indexes]
    simp only [TopContainer.new, Nat.zero_mul, List.drop_zero]
    rw [std_sort_eq_bruteForceOrder, std_copy_whole _ _ (by rw [hlen]; exact hI)]
  · rw [findTopKRow_values]
    simp only [TopContainer.new, Nat.zero_mul, List.drop_zero]
    rw [std_sort_eq_bruteForceOrder, std_copy_whole _ _ (by rw [List.length_map, hlen]; exact hV)]

/-! ## Several rows -/

theorem rowTopK_length (largest : Bool) (valuesRow : List Int) (rowSize k : Nat)
    (hk : k ≤ rowSize) : (rowTopK largest valuesRow rowSize k).length = k := by
  unfold rowTopK
  rw [List.length_take, (std_sort_perm _ _).length_eq, List.length_range]
  omega

theorem rowTopK_lt (largest : Bool) (valuesRow : List Int) (rowSize k : Nat) :
    ∀ i ∈ rowTopK largest valuesRow rowSize k, i < rowSize := by
  intro i hi
  exact List.mem_range.1 ((std_sort_perm _ _).subset (List.mem_of_mem_take hi))

theorem findTopKRow_mK (rowSize : Nat) (data : List Int) (k : Nat)
    (st : TopContainer × List Nat × List Int) (row : Nat) :
    (findTopKRow rowSize data k st row).1.mK = st.1.mK := by
  rw [findTopKRow_fst, collectRow_mK]

theorem findTopKRow_mLargest (rowSize : Nat) (data : List Int) (k : Nat)
    (st : TopContainer × List Nat × List Int) (row : Nat) :
    (findTopKRow rowSize data k st row).1.mLargest = st.1.mLargest := by
  rw [findTopKRow_fst, collectRow_mLargest]

theorem findTopKRow_indexes_eq (rowSize : Nat) (data : List Int) (k : Nat)
    (st : TopContainer × List Nat × List Int) (row : Nat) :
    (findTopKRow rowSize data k st row).2.1 =
      std_copy (rowTopK st.1.mLargest (data.drop (row * rowSize)) rowSize st.1.mK) (row * k)
        st.2.1 :=
  findTopKRow_indexes rowSize data k st row

theorem findTopKRow_values_eq (rowSize : Nat) (data : List Int) (k : Nat)
    (st : TopContainer × List Nat × List Int) (row : Nat) :
    (findTopKRow rowSize data k st row).2.2 =
      std_copy ((rowTopK st.1.mLargest (data.drop (row * rowSize)) rowSize st.1.mK).map
        (fun loc => (data.drop (row * rowSize)).getD loc 0)) (row * k) st.2.2 :=
  findTopKRow_values rowSize data k st row

/-- The state of the row loop of `findTopK` after the rows `0 .. n - 1`. -/
theorem findTopK_loop (rowSize : Nat) (data : List Int) (k : Nat) (largest : Bool)
    (outputIndexes : List Nat) (outputValues : List Int) (hk : k ≤ rowSize) :
    ∀ n, n * k ≤ outputIndexes.length → n * k ≤ outputValues.length →
      ((List.range n).foldl (findTopKRow rowSize data k)
        (TopContainer.new k rowSize largest, outputIndexes, outputValues)).1.mK = k ∧
      ((List.range n).foldl (findTopKRow rowSize data k)
        (TopContainer.new k rowSize largest, outputIndexes, outputValues)).1.mLargest
          = largest ∧
      ((List.range n).foldl (findTopKRow rowSize data k)
        (TopContainer.new k rowSize largest, outputIndexes, outputValues)).2.1.length
          = outputIndexes.length ∧
      ((List.range n).foldl (findTopKRow rowSize data k)
        (TopContainer.new k rowSize largest, outputIndexes, outputValues)).2.2.length
          = outputValues.length ∧
      (∀ r j, r < n → j < k →
        ((List.range n).foldl (findTopKRow rowSize data k)
          (TopContainer.new k rowSize largest, outputIndexes, outputValues)).2.1[r * k + j]? =
          (rowTopK largest (data.drop (r * rowSize)) rowSize k)[j]? ∧
        ((List.range n).foldl (findTopKRow rowSize data k)
          (TopContainer.new k rowSize largest, outputIndexes, outputValues)).2.2[r * k + j]? =
          ((rowTopK largest (data.drop (r * rowSize)) rowSize k).map
            (fun loc => (data.drop (r * rowSize)).getD loc 0))[j]?) ∧
      (∀ p, n * k ≤ p →
        ((List.range n).foldl (findTopKRow rowSize data k)
          (TopContainer.new k rowSize largest, outputIndexes, outputValues)).2.1[p]? =
          outputIndexes[p]? ∧
        ((List.range n).foldl (findTopKRow rowSize data k)
          (TopContainer.new k rowSize largest, outputIndexes, outputValues)).2.2[p]? =
          outputValues[p]?) := by
  intro n
  induction n with
  | zero =>
    intro _ _
    refine ⟨rfl, rfl, rfl, rfl, fun r j hr _ => absurd hr (by omega), fun p _ => ⟨rfl, rfl⟩⟩
  | succ n ih =>
    intro hI hV
    have hmul : (n + 1) * k = n * k + k := by rw [Nat.add_mul, Nat.one_mul]
    rw [hmul] at hI hV
    obtain ⟨h1, h2, h3, h4, h5, h6⟩ := ih (by omega) (by omega)
    rw [List.range_succ, List.foldl_append, List.foldl_cons, List.foldl_nil]
    generalize (List.range n).foldl (findTopKRow rowSize data k)
      (TopContainer.new k rowSize largest, outputIndexes, outputValues) = st at h1 h2 h3 h4 h5 h6
    have hlen := rowTopK_length largest (data.drop (n * rowSize)) rowSize k hk
    have hI2 : (findTopKRow rowSize data k st n).2.1 =
        std_copy (rowTopK largest (data.drop (n * rowSize)) rowSize k) (n * k) st.2.1 := by
      rw [findTopKRow_indexes_eq, h1, h2]
    have hV2 : (findTopKRow rowSize data k st n).2.2 =
        std_copy ((rowTopK largest (data.drop (n * rowSize)) rowSize k).map
          (fun loc => (data.drop (n * rowSize)).getD loc 0)) (n * k) st.2.2 := by
      rw [findTopKRow_values_eq, h1, h2]
    have hIp := std_copy_getElem? (rowTopK largest (data.drop (n * rowSize)) rowSize k) (n * k)
      st.2.1 (by rw [hlen, h3]; exact hI)
    have hVp := std_copy_getElem? ((rowTopK largest (data.drop (n * rowSize)) rowSize k).map
      (fun loc => (data.drop (n * rowSize)).getD loc 0)) (n * k)
      st.2.2 (by rw [List.length_map, hlen, h4]; exact hV)
    rw [List.length_map] at hVp
    rw [hlen] at hIp hVp
    refine ⟨?_, ?_, ?_, ?_, ?_, ?_⟩
    · rw [findTopKRow_mK, h1]
    · rw [findTopKRow_mLargest, h2]
    · rw [hI2, std_copy_length, h3]
    · rw [hV2, std_copy_length, h4]
    · intro r j hr hj
      rw [hI2, hV2, hIp, hVp]
      by_cases hrn : r = n
      · subst hrn
        rw [if_pos (by omega), if_pos (by omega), Nat.add_sub_cancel_left]
        exact ⟨rfl, rfl⟩
      · have hrlt : r < n := by omega
        have hbound : r * k + j < n * k := by
          have : (r + 1) * k ≤ n * k := Nat.mul_le_mul_right k hrlt
          rw [Nat.add_mul, Nat.one_mul] at this
          omega
        rw [if_neg (by omega), if_neg (by omega)]
        exact h5 r j hrlt hj
    · intro p hp
      rw [hmul] at hp
      rw [hI2, hV2, hIp, hVp, if_neg (by omega), if_neg (by omega)]
      exact h6 p (by omega)

/-! ## The result of one row -/

theorem collectRow_new_container (row : List Int) (k : Nat) (largest : Bool) :
    (collectRow (TopContainer.new k row.length largest) row row.length).mContainer =
      (bruteForceOrder row largest).take k := by
  rw [collectRow_container]
  simp only [TopContainer.new]
  rw [std_sort_eq_bruteForceOrder]

theorem fullComparator_true_of_eq_of_lt (largest : Bool) (row : List Int) (i j : Nat)
    (hv : row.getD i 0 = row.getD j 0) (hij : i < j) : fullComparator largest row i j = true := by
  unfold fullComparator
  split_ifs
  · rw [compareDescend_eq_true_iff]
    exact Or.inr ⟨hv, hij⟩
  · rw [compareAscend_eq_true_iff]
    exact Or.inr ⟨hv, hij⟩

theorem bruteForceOrder_take_sorted (row : List Int) (largest : Bool) (k : Nat) :
    ((bruteForceOrder row largest).take k).Pairwise
      (fun a b => fullComparator largest row a b = true) :=
  (bruteForceOrder_sorted row largest).sublist (List.take_sublist k _)

theorem strictTotal_unfold {comp : Nat → Nat → Bool} (hc : StrictTotal comp) (a b c : Nat) :
    comp a a = false ∧
    (comp a b = true → comp b c = true → comp a c = true) ∧
    (a ≠ b → (comp a b = true ∧ comp b a = false) ∨ (comp a b = false ∧ comp b a = true)) := by
  refine ⟨hc.irrefl a, hc.trans a b c, fun hne => ?_⟩
  rcases hc.total a b hne with h | h
  · exact Or.inl ⟨h, hc.asymm h⟩
  · exact Or.inr ⟨hc.asymm h, h⟩

/-! ## Claims on the general path -/

/-- C1 (with the index list of the first witness corrected to `[4, 0, 2]`): for every row,
every `k ≤ rowSize`, both orderings and output buffers of `k` cells, `findTopK` on the row
writes as indices the first `k` entries of the list of all column indices sorted by the
full comparator, and as values the row values at those indices. -/
theorem findTopK_eq_bruteForce (row : List Int) (k : Nat) (largest : Bool)
    (outputIndexes : List Nat) (outputValues : List Int) (hk : 0 < k ∧ k ≤ row.length)
    (hI : outputIndexes.length = k) (hV : outputValues.length = k) :
    findTopK row.length 1 row k outputIndexes outputValues largest =
      ((bruteForceOrder row largest).take k,
       ((bruteForceOrder row largest).take k).map (fun i => row.getD i 0)) :=
  findTopK_single_row row k largest outputIndexes outputValues hk.2 hI hV

/-- Witness of C1 at the two rows of the specification: `[5, 1, 4, 2, 8]`, `k = 3`, Largest
gives indices `[4, 0, 2]` and values `[8, 5, 4]`; `[5, 2, 9, 2, 7]`, `k = 2`, Smallest gives
indices `[1, 3]` and values `[2, 2]`. -/
theorem findTopK_eq_bruteForce_witness :
    ((0 < 3 ∧ 3 ≤ [(5 : Int), 1, 4, 2, 8].length) ∧
      findTopK 5 1 [5, 1, 4, 2, 8] 3 [0, 0, 0] [0, 0, 0] true = ([4, 0, 2], [8, 5, 4])) ∧
    ((0 < 2 ∧ 2 ≤ [(5 : Int), 2, 9, 2, 7].length) ∧
      findTopK 5 1 [5, 2, 9, 2, 7] 2 [0, 0] [0, 0] false = ([1, 3], [2, 2])) :=
  ⟨⟨by decide,
    (findTopK_eq_bruteForce [5, 1, 4, 2, 8] 3 true [0, 0, 0] [0, 0, 0] (by decide) rfl rfl).trans
      (by decide)⟩,
   ⟨by decide,
    (findTopK_eq_bruteForce [5, 2, 9, 2, 7] 2 false [0, 0] [0, 0] (by decide) rfl rfl).trans
      (by decide)⟩⟩

/-- Counterexample to C1 as stated: on the row `[5, 1, 4, 2, 8]` with `k = 3`, Largest,
`findTopK` does not give the indices `[4, 0, 3]`; the value 4 is at index 2 and the brute
force order starts `[4, 0, 2]`. -/
theorem findTopK_first_witness_indices :
    findTopK 5 1 [5, 1, 4, 2, 8] 3 [0, 0, 0] [0, 0, 0] true ≠ ([4, 0, 3], [8, 5, 4]) ∧
    (bruteForceOrder [5, 1, 4, 2, 8] true).take 3 = [4, 0, 2] ∧
    findTopK 5 1 [5, 1, 4, 2, 8] 3 [0, 0, 0] [0, 0, 0] true = ([4, 0, 2], [8, 5, 4]) := by
  decide

/-- C3: with `0 < k ≤ rowSize` and either ordering, the list returned by `sortedResult`
after pushing `0 .. rowSize - 1` has length exactly `k`, every element lies in
`[0, rowSize)`, and its elements are pairwise distinct. -/
theorem sortedResult_size_distinct (row : List Int) (k : Nat) (largest : Bool)
    (hk : 0 < k ∧ k ≤ row.length) :
    (collectRow (TopContainer.new k row.length largest) row row.length).mContainer.length = k ∧
    (∀ i ∈ (collectRow (TopContainer.new k row.length largest) row row.length).mContainer,
      i < row.length) ∧
    (collectRow (TopContainer.new k row.length largest) row row.length).mContainer.Nodup := by
  rw [collectRow_new_container]
  refine ⟨?_, ?_, ?_⟩
  · rw [List.length_take, bruteForceOrder_length]
    omega
  · intro i hi
    exact List.mem_range.1 ((bruteForceOrder_perm row largest).subset (List.mem_of_mem_take hi))
  · exact ((bruteForceOrder_perm row largest).nodup_iff.2 (List.nodup_range _)).sublist
      (List.take_sublist k _)

/-- Witness of C3 on the row `[3, 3, 3]` with `k = 2`. -/
theorem sortedResult_size_distinct_witness :
    (0 < 2 ∧ 2 ≤ [(3 : Int), 3, 3].length) ∧
    (collectRow (TopContainer.new 2 3 true) [3, 3, 3] 3).mContainer.length = 2 ∧
    (∀ i ∈ (collectRow (TopContainer.new 2 3 true) [3, 3, 3] 3).mContainer, i < 3) ∧
    (collectRow (TopContainer.new 2 3 true) [3, 3, 3] 3).mContainer.Nodup :=
  ⟨by decide, sortedResult_size_distinct [3, 3, 3] 2 true (by decide)⟩

/-- C4: with `0 < k ≤ rowSize` and either ordering, if the result of the general path holds
at positions `p` and `q` two indices of equal value and the index at `p` is the lower one,
then `p < q`; and a lower index with the same value as a returned index is itself
returned. -/
theorem sortedResult_tie_break (row : List Int) (k : Nat) (largest : Bool)
    (hk : 0 < k ∧ k ≤ row.length) :
    (∀ p q, p < k → q < k →
      (collectRow (TopContainer.new k row.length largest) row row.length).mContainer.getD p 0 <
        (collectRow (TopContainer.new k row.length largest) row row.length).mContainer.getD q 0 →
      row.getD
          ((collectRow (TopContainer.new k row.length largest) row row.length).mContainer.getD p 0)
          0 =
        row.getD
          ((collectRow (TopContainer.new k row.length largest) row row.length).mContainer.getD q 0)
          0 →
      p < q) ∧
    (∀ i j, i < j →
      j ∈ (collectRow (TopContainer.new k row.length largest) row row.length).mContainer →
      row.getD i 0 = row.getD j 0 →
      i ∈ (collectRow (TopContainer.new k row.length largest) row row.length).mContainer) := by
  have hc := fullComparator_strictTotal largest row
  have hlen : ((bruteForceOrder row largest).take k).length = k := by
    rw [List.length_take, bruteForceOrder_length]
    omega
  rw [collectRow_new_container]
  constructor
  · intro p q hp hq hlt hv
    by_contra hpq
    have hqp : q < p := by
      rcases Nat.lt_or_ge q p with h | h
      · exact h
      · have : p = q := by omega
        subst this
        omega
    have hs := List.pairwise_iff_getElem.1 (bruteForceOrder_take_sorted row largest k) q p
      (by omega) (by omega) hqp
    rw [List.getD_eq_getElem _ _ (by omega : p < _),
      List.getD_eq_getElem _ _ (by omega : q < _)] at hlt hv
    have h2 := fullComparator_true_of_eq_of_lt largest row _ _ hv hlt
    rw [hc.asymm hs] at h2
    exact absurd h2 (by decide)
  · intro i j hij hj hv
    have hjn : j < row.length :=
      List.mem_range.1 ((bruteForceOrder_perm row largest).subset (List.mem_of_mem_take hj))
    have hi : i ∈ bruteForceOrder row largest :=
      (bruteForceOrder_perm row largest).symm.subset (List.mem_range.2 (by omega))
    rw [← List.take_append_drop k (bruteForceOrder row largest)] at hi
    rcases List.mem_append.1 hi with h | h
    · exact h
    · have hs := bruteForceOrder_sorted row largest
      rw [← List.take_append_drop k (bruteForceOrder row largest), List.pairwise_append] at hs
      have h1 := hs.2.2 j hj i h
      have h2 := fullComparator_true_of_eq_of_lt largest row _ _ hv hij
      rw [hc.asymm h1] at h2
      exact absurd h2 (by decide)

/-- Witness of C4: the row `[3, 3, 3]` with `k = 2`, Largest, gives the indices `[0, 1]`. -/
theorem sortedResult_tie_break_witness :
    (0 < 2 ∧ 2 ≤ [(3 : Int), 3, 3].length) ∧
    (collectRow (TopContainer.new 2 3 true) [3, 3, 3] 3).mContainer = [0, 1] ∧
    (∀ i j, i < j → j ∈ (collectRow (TopContainer.new 2 3 true) [3, 3, 3] 3).mContainer →
      ([3, 3, 3] : List Int).getD i 0 = ([3, 3, 3] : List Int).getD j 0 →
      i ∈ (collectRow (TopContainer.new 2 3 true) [3, 3, 3] 3).mContainer) :=
  ⟨by decide, by decide, (sortedResult_tie_break [3, 3, 3] 2 true (by decide)).2⟩

/-- C5: with `0 < k ≤ rowSize`, the `k` values written by `findTopK` for the row are
non-increasing from position 0 to `k - 1` when `largest = true` and non-decreasing when
`largest = false`. -/
theorem findTopK_values_ordered (row : List Int) (k : Nat) (largest : Bool)
    (outputIndexes : List Nat) (outputValues : List Int) (hk : 0 < k ∧ k ≤ row.length)
    (hI : outputIndexes.length = k) (hV : outputValues.length = k) :
    (largest = true →
      (findTopK row.length 1 row k outputIndexes outputValues largest).2.Pairwise
        (fun x y => x ≥ y)) ∧
    (largest = false →
      (findTopK row.length 1 row k outputIndexes outputValues largest).2.Pairwise
        (fun x y => x ≤ y)) := by
  rw [findTopK_single_row row k largest outputIndexes outputValues hk.2 hI hV]
  have hs := bruteForceOrder_take_sorted row largest k
  constructor
  · intro hl
    subst hl
    rw [List.pairwise_map]
    refine hs.imp (fun {a b} hab => ?_)
    have h1 : compareDescend row a b = true := hab
    rw [compareDescend_eq_true_iff] at h1
    omega
  · intro hl
    subst hl
    rw [List.pairwise_map]
    refine hs.imp (fun {a b} hab => ?_)
    have h1 : compareAscend row a b = true := hab
    rw [compareAscend_eq_true_iff] at h1
    omega

/-- Witness of C5 on the row `[5, 2, 9, 2, 7]` with `k = 2`, Smallest. -/
theorem findTopK_values_ordered_witness :
    (0 < 2 ∧ 2 ≤ [(5 : Int), 2, 9, 2, 7].length) ∧
    (findTopK 5 1 [5, 2, 9, 2, 7] 2 [0, 0] [0, 0] false).2.Pairwise (fun x y => x ≤ y) :=
  ⟨by decide,
   (findTopK_values_ordered [5, 2, 9, 2, 7] 2 false [0, 0] [0, 0] (by decide) rfl rfl).2 rfl⟩

/-- C8: for all indices `a`, `b` of a row, `compareDescend(a, b)` holds iff
`value[a] > value[b]` or (`value[a] = value[b]` and `a < b`), and `compareAscend(a, b)` holds
iff `value[a] < value[b]` or (`value[a] = value[b]` and `a < b`). -/
theorem comparator_definition (row : List Int) (a b : Nat)
    (_hab : a < row.length ∧ b < row.length) :
    (compareDescend row a b = true ↔
      row.getD a 0 > row.getD b 0 ∨ (row.getD a 0 = row.getD b 0 ∧ a < b)) ∧
    (compareAscend row a b = true ↔
      row.getD a 0 < row.getD b 0 ∨ (row.getD a 0 = row.getD b 0 ∧ a < b)) :=
  ⟨compareDescend_eq_true_iff row a b, compareAscend_eq_true_iff row a b⟩

/-- Witness of C8 at the indices 0 and 2 of the row `[3, 1, 3]`. -/
theorem comparator_definition_witness :
    (0 < [(3 : Int), 1, 3].length ∧ 2 < [(3 : Int), 1, 3].length) ∧
    compareDescend [3, 1, 3] 0 2 = true ∧ compareAscend [3, 1, 3] 0 2 = true :=
  ⟨by decide,
   (comparator_definition [3, 1, 3] 0 2 (by decide)).1.2 (Or.inr (by decide)),
   (comparator_definition [3, 1, 3] 0 2 (by decide)).2.2 (Or.inr (by decide))⟩

/-- C9: on the indices of a row both comparators are strict total orders: `compareDescend`
and `compareAscend` are each irreflexive, transitive, and for `a ≠ b` exactly one of
`cmp(a, b)`, `cmp(b, a)` holds, so no two distinct indices tie. -/
theorem comparator_strict_total_order (row : List Int) (a b c : Nat)
    (_hrange : a < row.length ∧ b < row.length ∧ c < row.length) :
    (compareDescend row a a = false ∧
      (compareDescend row a b = true → compareDescend row b c = true →
        compareDescend row a c = true) ∧
      (a ≠ b →
        (compareDescend row a b = true ∧ compareDescend row b a = false) ∨
        (compareDescend row a b = false ∧ compareDescend row b a = true))) ∧
    (compareAscend row a a = false ∧
      (compareAscend row a b = true → compareAscend row b c = true →
        compareAscend row a c = true) ∧
      (a ≠ b →
        (compareAscend row a b = true ∧ compareAscend row b a = false) ∨
        (compareAscend row a b = false ∧ compareAscend row b a = true))) :=
  ⟨strictTotal_unfold (compareDescend_strictTotal row) a b c,
   strictTotal_unfold (compareAscend_strictTotal row) a b c⟩

/-- Witness of C9 at the indices 0, 1, 2 of the row `[3, 1, 3]`: index 0 ranks before
index 2 in both orders although the values tie. -/
theorem comparator_strict_total_order_witness :
    (0 < [(3 : Int), 1, 3].length ∧ 1 < [(3 : Int), 1, 3].length ∧
      2 < [(3 : Int), 1, 3].length) ∧
    (compareDescend [3, 1, 3] 0 2 = true ∧ compareDescend [3, 1, 3] 2 0 = false) ∧
    (compareAscend [3, 1, 3] 1 0 = true ∧ compareAscend [3, 1, 3] 0 1 = false) :=
  ⟨by decide,
   ((comparator_strict_total_order [3, 1, 3] 0 2 1 (by decide)).1.2.2 (by decide)).resolve_right
     (by decide),
   ((comparator_strict_total_order [3, 1, 3] 1 0 2 (by decide)).2.2.2 (by decide)).resolve_right
     (by decide)⟩

/-! ## Claims on the row loop -/

theorem getD_drop_int (data : List Int) (off i : Nat) :
    (data.drop off).getD i 0 = data.getD (off + i) 0 := by
  rw [List.getD_eq_getElem?_getD, List.getD_eq_getElem?_getD, List.getElem?_drop]

theorem getD_take_int (l : List Int) (n i : Nat) (hi : i < n) :
    (l.take n).getD i 0 = l.getD i 0 := by
  rw [List.getD_eq_getElem?_getD, List.getD_eq_getElem?_getD, List.getElem?_take, if_pos hi]

theorem fullComparator_take (largest : Bool) (values : List Int) (n a b : Nat) (ha : a < n)
    (hb : b < n) :
    fullComparator largest (values.take n) a b = fullComparator largest values a b := by
  unfold fullComparator
  split_ifs
  · unfold compareDescend
    rw [getD_take_int values n a ha, getD_take_int values n b hb]
  · unfold compareAscend
    rw [getD_take_int values n a ha, getD_take_int values n b hb]

theorem std_sort_congr {c₁ c₂ : Nat → Nat → Bool} (h1 : StrictTotal c₁) (h2 : StrictTotal c₂)
    (xs : List Nat) (hnd : xs.Nodup) (h : ∀ a ∈ xs, ∀ b ∈ xs, c₁ a b = c₂ a b) :
    std_sort c₁ xs = std_sort c₂ xs := by
  apply std_sort_eq_of_sorted h1 (std_sort_perm c₂ xs)
  refine (std_sort_sorted h2 xs hnd).imp_of_mem (fun {a b} ha hb hab => ?_)
  rw [h a ((std_sort_perm c₂ xs).subset ha) b ((std_sort_perm c₂ xs).subset hb)]
  exact hab

theorem rowTopK_eq_bruteForceOrder (largest : Bool) (data : List Int) (rowSize k r : Nat)
    (hlen : (rowOf data rowSize r).length = rowSize) :
    rowTopK largest (data.drop (r * rowSize)) rowSize k =
      (bruteForceOrder (rowOf data rowSize r) largest).take k := by
  unfold rowTopK
  rw [← std_sort_eq_bruteForceOrder, hlen]
  congr 1
  apply std_sort_congr (fullComparator_strictTotal _ _) (fullComparator_strictTotal _ _) _
    (List.nodup_range _)
  intro a ha b hb
  exact (fullComparator_take largest (data.drop (r * rowSize)) rowSize a b (List.mem_range.1 ha)
    (List.mem_range.1 hb)).symm

theorem rowOf_length (data : List Int) (rowSize numRows r : Nat)
    (hdata : data.length = numRows * rowSize) (hr : r < numRows) :
    (rowOf data rowSize r).length = rowSize := by
  unfold rowOf
  rw [List.length_take, List.length_drop, hdata]
  have : (r + 1) * rowSize ≤ numRows * rowSize := Nat.mul_le_mul_right rowSize hr
  rw [Nat.add_mul, Nat.one_mul] at this
  omega

theorem slice_eq_of_getElem? {α : Type} (l top : List α) (off k : Nat) (htop : top.length = k)
    (h : ∀ j, j < k → l[off + j]? = top[j]?) : (l.drop off).take k = top := by
  apply List.ext_getElem?
  intro j
  rw [List.getElem?_take]
  by_cases hj : j < k
  · rw [if_pos hj, List.getElem?_drop, h j hj]
  · rw [if_neg hj, List.getElem?_eq_none (by omega)]

/-- C6: for an input of `numRows` rows processed by one `findTopK` call with one reused
container, the indices and values produced for row `r` equal those produced by `findTopK` on
row `r` alone with a freshly constructed container; `startCollecting` empties the
container whatever it held. -/
theorem findTopK_no_state_leak (rowSize numRows : Nat) (data : List Int) (k : Nat)
    (outputIndexes : List Nat) (outputValues : List Int) (largest : Bool) (r : Nat)
    (freshIndexes : List Nat) (freshValues : List Int)
    (hk : 0 < k ∧ k ≤ rowSize) (hdata : data.length = numRows * rowSize)
    (hI : outputIndexes.length = numRows * k) (hV : outputValues.length = numRows * k)
    (hr : r < numRows) (hfI : freshIndexes.length = k) (hfV : freshValues.length = k) :
    (((findTopK rowSize numRows data k outputIndexes outputValues largest).1.drop (r * k)).take k
      = (findTopK rowSize 1 (rowOf data rowSize r) k freshIndexes freshValues largest).1) ∧
    (((findTopK rowSize numRows data k outputIndexes outputValues largest).2.drop (r * k)).take k
      = (findTopK rowSize 1 (rowOf data rowSize r) k freshIndexes freshValues largest).2) ∧
    (∀ (t : TopContainer) (values : List Int), (t.startCollecting values).mContainer = []) := by
  have hrow := rowOf_length data rowSize numRows r hdata hr
  have hsingle := findTopK_single_row (rowOf data rowSize r) k largest freshIndexes freshValues
    (by rw [hrow]; exact hk.2) hfI hfV
  rw [hrow] at hsingle
  obtain ⟨_, _, _, _, h5, _⟩ := findTopK_loop rowSize data k largest outputIndexes outputValues
    hk.2 numRows (by omega) (by omega)
  have htop := rowTopK_length largest (data.drop (r * rowSize)) rowSize k hk.2
  refine ⟨?_, ?_, fun _ _ => rfl⟩
  · rw [hsingle, ← rowTopK_eq_bruteForceOrder largest data rowSize k r hrow]
    exact slice_eq_of_getElem? _ _ _ _ htop (fun j hj => (h5 r j hr hj).1)
  · rw [hsingle, ← rowTopK_eq_bruteForceOrder largest data rowSize k r hrow]
    have hmap : (rowTopK largest (data.drop (r * rowSize)) rowSize k).map
        (fun i => (rowOf data rowSize r).getD i 0) =
        (rowTopK largest (data.drop (r * rowSize)) rowSize k).map
        (fun loc => (data.drop (r * rowSize)).getD loc 0) := by
      apply List.map_congr_left
      intro i hi
      exact getD_take_int _ _ _ (rowTopK_lt _ _ _ _ i hi)
    show _ = (rowTopK largest (data.drop (r * rowSize)) rowSize k).map
        (fun i => (rowOf data rowSize r).getD i 0)
    rw [hmap]
    exact slice_eq_of_getElem? _ _ _ _ (by rw [List.length_map, htop])
      (fun j hj => (h5 r j hr hj).2)

/-- Witness of C6: two rows `[3, 1, 2]` and `[7, 9, 8]` with `k = 2`, Largest; the second
row alone gives the same indices `[1, 2]` and values `[9, 8]`. -/
theorem findTopK_no_state_leak_witness :
    ((0 < 2 ∧ 2 ≤ 3) ∧ 1 < 2) ∧
    ((findTopK 3 2 [3, 1, 2, 7, 9, 8] 2 [0, 0, 0, 0] [0, 0, 0, 0] true).1.drop (1 * 2)).take 2
      = [1, 2] ∧
    ((findTopK 3 2 [3, 1, 2, 7, 9, 8] 2 [0, 0, 0, 0] [0, 0, 0, 0] true).2.drop (1 * 2)).take 2
      = [9, 8] :=
  ⟨by decide,
   (findTopK_no_state_leak 3 2 [3, 1, 2, 7, 9, 8] 2 [0, 0, 0, 0] [0, 0, 0, 0] true 1 [0, 0]
     [0, 0] (by decide) rfl rfl rfl (by decide) rfl rfl).1.trans (by decide),
   (findTopK_no_state_leak 3 2 [3, 1, 2, 7, 9, 8] 2 [0, 0, 0, 0] [0, 0, 0, 0] true 1 [0, 0]
     [0, 0] (by decide) rfl rfl rfl (by decide) rfl rfl).2.1.trans (by decide)⟩

/-- C7: for `0 < k ≤ rowSize` and output buffers of at least `numRows * k` cells,
`findTopK` leaves for every row `r` and `j < k` the pairing
`outputValues[r*k + j] = data[r*rowSize + outputIndexes[r*k + j]]`, keeps every position
from `numRows * k` on, and the loop body for row `r` changes no position outside
`[r*k, r*k + k)` of either output buffer. -/
theorem findTopK_layout (rowSize numRows : Nat) (data : List Int) (k : Nat)
    (outputIndexes : List Nat) (outputValues : List Int) (largest : Bool)
    (hk : 0 < k ∧ k ≤ rowSize) (hI : numRows * k ≤ outputIndexes.length)
    (hV : numRows * k ≤ outputValues.length) :
    (∀ r j, r < numRows → j < k →
      (findTopK rowSize numRows data k outputIndexes outputValues largest).2.getD (r * k + j) 0 =
        data.getD (r * rowSize +
          (findTopK rowSize numRows data k outputIndexes outputValues largest).1.getD
            (r * k + j) 0) 0) ∧
    (∀ p, numRows * k ≤ p →
      (findTopK rowSize numRows data k outputIndexes outputValues largest).1.getD p 0 =
        outputIndexes.getD p 0 ∧
      (findTopK rowSize numRows data k outputIndexes outputValues largest).2.getD p 0 =
        outputValues.getD p 0) ∧
    (∀ (st : TopContainer × List Nat × List Int) (r p : Nat), st.1.mK = k →
      r * k + k ≤ st.2.1.length → r * k + k ≤ st.2.2.length → (p < r * k ∨ r * k + k ≤ p) →
      (findTopKRow rowSize data k st r).2.1.getD p 0 = st.2.1.getD p 0 ∧
      (findTopKRow rowSize data k st r).2.2.getD p 0 = st.2.2.getD p 0) := by
  obtain ⟨_, _, _, _, h5, h6⟩ := findTopK_loop rowSize data k largest outputIndexes outputValues
    hk.2 numRows hI hV
  refine ⟨?_, ?_, ?_⟩
  · intro r j hr hj
    have htop := rowTopK_length largest (data.drop (r * rowSize)) rowSize k hk.2
    obtain ⟨hi, hv⟩ := h5 r j hr hj
    have hsome : (rowTopK largest (data.drop (r * rowSize)) rowSize k)[j]? =
        some ((rowTopK largest (data.drop (r * rowSize)) rowSize k).getD j 0) := by
      rw [List.getD_eq_getElem?_getD, List.getElem?_eq_getElem (by rw [htop]; exact hj)]
      rfl
    rw [List.getElem?_map, hsome] at hv
    rw [hsome] at hi
    unfold findTopK
    rw [List.getD_eq_getElem?_getD, hv, List.getD_eq_getElem?_getD _ (r * k + j), hi]
    exact getD_drop_int data (r * rowSize) _
  · intro p hp
    obtain ⟨hi, hv⟩ := h6 p hp
    unfold findTopK
    rw [List.getD_eq_getElem?_getD, List.getD_eq_getElem?_getD, List.getD_eq_getElem?_getD,
      List.getD_eq_getElem?_getD, hi, hv]
    exact ⟨rfl, rfl⟩
  · intro st r p hmK hlI hlV hp
    have htop := rowTopK_length st.1.mLargest (data.drop (r * rowSize)) rowSize k hk.2
    rw [findTopKRow_indexes_eq, findTopKRow_values_eq, hmK, List.getD_eq_getElem?_getD,
      List.getD_eq_getElem?_getD, List.getD_eq_getElem?_getD, List.getD_eq_getElem?_getD,
      std_copy_getElem? _ _ _ (by rw [htop]; exact hlI),
      std_copy_getElem? _ _ _ (by rw [List.length_map, htop]; exact hlV),
      List.length_map, htop, if_neg (by omega), if_neg (by omega)]
    exact ⟨rfl, rfl⟩

/-- Witness of C7: two rows `[3, 1, 2]` and `[7, 9, 8]`, `k = 2`, Largest, output buffers of
five cells; the cell 4 of each buffer keeps its content 5. -/
theorem findTopK_layout_witness :
    ((0 < 2 ∧ 2 ≤ 3) ∧ 2 * 2 ≤ [0, 0, 0, 0, 5].length) ∧
    findTopK 3 2 [3, 1, 2, 7, 9, 8] 2 [0, 0, 0, 0, 5] [0, 0, 0, 0, 5] true =
      ([0, 2, 1, 2, 5], [3, 2, 9, 8, 5]) ∧
    (findTopK 3 2 [3, 1, 2, 7, 9, 8] 2 [0, 0, 0, 0, 5] [0, 0, 0, 0, 5] true).2.getD (1 * 2 + 1) 0 =
      ([3, 1, 2, 7, 9, 8] : List Int).getD (1 * 3 +
        (findTopK 3 2 [3, 1, 2, 7, 9, 8] 2 [0, 0, 0, 0, 5] [0, 0, 0, 0, 5] true).1.getD
          (1 * 2 + 1) 0) 0 :=
  ⟨by decide, by decide,
   (findTopK_layout 3 2 [3, 1, 2, 7, 9, 8] 2 [0, 0, 0, 0, 5] [0, 0, 0, 0, 5] true (by decide)
     (by decide) (by decide)).1 1 1 (by decide) (by decide)⟩

/-! ## The fast path -/

theorem remainderStep_bestPair (row : List Int) (base j : Nat) (best : Int × Nat)
    (h : BestPair row (base + j) best) :
    BestPair row (base + (j + 1)) (remainderStep row base best j) := by
  obtain ⟨h1, h2, h3⟩ := h
  unfold remainderStep
  split_ifs with hgt
  · refine ⟨rfl, by simp only []; omega, ?_⟩
    intro i hi
    by_cases him : i = base + j
    · exact Or.inr him
    · left
      rw [compareDescend_eq_true_iff]
      rcases h3 i (by omega) with h4 | h4
      · rw [compareDescend_eq_true_iff] at h4
        simp only [] at *
        omega
      · simp only [] at *
        rw [h4]
        omega
  · refine ⟨h1, by omega, ?_⟩
    intro i hi
    by_cases him : i = base + j
    · subst him
      by_cases hEq : base + j = best.2
      · exact Or.inr hEq
      · left
        rw [compareDescend_eq_true_iff]
        omega
    · exact h3 i (by omega)

theorem foldl_remainderStep_bestPair (row : List Int) (base : Nat) :
    ∀ (r : Nat) (best : Int × Nat), BestPair row base best →
      BestPair row (base + r) ((List.range r).foldl (remainderStep row base) best) := by
  intro r
  induction r with
  | zero => intro best h; exact h
  | succ r ih =>
    intro best h
    rw [List.range_succ, List.foldl_append, List.foldl_cons, List.foldl_nil]
    exact remainderStep_bestPair row base r _ (ih best h)

theorem top1Scan_contract : Top1Contract top1Scan := by
  intro input blocks cells _
  have h0 : BestPair input 0 (input.getD 0 0, 0) := by
    refine ⟨rfl, ?_, fun j hj => absurd hj (by omega)⟩
    show 0 < max 0 1
    decide
  have h := foldl_remainderStep_bestPair input 0 (4 * blocks) (input.getD 0 0, 0) h0
  rw [Nat.zero_add] at h
  obtain ⟨h1, h2, h3⟩ := h
  refine ⟨fun hb => ?_, fun hb => ⟨by unfold top1Scan; omega, h1, h3⟩⟩
  rw [hb]
  rfl

theorem fastPathRow_bestPair (top1 : List Int → Nat → Int × Nat → Int × Nat) (row : List Int)
    (rowSize : Nat) (cells : Int × Nat) (hc : Top1Contract top1) (hlen : rowSize ≤ row.length) :
    BestPair row rowSize (fastPathRow top1 row rowSize cells) := by
  have hsplit : rowSize / 4 * 4 + rowSize % 4 = rowSize := Nat.div_add_mod' _ 4
  have h := foldl_remainderStep_bestPair row (rowSize / 4 * 4) (rowSize % 4)
    (top1 row (rowSize / 4) cells)
  rw [hsplit] at h
  apply h
  obtain ⟨hz, hpos⟩ := hc row (rowSize / 4) cells (by omega)
  by_cases hb : 1 ≤ rowSize / 4
  · obtain ⟨h1, h2, h3⟩ := hpos hb
    exact ⟨h2, by omega, fun j hj => h3 j (by omega)⟩
  · have h0 : rowSize / 4 = 0 := by omega
    rw [hz h0, h0]
    refine ⟨rfl, ?_, fun j hj => absurd hj (by omega)⟩
    show 0 < max (0 * 4) 1
    decide

/-- The best pair of the first `rowSize` elements heads the sorted column indices. -/
theorem rowTopK_one_eq (valuesRow : List Int) (rowSize : Nat) (best : Int × Nat)
    (hn : 1 ≤ rowSize) (h : BestPair valuesRow rowSize best) :
    rowTopK true valuesRow rowSize 1 = [best.2] := by
  obtain ⟨_, h2, h3⟩ := h
  have hc := fullComparator_strictTotal true valuesRow
  have hperm := std_sort_perm (fullComparator true valuesRow) (List.range rowSize)
  have hs := std_sort_sorted hc (List.range rowSize) (List.nodup_range rowSize)
  have hlen := hperm.length_eq
  rw [List.length_range] at hlen
  unfold rowTopK
  cases hbf : std_sort (fullComparator true valuesRow) (List.range rowSize) with
  | nil =>
    rw [hbf] at hlen
    simp at hlen
    omega
  | cons b tl =>
    rw [hbf] at hperm hs
    rw [List.take_succ_cons, List.take_zero]
    congr 1
    by_contra hne
    have hbn : b < rowSize := List.mem_range.1 (hperm.subset (List.mem_cons_self _ _))
    have hi : best.2 ∈ b :: tl := hperm.symm.subset (List.mem_range.2 (by omega))
    rcases List.mem_cons.1 hi with hi | hi
    · exact hne hi.symm
    · have h4 := (List.pairwise_cons.1 hs).1 _ hi
      rcases h3 b hbn with h5 | h5
      · have h6 : fullComparator true valuesRow best.2 b = true := h5
        rw [hc.asymm h4] at h6
        exact absurd h6 (by decide)
      · exact hne h5

/-- The loop that both fast paths run over the rows: row `i` replaces the two cells at
`i * k` by the result `f i` of the row on their previous content. -/
theorem cellLoop_spec (f : Nat → Int × Nat → Int × Nat) (k : Nat) (hk : 1 ≤ k)
    (topkData : List Int) (indicesData : List Nat) :
    ∀ n, n * k ≤ topkData.length → n * k ≤ indicesData.length →
      ((List.range n).foldl
        (fun (out : List Int × List Nat) i =>
          ((out.1.set (i * k) (f i (out.1.getD (i * k) 0, out.2.getD (i * k) 0)).1),
           (out.2.set (i * k) (f i (out.1.getD (i * k) 0, out.2.getD (i * k) 0)).2)))
        (topkData, indicesData)).1.length = topkData.length ∧
      ((List.range n).foldl
        (fun (out : List Int × List Nat) i =>
          ((out.1.set (i * k) (f i (out.1.getD (i * k) 0, out.2.getD (i * k) 0)).1),
           (out.2.set (i * k) (f i (out.1.getD (i * k) 0, out.2.getD (i * k) 0)).2)))
        (topkData, indicesData)).2.length = indicesData.length ∧
      (∀ r, r < n →
        ((List.range n).foldl
          (fun (out : List Int × List Nat) i =>
            ((out.1.set (i * k) (f i (out.1.getD (i * k) 0, out.2.getD (i * k) 0)).1),
             (out.2.set (i * k) (f i (out.1.getD (i * k) 0, out.2.getD (i * k) 0)).2)))
          (topkData, indicesData)).1[r * k]? =
          some (f r (topkData.getD (r * k) 0, indicesData.getD (r * k) 0)).1 ∧
        ((List.range n).foldl
          (fun (out : List Int × List Nat) i =>
            ((out.1.set (i * k) (f i (out.1.getD (i * k) 0, out.2.getD (i * k) 0)).1),
             (out.2.set (i * k) (f i (out.1.getD (i * k) 0, out.2.getD (i * k) 0)).2)))
          (topkData, indicesData)).2[r * k]? =
          some (f r (topkData.getD (r * k) 0, indicesData.getD (r * k) 0)).2) ∧
      (∀ p, (∀ r, r < n → p ≠ r * k) →
        ((List.range n).foldl
          (fun (out : List Int × List Nat) i =>
            ((out.1.set (i * k) (f i (out.1.getD (i * k) 0, out.2.getD (i * k) 0)).1),
             (out.2.set (i * k) (f i (out.1.getD (i * k) 0, out.2.getD (i * k) 0)).2)))
          (topkData, indicesData)).1[p]? = topkData[p]? ∧
        ((List.range n).foldl
          (fun (out : List Int × List Nat) i =>
            ((out.1.set (i * k) (f i (out.1.getD (i * k) 0, out.2.getD (i * k) 0)).1),
             (out.2.set (i * k) (f i (out.1.getD (i * k) 0, out.2.getD (i * k) 0)).2)))
          (topkData, indicesData)).2[p]? = indicesData[p]?) := by
  intro n
  induction n with
  | zero =>
    intro _ _
    exact ⟨rfl, rfl, fun r hr => absurd hr (by omega), fun p _ => ⟨rfl, rfl⟩⟩
  | succ n ih =>
    intro hV hI
    have hmul : (n + 1) * k = n * k + k := by rw [Nat.add_mul, Nat.one_mul]
    rw [hmul] at hV hI
    obtain ⟨h1, h2, h3, h4⟩ := ih (by omega) (by omega)
    have hne : ∀ r, r < n → n * k ≠ r * k := by
      intro r hr
      have : (r + 1) * k ≤ n * k := Nat.mul_le_mul_right k hr
      rw [Nat.add_mul, Nat.one_mul] at this
      omega
    rw [List.range_succ, List.foldl_append, List.foldl_cons, List.foldl_nil]
    generalize (List.range n).foldl
      (fun (out : List Int × List Nat) i =>
        ((out.1.set (i * k) (f i (out.1.getD (i * k) 0, out.2.getD (i * k) 0)).1),
         (out.2.set (i * k) (f i (out.1.getD (i * k) 0, out.2.getD (i * k) 0)).2)))
      (topkData, indicesData) = out at h1 h2 h3 h4
    have hcell : (out.1.getD (n * k) 0, out.2.getD (n * k) 0) =
        (topkData.getD (n * k) 0, indicesData.getD (n * k) 0) := by
      obtain ⟨ha, hb⟩ := h4 (n * k) hne
      rw [List.getD_eq_getElem?_getD, List.getD_eq_getElem?_getD, List.getD_eq_getElem?_getD,
        List.getD_eq_getElem?_getD, ha, hb]
    refine ⟨?_, ?_, ?_, ?_⟩
    · show (out.1.set _ _).length = _
      rw [List.length_set, h1]
    · show (out.2.set _ _).length = _
      rw [List.length_set, h2]
    · intro r hr
      show (out.1.set _ _)[r * k]? = _ ∧ (out.2.set _ _)[r * k]? = _
      by_cases hrn : r = n
      · rw [hrn, hcell, List.getElem?_set_self (by omega), List.getElem?_set_self (by omega)]
        exact ⟨rfl, rfl⟩
      · rw [List.getElem?_set_ne (hne r (by omega)), List.getElem?_set_ne (hne r (by omega))]
        exact h3 r (by omega)
    · intro p hp
      show (out.1.set _ _)[p]? = _ ∧ (out.2.set _ _)[p]? = _
      rw [List.getElem?_set_ne (fun h => hp n (by omega) h.symm),
        List.getElem?_set_ne (fun h => hp n (by omega) h.symm)]
      exact h4 p (fun r hr => hp r (by omega))

/-! ## Type dispatch of onExecute -/

/-- C10 (code evaluated at the failing inputs): an input whose element type has the float
code and 64 or 16 bits is not rejected: both the `k = 1`, Largest branch and the general
branch of `onExecute` run the `float` selection on it, write the results and return
`NO_ERROR`, because only the `int` branch tests `bits == 32`; an `int` type of 64 bits ends
in the unsupported-type failure. -/
theorem onExecute_float_bits_unchecked :
    onExecute top1ScanFloat top1Scan true ⟨HalideTypeCode.halide_type_float, 64⟩ 3 6
      [1, 5, 2, 9, 9, 3] 1 [0, 0] [0, 0] = ExecResult.NO_ERROR [5, 9] [1, 0] ∧
    onExecute top1ScanFloat top1Scan true ⟨HalideTypeCode.halide_type_float, 16⟩ 3 6
      [1, 5, 2, 9, 9, 3] 2 [0, 0, 0, 0] [0, 0, 0, 0] =
        ExecResult.NO_ERROR [5, 2, 9, 9] [1, 2, 0, 1] ∧
    onExecute top1ScanFloat top1Scan true ⟨HalideTypeCode.halide_type_int, 64⟩ 3 6
      [1, 5, 2, 9, 9, 3] 1 [0, 0] [0, 0] = ExecResult.unsupportedType ∧
    onExecute top1ScanFloat top1Scan true ⟨HalideTypeCode.halide_type_int, 64⟩ 3 6
      [1, 5, 2, 9, 9, 3] 2 [0, 0, 0, 0] [0, 0, 0, 0] = ExecResult.unsupportedType := by
  decide

/-- Every element type whose code is not the float code and that is not `int` of 32 bits
ends in the unsupported-type failure on both branches, and every type with the float code
is taken as `float` whatever its width: `onExecute` returns `NO_ERROR`. -/
theorem onExecute_type_dispatch (top1F top1 : List Int → Nat → Int × Nat → Int × Nat)
    (mLargest : Bool) (type : HalideType) (rowSize elementSize : Nat) (inputData : List Int)
    (k : Nat) (outputData : List Int) (outputIndices : List Nat) (hk : k ≤ rowSize)
    (hrow : 0 < rowSize) :
    (type.code = HalideTypeCode.halide_type_float →
      ∃ d i,
        onExecute top1F top1 mLargest type rowSize elementSize inputData k outputData
          outputIndices = ExecResult.NO_ERROR d i) ∧
    (type.code ≠ HalideTypeCode.halide_type_float →
      ¬ (type.code = HalideTypeCode.halide_type_int ∧ type.bits = 32) →
      onExecute top1F top1 mLargest type rowSize elementSize inputData k outputData outputIndices =
        ExecResult.unsupportedType) := by
  unfold onExecute
  rw [if_neg (by omega), if_neg (by omega)]
  constructor
  · intro hf
    split_ifs
    · exact ⟨_, _, rfl⟩
    · exact ⟨_, _, rfl⟩
  · intro hf hi
    split_ifs <;> rfl

/-! ## Size of the container -/

theorem sort_heap_length (comp : Nat → Nat → Bool) :
    ∀ (n : Nat) (xs : List Nat), (sort_heap comp n xs).length = xs.length := by
  intro n
  induction n with
  | zero => intro xs; rfl
  | succ n ih =>
    intro xs
    unfold sort_heap
    rw [ih, pop_heap_length]

theorem resize_length (xs : List Nat) (n : Nat) : (resize xs n).length = n := by
  unfold resize
  rw [List.length_append, List.length_take, List.length_replicate]
  omega

theorem TopContainer.push_length (t : TopContainer) (a : Nat) :
    (t.push a).mContainer.length =
      if t.mContainer.length ≤ t.mK then t.mContainer.length + 1 else t.mContainer.length := by
  unfold TopContainer.push
  split_ifs
  · show (pop_heap _ _ _).length = _
    rw [pop_heap_length, make_heap_length, List.length_append, List.length_singleton]
  · show (t.mContainer ++ [a]).length = _
    rw [List.length_append, List.length_singleton]
  · show (pop_heap _ _ _).length = _
    rw [pop_heap_length, push_heap_length, List.length_set]
  · rfl

theorem TopContainer.foldl_push_length (qs : List Nat) :
    ∀ t : TopContainer, t.mContainer.length ≤ t.mK + 1 →
      (qs.foldl TopContainer.push t).mContainer.length =
        min (t.mContainer.length + qs.length) (t.mK + 1) := by
  induction qs with
  | nil =>
    intro t h
    rw [List.foldl_nil, List.length_nil, Nat.add_zero, Nat.min_eq_left h]
  | cons q qs ih =>
    intro t h
    have hl := t.push_length q
    have hk := t.push_mK q
    rw [List.foldl_cons, ih (t.push q) (by rw [hl, hk]; split_ifs <;> omega), hl, hk,
      List.length_cons]
    split_ifs <;> omega

theorem TopContainer.sortedResult_length (t : TopContainer) :
    t.sortedResult.mContainer.length = min t.mContainer.length t.mK := by
  unfold TopContainer.sortedResult
  split_ifs with h
  · show (std_sort _ _).length = _
    rw [(std_sort_perm _ _).length_eq]
    omega
  · show (resize _ _).length = _
    rw [resize_length]
    omega

/-- C13: for every `k ≥ 1` and every sequence of `n` pushes after `startCollecting`, the
container holds `min(n, k + 1)` indices after the pushes (so never more than `k + 1`), and
`min(n, k)` after `sortedResult`; exactly `k` when `n ≥ k`. -/
theorem container_capacity_bound (t : TopContainer) (values : List Int) (pushes : List Nat)
    (_hk : 1 ≤ t.mK) :
    (pushes.foldl TopContainer.push (t.startCollecting values)).mContainer.length =
      min pushes.length (t.mK + 1) ∧
    (pushes.foldl TopContainer.push (t.startCollecting values)).mContainer.length ≤ t.mK + 1 ∧
    (pushes.foldl TopContainer.push
      (t.startCollecting values)).sortedResult.mContainer.length = min pushes.length t.mK ∧
    (t.mK ≤ pushes.length →
      (pushes.foldl TopContainer.push
        (t.startCollecting values)).sortedResult.mContainer.length = t.mK) := by
  have h1 : (pushes.foldl TopContainer.push (t.startCollecting values)).mContainer.length =
      min pushes.length (t.mK + 1) := by
    rw [TopContainer.foldl_push_length pushes _ (Nat.zero_le _)]
    show min (0 + pushes.length) (t.mK + 1) = _
    rw [Nat.zero_add]
  have h2 : (pushes.foldl TopContainer.push
      (t.startCollecting values)).sortedResult.mContainer.length = min pushes.length t.mK := by
    rw [TopContainer.sortedResult_length, h1, TopContainer.foldl_push_mK]
    show min (min pushes.length (t.mK + 1)) t.mK = _
    omega
  exact ⟨h1, by omega, h2, fun h => by omega⟩

/-- Witness of C13: `k = 2` and the four pushes `3, 3, 0, 1` (a repeated index included)
leave three indices in the container and two after `sortedResult`. -/
theorem container_capacity_bound_witness :
    1 ≤ (TopContainer.new 2 5 true).mK ∧
    ([3, 3, 0, 1].foldl TopContainer.push
      ((TopContainer.new 2 5 true).startCollecting [5, 1, 4, 2, 8])).mContainer.length = 3 ∧
    ([3, 3, 0, 1].foldl TopContainer.push
      ((TopContainer.new 2 5 true).startCollecting
        [5, 1, 4, 2, 8])).sortedResult.mContainer.length = 2 :=
  ⟨by decide,
   (container_capacity_bound (TopContainer.new 2 5 true) [5, 1, 4, 2, 8] [3, 3, 0, 1]
     (by decide)).1,
   (container_capacity_bound (TopContainer.new 2 5 true) [5, 1, 4, 2, 8] [3, 3, 0, 1]
     (by decide)).2.2.1⟩

/-! ## The container in its two phases -/

theorem TopContainer.pushes_pushInv (t : TopContainer) (values : List Int) (ps : List Nat)
    (hnd : ps.Nodup) :
    PushInv (ps.foldl TopContainer.push (t.startCollecting values)) ps := by
  have h := TopContainer.foldl_push_pushInv ps (t.startCollecting values) []
    (TopContainer.pushInv_start t values) (by rw [List.nil_append]; exact hnd)
  rw [List.nil_append] at h
  exact h

theorem TopContainer.pushes_comparator (t : TopContainer) (values : List Int) (ps : List Nat) :
    (ps.foldl TopContainer.push (t.startCollecting values)).comparator =
      fullComparator t.mLargest values := by
  rw [TopContainer.foldl_push_comparator, TopContainer.startCollecting_comparator]

theorem TopContainer.pushes_mK (t : TopContainer) (values : List Int) (ps : List Nat) :
    (ps.foldl TopContainer.push (t.startCollecting values)).mK = t.mK := by
  rw [TopContainer.foldl_push_mK]
  rfl

theorem TopContainer.pushes_sortedResult (t : TopContainer) (values : List Int) (ps : List Nat)
    (hnd : ps.Nodup) :
    (ps.foldl TopContainer.push (t.startCollecting values)).sortedResult.mContainer =
      (std_sort (fullComparator t.mLargest values) ps).take t.mK := by
  rw [TopContainer.sortedResult_of_pushInv _ ps (t.pushes_pushInv values ps hnd) hnd,
    t.pushes_comparator, t.pushes_mK]

/-- C14: for `n ≤ k` pushes of distinct in-range indices the container holds the pushed
indices in push order (no heap was built) and `sortedResult` returns all of them sorted by
the comparator; with `k = rowSize` the general path returns all column indices
`0 .. rowSize - 1` sorted by the comparator. -/
theorem no_heap_when_at_most_k (t : TopContainer) (values : List Int) (ps : List Nat)
    (hnd : ps.Nodup) (_hrange : ∀ i ∈ ps, i < values.length) (hn : ps.length ≤ t.mK) :
    (ps.foldl TopContainer.push (t.startCollecting values)).mContainer = ps ∧
    (ps.foldl TopContainer.push (t.startCollecting values)).sortedResult.mContainer.Perm ps ∧
    (ps.foldl TopContainer.push (t.startCollecting values)).sortedResult.mContainer.Pairwise
      (fun a b => fullComparator t.mLargest values a b = true) ∧
    (∀ largest : Bool,
      ((collectRow (TopContainer.new values.length values.length largest) values
        values.length).mContainer.Perm (List.range values.length) ∧
       (collectRow (TopContainer.new values.length values.length largest) values
        values.length).mContainer.Pairwise
          (fun a b => fullComparator largest values a b = true))) := by
  have hinv := t.pushes_pushInv values ps hnd
  have hc := fullComparator_strictTotal t.mLargest values
  have hres := t.pushes_sortedResult values ps hnd
  have hfull : (std_sort (fullComparator t.mLargest values) ps).take t.mK =
      std_sort (fullComparator t.mLargest values) ps :=
    List.take_of_length_le (by rw [(std_sort_perm _ ps).length_eq]; exact hn)
  refine ⟨hinv.1 (by rw [t.pushes_mK]; exact hn), ?_, ?_, ?_⟩
  · rw [hres, hfull]
    exact std_sort_perm _ ps
  · rw [hres, hfull]
    exact std_sort_sorted hc ps hnd
  · intro largest
    rw [collectRow_new_container,
      List.take_of_length_le (by rw [bruteForceOrder_length])]
    exact ⟨bruteForceOrder_perm values largest, bruteForceOrder_sorted values largest⟩

/-- Witness of C14: `k = 3` and the pushes `2, 0, 1` on the row `[5, 1, 4]`, Largest; the
container holds `[2, 0, 1]` and `sortedResult` gives `[0, 2, 1]`. -/
theorem no_heap_when_at_most_k_witness :
    ([2, 0, 1].Nodup ∧ (∀ i ∈ [2, 0, 1], i < [(5 : Int), 1, 4].length) ∧
      [2, 0, 1].length ≤ (TopContainer.new 3 3 true).mK) ∧
    ([2, 0, 1].foldl TopContainer.push
      ((TopContainer.new 3 3 true).startCollecting [5, 1, 4])).mContainer = [2, 0, 1] ∧
    ([2, 0, 1].foldl TopContainer.push
      ((TopContainer.new 3 3 true).startCollecting [5, 1, 4])).sortedResult.mContainer
      = [0, 2, 1] :=
  ⟨by decide,
   (no_heap_when_at_most_k (TopContainer.new 3 3 true) [5, 1, 4] [2, 0, 1] (by decide)
     (by decide) (by decide)).1,
   by decide⟩

/-- C15: for `k ≥ 1` and `n ≥ k + 1` pushes of distinct in-range indices, the container holds
`k + 1` indices; its first `k` slots are distinct pushed indices, each ranked before every
pushed index outside them (the `k` best so far); they form a binary heap under the
comparator whose root `front()` is ranked after every other of them, so it holds the
smallest value among them for Largest and the largest for Smallest; and the last slot is
ranked after every one of the first `k`. -/
theorem push_heap_invariant (t : TopContainer) (values : List Int) (ps : List Nat)
    (hk : 1 ≤ t.mK) (hnd : ps.Nodup) (_hrange : ∀ i ∈ ps, i < values.length)
    (hn : t.mK + 1 ≤ ps.length) :
    (ps.foldl TopContainer.push (t.startCollecting values)).mContainer.length = t.mK + 1 ∧
    (((ps.foldl TopContainer.push (t.startCollecting values)).mContainer.take t.mK).Nodup ∧
      (∀ x ∈ (ps.foldl TopContainer.push (t.startCollecting values)).mContainer.take t.mK,
        x ∈ ps) ∧
      (∀ x ∈ (ps.foldl TopContainer.push (t.startCollecting values)).mContainer.take t.mK,
        ∀ d ∈ ps,
          d ∉ (ps.foldl TopContainer.push (t.startCollecting values)).mContainer.take t.mK →
          fullComparator t.mLargest values x d = true)) ∧
    (IsHeap (fullComparator t.mLargest values)
        (ps.foldl TopContainer.push (t.startCollecting values)).mContainer t.mK ∧
      (ps.foldl TopContainer.push (t.startCollecting values)).mContainer.getD 0 0 ∈
        (ps.foldl TopContainer.push (t.startCollecting values)).mContainer.take t.mK ∧
      (∀ x ∈ (ps.foldl TopContainer.push (t.startCollecting values)).mContainer.take t.mK,
        x ≠ (ps.foldl TopContainer.push (t.startCollecting values)).mContainer.getD 0 0 →
        fullComparator t.mLargest values x
          ((ps.foldl TopContainer.push (t.startCollecting values)).mContainer.getD 0 0) = true) ∧
      (∀ x ∈ (ps.foldl TopContainer.push (t.startCollecting values)).mContainer.take t.mK,
        (t.mLargest = true →
          values.getD ((ps.foldl TopContainer.push
            (t.startCollecting values)).mContainer.getD 0 0) 0 ≤ values.getD x 0) ∧
        (t.mLargest = false →
          values.getD x 0 ≤ values.getD ((ps.foldl TopContainer.push
            (t.startCollecting values)).mContainer.getD 0 0) 0))) ∧
    (∀ x ∈ (ps.foldl TopContainer.push (t.startCollecting values)).mContainer.take t.mK,
      fullComparator t.mLargest values x
        ((ps.foldl TopContainer.push (t.startCollecting values)).mContainer.getD t.mK 0)
        = true) := by
  have hinv := (t.pushes_pushInv values ps hnd).2 (by rw [t.pushes_mK]; omega)
  rw [t.pushes_comparator, t.pushes_mK] at hinv
  obtain ⟨hlen, hheap, rest, hperm, hback, hbest⟩ := hinv
  have hc := fullComparator_strictTotal t.mLargest values
  generalize (ps.foldl TopContainer.push (t.startCollecting values)).mContainer = cont at *
  have hndAll : (cont.take t.mK ++ rest).Nodup := hperm.nodup_iff.1 hnd
  have hroot : ∀ x ∈ cont.take t.mK, x ≠ cont.getD 0 0 →
      fullComparator t.mLargest values x (cont.getD 0 0) = true := by
    intro x hx hne
    obtain ⟨c, hck, hcx⟩ := (mem_take_iff_getD cont t.mK (by omega) x).1 hx
    have hmax := hheap.root_max hc c hck
    rw [hcx] at hmax
    exact hc.lt_of_not_gt hmax hne
  refine ⟨hlen, ⟨List.Nodup.of_append_left hndAll,
    fun x hx => hperm.symm.subset (List.mem_append_left _ hx), ?_⟩,
    ⟨hheap, (mem_take_iff_getD cont t.mK (by omega) _).2 ⟨0, hk, rfl⟩, hroot, ?_⟩,
    fun x hx => hbest x hx _ hback⟩
  · intro x hx d hd hdn
    rcases List.mem_append.1 (hperm.subset hd) with h | h
    · exact absurd h hdn
    · exact hbest x hx d h
  · intro x hx
    by_cases hne : x = cont.getD 0 0
    · rw [← hne]
      exact ⟨fun _ => le_refl _, fun _ => le_refl _⟩
    · have h := hroot x hx hne
      constructor
      · intro hl
        rw [hl] at h
        have h2 : compareDescend values x (cont.getD 0 0) = true := h
        rw [compareDescend_eq_true_iff] at h2
        omega
      · intro hl
        rw [hl] at h
        have h2 : compareAscend values x (cont.getD 0 0) = true := h
        rw [compareAscend_eq_true_iff] at h2
        omega

/-- Witness of C15: `k = 2` and the pushes `0, 1, 2, 3, 4` on the row `[5, 1, 4, 2, 8]`,
Largest; the container ends as `[0, 4, 2]`: heap `[0, 4]` with root 0 (value 5, the worst of
the best two) and overflow slot 2. -/
theorem push_heap_invariant_witness :
    (1 ≤ (TopContainer.new 2 5 true).mK ∧ [0, 1, 2, 3, 4].Nodup ∧
      (∀ i ∈ [0, 1, 2, 3, 4], i < [(5 : Int), 1, 4, 2, 8].length) ∧
      (TopContainer.new 2 5 true).mK + 1 ≤ [0, 1, 2, 3, 4].length) ∧
    ([0, 1, 2, 3, 4].foldl TopContainer.push
      ((TopContainer.new 2 5 true).startCollecting [5, 1, 4, 2, 8])).mContainer = [0, 4, 2] ∧
    ([0, 1, 2, 3, 4].foldl TopContainer.push
      ((TopContainer.new 2 5 true).startCollecting [5, 1, 4, 2, 8])).mContainer.length = 2 + 1 :=
  ⟨by decide, by decide,
   (push_heap_invariant (TopContainer.new 2 5 true) [5, 1, 4, 2, 8] [0, 1, 2, 3, 4] (by decide)
     (by decide) (by decide) (by decide)).1⟩

/-- C17: for every row, every `k ≥ 1`, either ordering and two sequences of distinct in-range
indices that are permutations of each other, pushing one and calling `sortedResult` gives
the same list as pushing the other; the list has `min(k, n)` entries, is sorted by the
comparator, holds pushed indices only, and each of its entries is ranked before every
pushed index left out. -/
theorem sortedResult_order_independent (t : TopContainer) (values : List Int)
    (ps qs : List Nat) (_hk : 1 ≤ t.mK) (hnd : ps.Nodup)
    (_hrange : ∀ i ∈ ps, i < values.length) (hperm : ps.Perm qs) :
    (ps.foldl TopContainer.push (t.startCollecting values)).sortedResult.mContainer =
      (qs.foldl TopContainer.push (t.startCollecting values)).sortedResult.mContainer ∧
    (ps.foldl TopContainer.push (t.startCollecting values)).sortedResult.mContainer.length =
      min t.mK ps.length ∧
    (ps.foldl TopContainer.push (t.startCollecting values)).sortedResult.mContainer.Pairwise
      (fun a b => fullComparator t.mLargest values a b = true) ∧
    (∀ x ∈ (ps.foldl TopContainer.push (t.startCollecting values)).sortedResult.mContainer,
      x ∈ ps ∧
      ∀ d ∈ ps,
        d ∉ (ps.foldl TopContainer.push (t.startCollecting values)).sortedResult.mContainer →
        fullComparator t.mLargest values x d = true) := by
  have hc := fullComparator_strictTotal t.mLargest values
  have hsorted := std_sort_sorted hc ps hnd
  have hsame : std_sort (fullComparator t.mLargest values) qs =
      std_sort (fullComparator t.mLargest values) ps :=
    std_sort_eq_of_sorted hc ((std_sort_perm _ ps).trans hperm) hsorted
  rw [t.pushes_sortedResult values ps hnd,
    t.pushes_sortedResult values qs (hperm.nodup_iff.1 hnd), hsame]
  refine ⟨rfl, ?_, hsorted.sublist (List.take_sublist _ _), ?_⟩
  · rw [List.length_take, (std_sort_perm _ ps).length_eq]
  · intro x hx
    refine ⟨(std_sort_perm _ ps).subset (List.mem_of_mem_take hx), ?_⟩
    intro d hd hdn
    have hd2 : d ∈ std_sort (fullComparator t.mLargest values) ps :=
      (std_sort_perm _ ps).symm.subset hd
    rw [← List.take_append_drop t.mK (std_sort (fullComparator t.mLargest values) ps)] at hd2
    rcases List.mem_append.1 hd2 with h | h
    · exact absurd h hdn
    · have hs := hsorted
      rw [← List.take_append_drop t.mK (std_sort (fullComparator t.mLargest values) ps),
        List.pairwise_append] at hs
      exact hs.2.2 x hx d h

/-- Witness of C17: `k = 2` on the row `[5, 1, 4, 2, 8]`, Largest; the pushes `3, 0, 4, 1`
and `1, 4, 0, 3` both give `[4, 0]`. -/
theorem sortedResult_order_independent_witness :
    (1 ≤ (TopContainer.new 2 5 true).mK ∧ [3, 0, 4, 1].Nodup ∧
      (∀ i ∈ [3, 0, 4, 1], i < [(5 : Int), 1, 4, 2, 8].length) ∧
      [3, 0, 4, 1].Perm [1, 4, 0, 3]) ∧
    ([3, 0, 4, 1].foldl TopContainer.push
      ((TopContainer.new 2 5 true).startCollecting [5, 1, 4, 2, 8])).sortedResult.mContainer
        = [4, 0] ∧
    ([1, 4, 0, 3].foldl TopContainer.push
      ((TopContainer.new 2 5 true).startCollecting [5, 1, 4, 2, 8])).sortedResult.mContainer
        = [4, 0] :=
  ⟨⟨by decide, by decide, by decide, by decide⟩, by decide,
   ((sortedResult_order_independent (TopContainer.new 2 5 true) [5, 1, 4, 2, 8] [3, 0, 4, 1]
     [1, 4, 0, 3] (by decide) (by decide) (by decide) (by decide)).1.symm).trans (by decide)⟩

/-- C18: for every row, either ordering and `0 < k ≤ k' ≤ rowSize`, the index list and the
value list that `findTopK` produces with `k` are the first `k` entries of the lists it
produces with `k'`. -/
theorem findTopK_prefix_consistent (row : List Int) (k k' : Nat) (largest : Bool)
    (outputIndexes outputIndexes' : List Nat) (outputValues outputValues' : List Int)
    (hk : 0 < k ∧ k ≤ k' ∧ k' ≤ row.length)
    (hI : outputIndexes.length = k) (hV : outputValues.length = k)
    (hI' : outputIndexes'.length = k') (hV' : outputValues'.length = k') :
    (findTopK row.length 1 row k outputIndexes outputValues largest).1 =
      (findTopK row.length 1 row k' outputIndexes' outputValues' largest).1.take k ∧
    (findTopK row.length 1 row k outputIndexes outputValues largest).2 =
      (findTopK row.length 1 row k' outputIndexes' outputValues' largest).2.take k := by
  rw [findTopK_single_row row k largest outputIndexes outputValues (by omega) hI hV,
    findTopK_single_row row k' largest outputIndexes' outputValues' hk.2.2 hI' hV']
  have hmin : min k k' = k := Nat.min_eq_left hk.2.1
  constructor
  · show _ = List.take k (List.take k' _)
    rw [List.take_take, hmin]
  · show _ = List.take k (List.map _ (List.take k' _))
    rw [← List.map_take, List.take_take, hmin]

/-- Witness of C18 on the row `[5, 1, 4, 2, 8]`, Largest, with `k = 2` and `k' = 4`. -/
theorem findTopK_prefix_consistent_witness :
    (0 < 2 ∧ 2 ≤ 4 ∧ 4 ≤ [(5 : Int), 1, 4, 2, 8].length) ∧
    findTopK 5 1 [5, 1, 4, 2, 8] 4 [0, 0, 0, 0] [0, 0, 0, 0] true = ([4, 0, 2, 3], [8, 5, 4, 2]) ∧
    (findTopK 5 1 [5, 1, 4, 2, 8] 2 [0, 0] [0, 0] true).1 = [4, 0] :=
  ⟨by decide, by decide,
   ((findTopK_prefix_consistent [5, 1, 4, 2, 8] 2 4 true [0, 0] [0, 0, 0, 0] [0, 0] [0, 0, 0, 0]
     (by decide) rfl rfl rfl rfl).1).trans (by decide)⟩

/-! ## The scalar remainder of the fast path -/

theorem bestPair_iff_max (row : List Int) (m : Nat) (hm : 1 ≤ m) (best : Int × Nat) :
    BestPair row m best ↔
      best.2 < m ∧ best.1 = row.getD best.2 0 ∧
        ∀ j, j < m → row.getD j 0 ≤ best.1 ∧ (row.getD j 0 = best.1 → best.2 ≤ j) := by
  unfold BestPair
  constructor
  · rintro ⟨h1, h2, h3⟩
    refine ⟨by omega, h1, fun j hj => ?_⟩
    rcases h3 j hj with h | h
    · rw [compareDescend_eq_true_iff] at h
      omega
    · rw [h, h1]
      exact ⟨le_refl _, fun _ => le_refl _⟩
  · rintro ⟨h1, h2, h3⟩
    refine ⟨h2, by omega, fun j hj => ?_⟩
    by_cases hji : j = best.2
    · exact Or.inr hji
    · left
      rw [compareDescend_eq_true_iff]
      have := h3 j hj
      omega

/-- C16: for a row with `rowSize ≥ 4`, if the pair `(v0, i0)` handed over by the block
primitive is the maximum of `row[0 .. 4 * (rowSize / 4))` with `i0` the lowest index
attaining it, then after the scalar remainder loop the pair is the maximum of the whole
row with the lowest index attaining it; a remainder element equal to the current best
value does not replace the current best. -/
theorem remainder_extends_block_result (top1 : List Int → Nat → Int × Nat → Int × Nat)
    (row : List Int) (cells : Int × Nat) (v0 : Int) (i0 : Nat) (h4 : 4 ≤ row.length)
    (hpair : top1 row (row.length / 4) cells = (v0, i0))
    (hmax : i0 < 4 * (row.length / 4) ∧ v0 = row.getD i0 0 ∧
      ∀ j, j < 4 * (row.length / 4) → row.getD j 0 ≤ v0 ∧ (row.getD j 0 = v0 → i0 ≤ j)) :
    (fastPathRow top1 row row.length cells).2 < row.length ∧
    (fastPathRow top1 row row.length cells).1 =
      row.getD (fastPathRow top1 row row.length cells).2 0 ∧
    (∀ j, j < row.length →
      row.getD j 0 ≤ (fastPathRow top1 row row.length cells).1 ∧
      (row.getD j 0 = (fastPathRow top1 row row.length cells).1 →
        (fastPathRow top1 row row.length cells).2 ≤ j)) ∧
    (∀ (best : Int × Nat) (j : Nat), row.getD (row.length / 4 * 4 + j) 0 = best.1 →
      remainderStep row (row.length / 4 * 4) best j = best) := by
  have hsplit : row.length / 4 * 4 + row.length % 4 = row.length := Nat.div_add_mod' _ 4
  have hcomm : 4 * (row.length / 4) = row.length / 4 * 4 := Nat.mul_comm _ _
  rw [hcomm] at hmax
  have hinit : BestPair row (row.length / 4 * 4) (top1 row (row.length / 4) cells) := by
    rw [hpair]
    exact (bestPair_iff_max row _ (by omega) (v0, i0)).2 hmax
  have hfin := foldl_remainderStep_bestPair row (row.length / 4 * 4) (row.length % 4) _ hinit
  rw [hsplit] at hfin
  obtain ⟨h1, h2, h3⟩ := (bestPair_iff_max row row.length (by omega) _).1 hfin
  refine ⟨h1, h2, h3, ?_⟩
  intro best j hEq
  unfold remainderStep
  rw [if_neg (by omega)]

/-- Witness of C16: on the row `[1, 2, 3, 4, 5, 6, 7]` the block primitive hands over
`(4, 3)` and the remainder loop ends with index 6, value 7. -/
theorem remainder_extends_block_result_witness :
    (4 ≤ [(1 : Int), 2, 3, 4, 5, 6, 7].length ∧
      top1Scan [1, 2, 3, 4, 5, 6, 7] ([(1 : Int), 2, 3, 4, 5, 6, 7].length / 4) (0, 0) = (4, 3)) ∧
    fastPathRow top1Scan [1, 2, 3, 4, 5, 6, 7] 7 (0, 0) = (7, 6) ∧
    (fastPathRow top1Scan [1, 2, 3, 4, 5, 6, 7] 7 (0, 0)).2 < 7 :=
  ⟨by decide, by decide,
   (remainder_extends_block_result top1Scan [1, 2, 3, 4, 5, 6, 7] (0, 0) 4 3 (by decide)
     (by decide) (by decide)).1⟩

/-! ## Assertions and bounds of onExecute -/

/-- C11: for every input with `k > rowSize`, `onExecute` ends on the assertion
`k <= rowSize` before any row is processed and hands back no output; for every input with
`k ≤ rowSize` that assertion does not fire. -/
theorem onExecute_invalidK (top1F top1 : List Int → Nat → Int × Nat → Int × Nat)
    (mLargest : Bool)
    (type : HalideType) (rowSize elementSize : Nat) (inputData : List Int) (k : Nat)
    (outputData : List Int) (outputIndices : List Nat) :
    (rowSize < k →
      onExecute top1F top1 mLargest type rowSize elementSize inputData k outputData outputIndices =
        ExecResult.invalidK) ∧
    (k ≤ rowSize →
      onExecute top1F top1 mLargest type rowSize elementSize inputData k outputData outputIndices ≠
        ExecResult.invalidK) := by
  constructor
  · intro h
    unfold onExecute
    rw [if_pos (by omega)]
  · intro h
    unfold onExecute
    rw [if_neg (not_not.2 h)]
    split_ifs <;> exact fun hEq => ExecResult.noConfusion hEq

/-- Witness of C11: two rows of three `int32` elements; `k = 4` ends on the assertion,
`k = 2` runs the general path. -/
theorem onExecute_invalidK_witness :
    (3 < 4 ∧ 2 ≤ 3) ∧
    onExecute top1ScanFloat top1Scan true ⟨HalideTypeCode.halide_type_int, 32⟩ 3 6 [3, 1, 2, 7, 9, 8] 4
      [0, 0, 0, 0, 0, 0, 0, 0] [0, 0, 0, 0, 0, 0, 0, 0] = ExecResult.invalidK ∧
    onExecute top1ScanFloat top1Scan true ⟨HalideTypeCode.halide_type_int, 32⟩ 3 6 [3, 1, 2, 7, 9, 8] 2
      [0, 0, 0, 0] [0, 0, 0, 0] = ExecResult.NO_ERROR [3, 2, 9, 8] [0, 2, 1, 2] ∧
    onExecute top1ScanFloat top1Scan true ⟨HalideTypeCode.halide_type_int, 32⟩ 3 6 [3, 1, 2, 7, 9, 8] 2
      [0, 0, 0, 0] [0, 0, 0, 0] ≠ ExecResult.invalidK :=
  ⟨by decide,
   (onExecute_invalidK top1ScanFloat top1Scan true ⟨HalideTypeCode.halide_type_int, 32⟩ 3 6
     [3, 1, 2, 7, 9, 8] 4 [0, 0, 0, 0, 0, 0, 0, 0] [0, 0, 0, 0, 0, 0, 0, 0]).1 (by decide),
   by decide,
   (onExecute_invalidK top1ScanFloat top1Scan true ⟨HalideTypeCode.halide_type_int, 32⟩ 3 6
     [3, 1, 2, 7, 9, 8] 2 [0, 0, 0, 0] [0, 0, 0, 0]).2 (by decide)⟩

theorem TopContainer.pushes_mem (t : TopContainer) (values : List Int) (ps : List Nat)
    (hnd : ps.Nodup) :
    ∀ x ∈ (ps.foldl TopContainer.push (t.startCollecting values)).mContainer, x ∈ ps := by
  have hinv := t.pushes_pushInv values ps hnd
  rw [PushInv, t.pushes_mK] at hinv
  intro x hx
  by_cases hle : ps.length ≤ t.mK
  · rw [hinv.1 hle] at hx
    exact hx
  · obtain ⟨hlen, _, rest, hperm, hback, _⟩ := hinv.2 (by omega)
    generalize (ps.foldl TopContainer.push (t.startCollecting values)).mContainer = cont at *
    have hsplit : cont = cont.take t.mK ++ [cont.getD t.mK 0] := by
      rw [← take_succ_eq_append_getD _ t.mK (by omega), List.take_of_length_le (by omega)]
    rw [hsplit] at hx
    rcases List.mem_append.1 hx with h | h
    · exact hperm.symm.subset (List.mem_append_left _ h)
    · rw [List.mem_singleton] at h
      rw [h]
      exact hperm.symm.subset (List.mem_append_right _ hback)

theorem fastPathInt32_frame (top1 : List Int → Nat → Int × Nat → Int × Nat) (rowSize : Nat)
    (inputData : List Int) (k : Nat) (topkData : List Int) (indicesData : List Nat)
    (hk : 1 ≤ k) :
    ∀ (n p : Nat), n * k ≤ p →
      (fastPathInt32 top1 rowSize n inputData k topkData indicesData).1.getD p 0 =
        topkData.getD p 0 ∧
      (fastPathInt32 top1 rowSize n inputData k topkData indicesData).2.getD p 0 =
        indicesData.getD p 0 := by
  intro n
  induction n with
  | zero => intro p _; exact ⟨rfl, rfl⟩
  | succ n ih =>
    intro p hp
    have hmul : (n + 1) * k = n * k + k := by rw [Nat.add_mul, Nat.one_mul]
    rw [hmul] at hp
    obtain ⟨h1, h2⟩ := ih p (by omega)
    unfold fastPathInt32 at h1 h2 ⊢
    rw [List.range_succ, List.foldl_append, List.foldl_cons, List.foldl_nil]
    simp only [List.getD_eq_getElem?_getD] at h1 h2 ⊢
    rw [List.getElem?_set_ne (by omega), List.getElem?_set_ne (by omega)]
    exact ⟨h1, h2⟩

theorem fastPathFloat_frame (top1F : List Int → Nat → Int × Nat → Int × Nat) (rowSize : Nat)
    (inputData : List Int) (k : Nat) (topkData : List Int) (indicesData : List Nat)
    (hk : 1 ≤ k) :
    ∀ (n p : Nat), n * k ≤ p →
      (fastPathFloat top1F rowSize n inputData k topkData indicesData).1.getD p 0 =
        topkData.getD p 0 ∧
      (fastPathFloat top1F rowSize n inputData k topkData indicesData).2.getD p 0 =
        indicesData.getD p 0 := by
  intro n
  induction n with
  | zero => intro p _; exact ⟨rfl, rfl⟩
  | succ n ih =>
    intro p hp
    have hmul : (n + 1) * k = n * k + k := by rw [Nat.add_mul, Nat.one_mul]
    rw [hmul] at hp
    obtain ⟨h1, h2⟩ := ih p (by omega)
    unfold fastPathFloat at h1 h2 ⊢
    rw [List.range_succ, List.foldl_append, List.foldl_cons, List.foldl_nil]
    simp only [List.getD_eq_getElem?_getD] at h1 h2 ⊢
    rw [List.getElem?_set_ne (by omega), List.getElem?_set_ne (by omega)]
    exact ⟨h1, h2⟩

theorem fastPathInt32_length (top1 : List Int → Nat → Int × Nat → Int × Nat) (rowSize : Nat)
    (inputData : List Int) (k : Nat) (topkData : List Int) (indicesData : List Nat) :
    ∀ n : Nat,
      (fastPathInt32 top1 rowSize n inputData k topkData indicesData).1.length =
        topkData.length ∧
      (fastPathInt32 top1 rowSize n inputData k topkData indicesData).2.length =
        indicesData.length := by
  intro n
  induction n with
  | zero => exact ⟨rfl, rfl⟩
  | succ n ih =>
    unfold fastPathInt32 at ih ⊢
    rw [List.range_succ, List.foldl_append, List.foldl_cons, List.foldl_nil]
    simp only [List.length_set]
    exact ih

theorem fastPathFloat_length (top1F : List Int → Nat → Int × Nat → Int × Nat) (rowSize : Nat)
    (inputData : List Int) (k : Nat) (topkData : List Int) (indicesData : List Nat) :
    ∀ n : Nat,
      (fastPathFloat top1F rowSize n inputData k topkData indicesData).1.length =
        topkData.length ∧
      (fastPathFloat top1F rowSize n inputData k topkData indicesData).2.length =
        indicesData.length := by
  intro n
  induction n with
  | zero => exact ⟨rfl, rfl⟩
  | succ n ih =>
    unfold fastPathFloat at ih ⊢
    rw [List.range_succ, List.foldl_append, List.foldl_cons, List.foldl_nil]
    simp only [List.length_set]
    exact ih

/-! ## The container of `float` candidates: sizes and bounds

These facts hold for every row, rows that hold NaN included. -/

theorem sort_heap_perm (comp : Nat → Nat → Bool) :
    ∀ (n : Nat) (xs : List Nat), n ≤ xs.length → (sort_heap comp n xs).Perm xs := by
  intro n
  induction n with
  | zero => intro xs _; exact List.Perm.refl _
  | succ n ih =>
    intro xs h
    unfold sort_heap
    exact (ih _ (by rw [pop_heap_length]; omega)).trans (pop_heap_perm comp xs (n + 1) h)

theorem mem_resize (xs : List Nat) (n : Nat) (h : n ≤ xs.length) :
    ∀ x ∈ resize xs n, x ∈ xs := by
  intro x hx
  unfold resize at hx
  rw [show n - xs.length = 0 by omega, List.replicate_zero, List.append_nil] at hx
  exact List.mem_of_mem_take hx

theorem TopContainer.pushFloat_mK (t : TopContainer) (a : Nat) : (t.pushFloat a).mK = t.mK := by
  unfold TopContainer.pushFloat
  split_ifs <;> rfl

theorem TopContainer.pushFloat_mLargest (t : TopContainer) (a : Nat) :
    (t.pushFloat a).mLargest = t.mLargest := by
  unfold TopContainer.pushFloat
  split_ifs <;> rfl

theorem TopContainer.pushFloat_mValues (t : TopContainer) (a : Nat) :
    (t.pushFloat a).mValues = t.mValues := by
  unfold TopContainer.pushFloat
  split_ifs <;> rfl

theorem TopContainer.foldl_pushFloat_mK (qs : List Nat) :
    ∀ t : TopContainer, (qs.foldl TopContainer.pushFloat t).mK = t.mK := by
  induction qs with
  | nil => intro t; rfl
  | cons q qs ih => intro t; rw [List.foldl_cons, ih, TopContainer.pushFloat_mK]

theorem TopContainer.foldl_pushFloat_mLargest (qs : List Nat) :
    ∀ t : TopContainer, (qs.foldl TopContainer.pushFloat t).mLargest = t.mLargest := by
  induction qs with
  | nil => intro t; rfl
  | cons q qs ih => intro t; rw [List.foldl_cons, ih, TopContainer.pushFloat_mLargest]

theorem TopContainer.foldl_pushFloat_mValues (qs : List Nat) :
    ∀ t : TopContainer, (qs.foldl TopContainer.pushFloat t).mValues = t.mValues := by
  induction qs with
  | nil => intro t; rfl
  | cons q qs ih => intro t; rw [List.foldl_cons, ih, TopContainer.pushFloat_mValues]

theorem TopContainer.pushFloat_length (t : TopContainer) (a : Nat) :
    (t.pushFloat a).mContainer.length =
      if t.mContainer.length ≤ t.mK then t.mContainer.length + 1 else t.mContainer.length := by
  unfold TopContainer.pushFloat
  split_ifs
  · show (pop_heap _ _ _).length = _
    rw [pop_heap_length, make_heap_length, List.length_append, List.length_singleton]
  · show (t.mContainer ++ [a]).length = _
    rw [List.length_append, List.length_singleton]
  · show (pop_heap _ _ _).length = _
    rw [pop_heap_length, push_heap_length, List.length_set]
  · rfl

theorem TopContainer.foldl_pushFloat_length (qs : List Nat) :
    ∀ t : TopContainer, t.mContainer.length ≤ t.mK + 1 →
      (qs.foldl TopContainer.pushFloat t).mContainer.length =
        min (t.mContainer.length + qs.length) (t.mK + 1) := by
  induction qs with
  | nil =>
    intro t h
    rw [List.foldl_nil, List.length_nil, Nat.add_zero, Nat.min_eq_left h]
  | cons q qs ih =>
    intro t h
    have hl := t.pushFloat_length q
    have hk := t.pushFloat_mK q
    rw [List.foldl_cons, ih (t.pushFloat q) (by rw [hl, hk]; split_ifs <;> omega), hl, hk,
      List.length_cons]
    split_ifs <;> omega

theorem TopContainer.sortedResultFloat_length (t : TopContainer) :
    t.sortedResultFloat.mContainer.length = min t.mContainer.length t.mK := by
  unfold TopContainer.sortedResultFloat
  split_ifs with h
  · show (std_sort _ _).length = _
    rw [(std_sort_perm _ _).length_eq]
    omega
  · show (resize _ _).length = _
    rw [resize_length]
    omega

theorem TopContainer.sortedResultFloat_mK (t : TopContainer) :
    t.sortedResultFloat.mK = t.mK := by
  unfold TopContainer.sortedResultFloat
  split_ifs <;> rfl

theorem TopContainer.sortedResultFloat_mLargest (t : TopContainer) :
    t.sortedResultFloat.mLargest = t.mLargest := by
  unfold TopContainer.sortedResultFloat
  split_ifs <;> rfl

/-- A push adds no index other than the pushed candidate. -/
theorem TopContainer.pushFloat_mem (t : TopContainer) (a : Nat) :
    ∀ x ∈ (t.pushFloat a).mContainer, x ∈ t.mContainer ∨ x = a := by
  intro x hx
  unfold TopContainer.pushFloat at hx
  split_ifs at hx with h1 h2 h3
  · have hperm := (pop_heap_perm t.comparatorFloat
      (make_heap t.comparatorFloat (t.mContainer ++ [a]) (t.mContainer ++ [a]).length)
      (t.mContainer ++ [a]).length (by rw [make_heap_length])).trans
      (make_heap_perm t.comparatorFloat (t.mContainer ++ [a]) _ (Nat.le_refl _))
    rcases List.mem_append.1 (hperm.subset hx) with h | h
    · exact Or.inl h
    · exact Or.inr (List.mem_singleton.1 h)
  · rcases List.mem_append.1 hx with h | h
    · exact Or.inl h
    · exact Or.inr (List.mem_singleton.1 h)
  · have hperm := (pop_heap_perm t.comparatorFloat
      (push_heap t.comparatorFloat (t.mContainer.set (t.mContainer.length - 1) a)
        t.mContainer.length)
      t.mContainer.length (by rw [push_heap_length, List.length_set])).trans
      (push_heap_perm t.comparatorFloat (t.mContainer.set (t.mContainer.length - 1) a)
        t.mContainer.length (by omega) (by rw [List.length_set]))
    exact List.mem_or_eq_of_mem_set (hperm.subset hx)
  · exact Or.inl hx

theorem TopContainer.foldl_pushFloat_mem (qs : List Nat) :
    ∀ t : TopContainer, ∀ x ∈ (qs.foldl TopContainer.pushFloat t).mContainer,
      x ∈ t.mContainer ∨ x ∈ qs := by
  induction qs with
  | nil => intro t x hx; exact Or.inl hx
  | cons q qs ih =>
    intro t x hx
    rw [List.foldl_cons] at hx
    rcases ih (t.pushFloat q) x hx with h | h
    · rcases t.pushFloat_mem q x h with h2 | h2
      · exact Or.inl h2
      · exact Or.inr (by rw [h2]; exact List.mem_cons_self _ _)
    · exact Or.inr (List.mem_cons_of_mem _ h)

theorem TopContainer.sortedResultFloat_mem (t : TopContainer) :
    ∀ x ∈ t.sortedResultFloat.mContainer, x ∈ t.mContainer := by
  intro x hx
  unfold TopContainer.sortedResultFloat at hx
  split_ifs at hx with h
  · exact (std_sort_perm _ _).subset hx
  · exact (sort_heap_perm t.comparatorFloat (t.mContainer.length - 1) t.mContainer
      (by omega)).subset
      (mem_resize _ t.mK (by rw [sort_heap_length]; omega) x hx)

theorem TopContainer.pushesFloat_mem (t : TopContainer) (values : List Int) (ps : List Nat) :
    ∀ x ∈ (ps.foldl TopContainer.pushFloat (t.startCollecting values)).mContainer, x ∈ ps := by
  intro x hx
  rcases TopContainer.foldl_pushFloat_mem ps _ x hx with h | h
  · exact absurd h (List.not_mem_nil x)
  · exact h

theorem collectRowFloat_mem (topc : TopContainer) (values : List Int) (rowSize : Nat) :
    ∀ x ∈ (collectRowFloat topc values rowSize).mContainer, x < rowSize := by
  intro x hx
  unfold collectRowFloat at hx
  exact List.mem_range.1
    (TopContainer.pushesFloat_mem topc values _ x (TopContainer.sortedResultFloat_mem _ x hx))

theorem collectRowFloat_length (topc : TopContainer) (values : List Int) (rowSize : Nat) :
    (collectRowFloat topc values rowSize).mContainer.length = min rowSize topc.mK := by
  unfold collectRowFloat
  rw [TopContainer.sortedResultFloat_length,
    TopContainer.foldl_pushFloat_length _ _ (Nat.zero_le _), TopContainer.foldl_pushFloat_mK,
    List.length_range]
  show min (min (0 + rowSize) (topc.mK + 1)) topc.mK = _
  omega

theorem collectRowFloat_mK (topc : TopContainer) (values : List Int) (rowSize : Nat) :
    (collectRowFloat topc values rowSize).mK = topc.mK := by
  unfold collectRowFloat
  rw [TopContainer.sortedResultFloat_mK, TopContainer.foldl_pushFloat_mK]
  rfl

theorem collectRowFloat_mLargest (topc : TopContainer) (values : List Int) (rowSize : Nat) :
    (collectRowFloat topc values rowSize).mLargest = topc.mLargest := by
  unfold collectRowFloat
  rw [TopContainer.sortedResultFloat_mLargest, TopContainer.foldl_pushFloat_mLargest]
  rfl

/-- The container is rebound for every row: only `mK` and `mLargest` of the reused
instance matter. -/
theorem collectRowFloat_congr (t u : TopContainer) (values : List Int) (rowSize : Nat)
    (h1 : t.mK = u.mK) (h2 : t.mLargest = u.mLargest) :
    collectRowFloat t values rowSize = collectRowFloat u values rowSize := by
  unfold collectRowFloat TopContainer.startCollecting
  rw [h1, h2]

/-- The state of the row loop of `findTopK<float>` after the rows `0 .. n - 1`. -/
theorem findTopKFloat_loop (rowSize : Nat) (data : List Int) (k : Nat) (largest : Bool)
    (outputIndexes : List Nat) (outputValues : List Int) (hk : k ≤ rowSize) :
    ∀ n, n * k ≤ outputIndexes.length → n * k ≤ outputValues.length →
      ((List.range n).foldl (findTopKRowFloat rowSize data k)
        (TopContainer.new k rowSize largest, outputIndexes, outputValues)).1.mK = k ∧
      ((List.range n).foldl (findTopKRowFloat rowSize data k)
        (TopContainer.new k rowSize largest, outputIndexes, outputValues)).1.mLargest
          = largest ∧
      ((List.range n).foldl (findTopKRowFloat rowSize data k)
        (TopContainer.new k rowSize largest, outputIndexes, outputValues)).2.1.length
          = outputIndexes.length ∧
      ((List.range n).foldl (findTopKRowFloat rowSize data k)
        (TopContainer.new k rowSize largest, outputIndexes, outputValues)).2.2.length
          = outputValues.length ∧
      (∀ r j, r < n → j < k →
        ((List.range n).foldl (findTopKRowFloat rowSize data k)
          (TopContainer.new k rowSize largest, outputIndexes, outputValues)).2.1[r * k + j]? =
          (collectRowFloat (TopContainer.new k rowSize largest) (data.drop (r * rowSize))
            rowSize).mContainer[j]? ∧
        ((List.range n).foldl (findTopKRowFloat rowSize data k)
          (TopContainer.new k rowSize largest, outputIndexes, outputValues)).2.2[r * k + j]? =
          ((collectRowFloat (TopContainer.new k rowSize largest) (data.drop (r * rowSize))
            rowSize).mContainer.map
            (fun loc => (data.drop (r * rowSize)).getD loc 0))[j]?) ∧
      (∀ p, n * k ≤ p →
        ((List.range n).foldl (findTopKRowFloat rowSize data k)
          (TopContainer.new k rowSize largest, outputIndexes, outputValues)).2.1[p]? =
          outputIndexes[p]? ∧
        ((List.range n).foldl (findTopKRowFloat rowSize data k)
          (TopContainer.new k rowSize largest, outputIndexes, outputValues)).2.2[p]? =
          outputValues[p]?) := by
  intro n
  induction n with
  | zero =>
    intro _ _
    refine ⟨rfl, rfl, rfl, rfl, fun r j hr _ => absurd hr (by omega), fun p _ => ⟨rfl, rfl⟩⟩
  | succ n ih =>
    intro hI hV
    have hmul : (n + 1) * k = n * k + k := by rw [Nat.add_mul, Nat.one_mul]
    rw [hmul] at hI hV
    obtain ⟨h1, h2, h3, h4, h5, h6⟩ := ih (by omega) (by omega)
    rw [List.range_succ, List.foldl_append, List.foldl_cons, List.foldl_nil]
    generalize (List.range n).foldl (findTopKRowFloat rowSize data k)
      (TopContainer.new k rowSize largest, outputIndexes, outputValues) = st at h1 h2 h3 h4 h5 h6
    have hrow : collectRowFloat st.1 (data.drop (n * rowSize)) rowSize =
        collectRowFloat (TopContainer.new k rowSize largest) (data.drop (n * rowSize)) rowSize :=
      collectRowFloat_congr _ _ _ _ h1 h2
    have hlen : (collectRowFloat (TopContainer.new k rowSize largest)
        (data.drop (n * rowSize)) rowSize).mContainer.length = k := by
      rw [collectRowFloat_length]
      show min rowSize k = k
      omega
    have hI2 : (findTopKRowFloat rowSize data k st n).2.1 =
        std_copy (collectRowFloat (TopContainer.new k rowSize largest)
          (data.drop (n * rowSize)) rowSize).mContainer (n * k) st.2.1 := by
      rw [← hrow]
      rfl
    have hV2 : (findTopKRowFloat rowSize data k st n).2.2 =
        std_copy ((collectRowFloat (TopContainer.new k rowSize largest)
          (data.drop (n * rowSize)) rowSize).mContainer.map
          (fun loc => (data.drop (n * rowSize)).getD loc 0)) (n * k) st.2.2 := by
      rw [← hrow]
      rfl
    have hIp := std_copy_getElem? (collectRowFloat (TopContainer.new k rowSize largest)
      (data.drop (n * rowSize)) rowSize).mContainer (n * k)
      st.2.1 (by rw [hlen, h3]; exact hI)
    have hVp := std_copy_getElem? ((collectRowFloat (TopContainer.new k rowSize largest)
      (data.drop (n * rowSize)) rowSize).mContainer.map
      (fun loc => (data.drop (n * rowSize)).getD loc 0)) (n * k)
      st.2.2 (by rw [List.length_map, hlen, h4]; exact hV)
    rw [List.length_map] at hVp
    rw [hlen] at hIp hVp
    refine ⟨?_, ?_, ?_, ?_, ?_, ?_⟩
    · show (collectRowFloat st.1 _ _).mK = k
      rw [collectRowFloat_mK, h1]
    · show (collectRowFloat st.1 _ _).mLargest = largest
      rw [collectRowFloat_mLargest, h2]
    · rw [hI2, std_copy_length, h3]
    · rw [hV2, std_copy_length, h4]
    · intro r j hr hj
      rw [hI2, hV2, hIp, hVp]
      by_cases hrn : r = n
      · subst hrn
        rw [if_pos (by omega), if_pos (by omega), Nat.add_sub_cancel_left]
        exact ⟨rfl, rfl⟩
      · have hrlt : r < n := by omega
        have hbound : r * k + j < n * k := by
          have : (r + 1) * k ≤ n * k := Nat.mul_le_mul_right k hrlt
          rw [Nat.add_mul, Nat.one_mul] at this
          omega
        rw [if_neg (by omega), if_neg (by omega)]
        exact h5 r j hrlt hj
    · intro p hp
      rw [hmul] at hp
      rw [hI2, hV2, hIp, hVp, if_neg (by omega), if_neg (by omega)]
      exact h6 p (by omega)

theorem foldl_remainderStep_congr (row row2 : List Int) (base : Nat) :
    ∀ (r : Nat) (best : Int × Nat),
      (∀ j, j < r → row.getD (base + j) 0 = row2.getD (base + j) 0) →
      (List.range r).foldl (remainderStep row base) best =
        (List.range r).foldl (remainderStep row2 base) best := by
  intro r
  induction r with
  | zero => intro best _; rfl
  | succ r ih =>
    intro best h
    rw [List.range_succ, List.foldl_append, List.foldl_append, List.foldl_cons, List.foldl_nil,
      List.foldl_cons, List.foldl_nil, ih best (fun j hj => h j (by omega))]
    unfold remainderStep
    rw [h r (by omega)]

theorem foldl_remainderStepFloat_congr (row row2 : List Int) (base : Nat) :
    ∀ (r : Nat) (best : Int × Nat),
      (∀ j, j < r → row.getD (base + j) 0 = row2.getD (base + j) 0) →
      (List.range r).foldl (remainderStepFloat row base) best =
        (List.range r).foldl (remainderStepFloat row2 base) best := by
  intro r
  induction r with
  | zero => intro best _; rfl
  | succ r ih =>
    intro best h
    rw [List.range_succ, List.foldl_append, List.foldl_append, List.foldl_cons, List.foldl_nil,
      List.foldl_cons, List.foldl_nil, ih best (fun j hj => h j (by omega))]
    unfold remainderStepFloat
    rw [h r (by omega)]

/-- C12: for an input of a supported element type (`float` or `int` of 32 bits) with
`rowSize ≥ 1`, `0 < k ≤ rowSize`, `elementSize()` input words and output buffers of at
least `numRows * k` cells, `onExecute` returns `NO_ERROR` with output buffers of unchanged
size whose positions from `numRows * k` on are untouched; it ends on neither assertion and
on no division by zero, the divisor `rowSize` being not zero; for both element types and every row, every index
held by the container while the columns are pushed (the indices the comparator reads), and
every index gathered after `sortedResult`, lies in `[0, rowSize)` and addresses a word of
the input; the remainder loops of the fast paths compute from the `rowSize` words of the
row alone; and the four selection paths leave every output position from `numRows * k` on
untouched. -/
theorem onExecute_no_other_error (top1F top1 : List Int → Nat → Int × Nat → Int × Nat)
    (mLargest : Bool) (type : HalideType) (rowSize elementSize : Nat) (inputData : List Int)
    (k : Nat) (outputData : List Int) (outputIndices : List Nat)
    (htype : (type.code = HalideTypeCode.halide_type_float ∧ type.bits = 32) ∨
      (type.code = HalideTypeCode.halide_type_int ∧ type.bits = 32))
    (hrow : 1 ≤ rowSize) (hk : 0 < k ∧ k ≤ rowSize) (hdata : inputData.length = elementSize)
    (hI : elementSize / rowSize * k ≤ outputIndices.length)
    (hV : elementSize / rowSize * k ≤ outputData.length) :
    (∃ d i,
      onExecute top1F top1 mLargest type rowSize elementSize inputData k outputData
        outputIndices = ExecResult.NO_ERROR d i ∧
      d.length = outputData.length ∧ i.length = outputIndices.length ∧
      ∀ p, elementSize / rowSize * k ≤ p →
        d.getD p 0 = outputData.getD p 0 ∧ i.getD p 0 = outputIndices.getD p 0) ∧
    (rowSize ≠ 0 ∧
      onExecute top1F top1 mLargest type rowSize elementSize inputData k outputData
        outputIndices ≠ ExecResult.divisionByZero ∧
      onExecute top1F top1 mLargest type rowSize elementSize inputData k outputData
        outputIndices ≠ ExecResult.invalidK ∧
      onExecute top1F top1 mLargest type rowSize elementSize inputData k outputData
        outputIndices ≠ ExecResult.unsupportedType) ∧
    (∀ r m, r < elementSize / rowSize → m ≤ rowSize →
      (∀ x ∈ ((List.range m).foldl TopContainer.push
          ((TopContainer.new k rowSize mLargest).startCollecting
            (inputData.drop (r * rowSize)))).mContainer,
        x < rowSize ∧ r * rowSize + x < inputData.length) ∧
      (∀ x ∈ ((List.range m).foldl TopContainer.pushFloat
          ((TopContainer.new k rowSize mLargest).startCollecting
            (inputData.drop (r * rowSize)))).mContainer,
        x < rowSize ∧ r * rowSize + x < inputData.length)) ∧
    (∀ r, r < elementSize / rowSize →
      (∀ x ∈ (collectRow (TopContainer.new k rowSize mLargest) (inputData.drop (r * rowSize))
          rowSize).mContainer,
        x < rowSize ∧ r * rowSize + x < inputData.length) ∧
      (∀ x ∈ (collectRowFloat (TopContainer.new k rowSize mLargest)
          (inputData.drop (r * rowSize)) rowSize).mContainer,
        x < rowSize ∧ r * rowSize + x < inputData.length)) ∧
    (∀ r (best : Int × Nat), r < elementSize / rowSize →
      (List.range (rowSize % 4)).foldl
          (remainderStep (inputData.drop (r * rowSize)) (rowSize / 4 * 4)) best =
        (List.range (rowSize % 4)).foldl
          (remainderStep (rowOf inputData rowSize r) (rowSize / 4 * 4)) best ∧
      (List.range (rowSize % 4)).foldl
          (remainderStepFloat (inputData.drop (r * rowSize)) (rowSize / 4 * 4)) best =
        (List.range (rowSize % 4)).foldl
          (remainderStepFloat (rowOf inputData rowSize r) (rowSize / 4 * 4)) best) ∧
    (∀ p, elementSize / rowSize * k ≤ p →
      ((findTopK rowSize (elementSize / rowSize) inputData k outputIndices outputData
          mLargest).1.getD p 0 = outputIndices.getD p 0 ∧
        (findTopK rowSize (elementSize / rowSize) inputData k outputIndices outputData
          mLargest).2.getD p 0 = outputData.getD p 0) ∧
      ((fastPathInt32 top1 rowSize (elementSize / rowSize) inputData k outputData
          outputIndices).1.getD p 0 = outputData.getD p 0 ∧
        (fastPathInt32 top1 rowSize (elementSize / rowSize) inputData k outputData
          outputIndices).2.getD p 0 = outputIndices.getD p 0) ∧
      ((findTopKFloat rowSize (elementSize / rowSize) inputData k outputIndices outputData
          mLargest).1.getD p 0 = outputIndices.getD p 0 ∧
        (findTopKFloat rowSize (elementSize / rowSize) inputData k outputIndices outputData
          mLargest).2.getD p 0 = outputData.getD p 0) ∧
      ((fastPathFloat top1F rowSize (elementSize / rowSize) inputData k outputData
          outputIndices).1.getD p 0 = outputData.getD p 0 ∧
        (fastPathFloat top1F rowSize (elementSize / rowSize) inputData k outputData
          outputIndices).2.getD p 0 = outputIndices.getD p 0)) := by
  have hword : ∀ r x, r < elementSize / rowSize → x < rowSize →
      r * rowSize + x < inputData.length := by
    intro r x hr hx
    have h1 : (r + 1) * rowSize ≤ elementSize / rowSize * rowSize :=
      Nat.mul_le_mul_right rowSize hr
    have h2 : elementSize / rowSize * rowSize ≤ elementSize := Nat.div_mul_le_self _ _
    rw [Nat.add_mul, Nat.one_mul] at h1
    omega
  obtain ⟨_, _, g3, g4, _, g6⟩ := findTopK_loop rowSize inputData k mLargest outputIndices
    outputData hk.2 (elementSize / rowSize) hI hV
  obtain ⟨_, _, f3, f4, _, f6⟩ := findTopKFloat_loop rowSize inputData k mLargest outputIndices
    outputData hk.2 (elementSize / rowSize) hI hV
  have hgen : ∀ p, elementSize / rowSize * k ≤ p →
      (findTopK rowSize (elementSize / rowSize) inputData k outputIndices outputData
          mLargest).1.getD p 0 = outputIndices.getD p 0 ∧
        (findTopK rowSize (elementSize / rowSize) inputData k outputIndices outputData
          mLargest).2.getD p 0 = outputData.getD p 0 := by
    intro p hp
    obtain ⟨hi, hv⟩ := g6 p hp
    unfold findTopK
    rw [List.getD_eq_getElem?_getD, List.getD_eq_getElem?_getD, List.getD_eq_getElem?_getD,
      List.getD_eq_getElem?_getD, hi, hv]
    exact ⟨rfl, rfl⟩
  have hgenF : ∀ p, elementSize / rowSize * k ≤ p →
      (findTopKFloat rowSize (elementSize / rowSize) inputData k outputIndices outputData
          mLargest).1.getD p 0 = outputIndices.getD p 0 ∧
        (findTopKFloat rowSize (elementSize / rowSize) inputData k outputIndices outputData
          mLargest).2.getD p 0 = outputData.getD p 0 := by
    intro p hp
    obtain ⟨hi, hv⟩ := f6 p hp
    unfold findTopKFloat
    rw [List.getD_eq_getElem?_getD, List.getD_eq_getElem?_getD, List.getD_eq_getElem?_getD,
      List.getD_eq_getElem?_getD, hi, hv]
    exact ⟨rfl, rfl⟩
  have hfast := fastPathInt32_frame top1 rowSize inputData k outputData outputIndices hk.1
    (elementSize / rowSize)
  have hfastF := fastPathFloat_frame top1F rowSize inputData k outputData outputIndices hk.1
    (elementSize / rowSize)
  have hfl := fastPathInt32_length top1 rowSize inputData k outputData outputIndices
    (elementSize / rowSize)
  have hflF := fastPathFloat_length top1F rowSize inputData k outputData outputIndices
    (elementSize / rowSize)
  have hex : ∃ d i,
      onExecute top1F top1 mLargest type rowSize elementSize inputData k outputData
        outputIndices = ExecResult.NO_ERROR d i ∧
      d.length = outputData.length ∧ i.length = outputIndices.length ∧
      ∀ p, elementSize / rowSize * k ≤ p →
        d.getD p 0 = outputData.getD p 0 ∧ i.getD p 0 = outputIndices.getD p 0 := by
    unfold onExecute
    rw [if_neg (not_not.2 hk.2), if_neg (by omega)]
    by_cases hfp : k = 1 ∧ mLargest = true
    · rw [if_pos hfp]
      rcases htype with ⟨hc, _⟩ | ⟨hc, hb⟩
      · rw [if_pos hc]
        exact ⟨_, _, rfl, hflF.1, hflF.2, hfastF⟩
      · rw [if_neg (by rw [hc]; decide), if_pos ⟨hc, hb⟩]
        exact ⟨_, _, rfl, hfl.1, hfl.2, hfast⟩
    · rw [if_neg hfp]
      rcases htype with ⟨hc, _⟩ | ⟨hc, hb⟩
      · rw [if_pos hc]
        exact ⟨_, _, rfl, f4, f3, fun p hp => ⟨(hgenF p hp).2, (hgenF p hp).1⟩⟩
      · rw [if_neg (by rw [hc]; decide), if_pos ⟨hc, hb⟩]
        exact ⟨_, _, rfl, g4, g3, fun p hp => ⟨(hgen p hp).2, (hgen p hp).1⟩⟩
  have hne : ∀ e : ExecResult, (∀ d i, e ≠ ExecResult.NO_ERROR d i) →
      onExecute top1F top1 mLargest type rowSize elementSize inputData k outputData
        outputIndices ≠ e := by
    intro e he hEq
    obtain ⟨d, i, h, _⟩ := hex
    exact he d i (hEq.symm.trans h)
  refine ⟨hex,
    ⟨by omega, hne _ (fun _ _ h => ExecResult.noConfusion h),
      hne _ (fun _ _ h => ExecResult.noConfusion h),
      hne _ (fun _ _ h => ExecResult.noConfusion h)⟩,
    ?_, ?_, ?_, fun p hp => ⟨hgen p hp, hfast p hp, hgenF p hp, hfastF p hp⟩⟩
  · intro r m hr hm
    refine ⟨fun x hx => ?_, fun x hx => ?_⟩
    · have hmem := TopContainer.pushes_mem (TopContainer.new k rowSize mLargest)
        (inputData.drop (r * rowSize)) (List.range m) (List.nodup_range m) x hx
      have hxr : x < rowSize := by
        have := List.mem_range.1 hmem
        omega
      exact ⟨hxr, hword r x hr hxr⟩
    · have hmem := TopContainer.pushesFloat_mem (TopContainer.new k rowSize mLargest)
        (inputData.drop (r * rowSize)) (List.range m) x hx
      have hxr : x < rowSize := by
        have := List.mem_range.1 hmem
        omega
      exact ⟨hxr, hword r x hr hxr⟩
  · intro r hr
    refine ⟨fun x hx => ?_, fun x hx => ?_⟩
    · rw [collectRow_container] at hx
      have hxr : x < rowSize := rowTopK_lt _ _ _ _ x hx
      exact ⟨hxr, hword r x hr hxr⟩
    · have hxr : x < rowSize := collectRowFloat_mem _ _ _ x hx
      exact ⟨hxr, hword r x hr hxr⟩
  · intro r best hr
    have hsplit : rowSize / 4 * 4 + rowSize % 4 = rowSize := Nat.div_add_mod' _ 4
    have hread : ∀ j, j < rowSize % 4 →
        (inputData.drop (r * rowSize)).getD (rowSize / 4 * 4 + j) 0 =
          (rowOf inputData rowSize r).getD (rowSize / 4 * 4 + j) 0 := by
      intro j hj
      unfold rowOf
      rw [getD_take_int _ _ _ (by omega)]
    exact ⟨foldl_remainderStep_congr _ _ _ _ best hread,
      foldl_remainderStepFloat_congr _ _ _ _ best hread⟩

/-- Witness of C12: two rows of three elements with `k = 2`, Largest, as `int` of 32 bits
and as `float` of 32 bits (the words of 1.0, 3.0, 2.0 and of -1.0, a NaN, 0.0). -/
theorem onExecute_no_other_error_witness :
    (1 ≤ 3 ∧ (0 < 2 ∧ 2 ≤ 3) ∧ [(3 : Int), 1, 2, 7, 9, 8].length = 6 ∧
      6 / 3 * 2 ≤ [(0 : Nat), 0, 0, 0].length) ∧
    (∃ d i,
      onExecute top1ScanFloat top1Scan true ⟨HalideTypeCode.halide_type_int, 32⟩ 3 6
        [3, 1, 2, 7, 9, 8] 2 [0, 0, 0, 0] [0, 0, 0, 0] = ExecResult.NO_ERROR d i ∧
      d.length = [(0 : Int), 0, 0, 0].length ∧ i.length = [(0 : Nat), 0, 0, 0].length ∧
      ∀ p, 6 / 3 * 2 ≤ p →
        d.getD p 0 = [(0 : Int), 0, 0, 0].getD p 0 ∧
          i.getD p 0 = [(0 : Nat), 0, 0, 0].getD p 0) ∧
    onExecute top1ScanFloat top1Scan true ⟨HalideTypeCode.halide_type_int, 32⟩ 3 6
      [3, 1, 2, 7, 9, 8] 2 [0, 0, 0, 0] [0, 0, 0, 0] =
        ExecResult.NO_ERROR [3, 2, 9, 8] [0, 2, 1, 2] ∧
    (∃ d i,
      onExecute top1ScanFloat top1Scan true ⟨HalideTypeCode.halide_type_float, 32⟩ 3 6
        [1065353216, 1077936128, 1073741824, 3212836864, 2143289344, 0] 2 [0, 0, 0, 0]
        [0, 0, 0, 0] = ExecResult.NO_ERROR d i ∧
      d.length = [(0 : Int), 0, 0, 0].length ∧ i.length = [(0 : Nat), 0, 0, 0].length ∧
      ∀ p, 6 / 3 * 2 ≤ p →
        d.getD p 0 = [(0 : Int), 0, 0, 0].getD p 0 ∧
          i.getD p 0 = [(0 : Nat), 0, 0, 0].getD p 0) ∧
    onExecute top1ScanFloat top1Scan true ⟨HalideTypeCode.halide_type_float, 32⟩ 3 6
      [1065353216, 1077936128, 1073741824, 3212836864, 2143289344, 0] 2 [0, 0, 0, 0]
      [0, 0, 0, 0] = ExecResult.NO_ERROR [1077936128, 1073741824, 2143289344, 0] [1, 2, 1, 2] :=
  ⟨by decide,
   (onExecute_no_other_error top1ScanFloat top1Scan true ⟨HalideTypeCode.halide_type_int, 32⟩
     3 6 [3, 1, 2, 7, 9, 8] 2 [0, 0, 0, 0] [0, 0, 0, 0] (Or.inr ⟨rfl, rfl⟩) (by decide)
     (by decide) rfl (by decide) (by decide)).1,
   by decide,
   (onExecute_no_other_error top1ScanFloat top1Scan true
     ⟨HalideTypeCode.halide_type_float, 32⟩ 3 6
     [1065353216, 1077936128, 1073741824, 3212836864, 2143289344, 0] 2 [0, 0, 0, 0]
     [0, 0, 0, 0] (Or.inl ⟨rfl, rfl⟩) (by decide) (by decide) rfl (by decide) (by decide)).1,
   by decide⟩

/-! ## The `float` paths on rows without NaN -/

theorem floatLt_eq (x y : Int) (hx : floatIsNaN x = false) (hy : floatIsNaN y = false) :
    floatLt x y = decide (floatKey x < floatKey y) := by
  unfold floatLt
  rw [hx, hy]
  rfl

theorem getD_map_floatKey (v : List Int) (a : Nat) :
    (v.map floatKey).getD a 0 = floatKey (v.getD a 0) := by
  rw [List.getD_eq_getElem?_getD, List.getD_eq_getElem?_getD, List.getElem?_map]
  cases v[a]? with
  | none => decide
  | some w => rfl

theorem getD_not_nan (v : List Int) (h : ∀ w ∈ v, floatIsNaN w = false) (a : Nat) :
    floatIsNaN (v.getD a 0) = false := by
  rw [List.getD_eq_getElem?_getD]
  cases hv : v[a]? with
  | none => decide
  | some w => exact h w (List.getElem?_mem hv)

theorem compareDescendFloat_eq (v : List Int) (a b : Nat)
    (ha : floatIsNaN (v.getD a 0) = false) (hb : floatIsNaN (v.getD b 0) = false) :
    compareDescendFloat v a b = compareDescend (v.map floatKey) a b := by
  unfold compareDescendFloat compareDescend
  rw [getD_map_floatKey, getD_map_floatKey, floatLt_eq _ _ hb ha, floatLt_eq _ _ ha hb]
  simp only [decide_eq_true_eq, gt_iff_lt]

theorem compareAscendFloat_eq (v : List Int) (a b : Nat)
    (ha : floatIsNaN (v.getD a 0) = false) (hb : floatIsNaN (v.getD b 0) = false) :
    compareAscendFloat v a b = compareAscend (v.map floatKey) a b := by
  unfold compareAscendFloat compareAscend
  rw [getD_map_floatKey, getD_map_floatKey, floatLt_eq _ _ hb ha, floatLt_eq _ _ ha hb]
  simp only [decide_eq_true_eq, gt_iff_lt]

/-- On a row without NaN the comparator of `TopContainer<float>` is the comparator of
`TopContainer<int32_t>` on the keys of the row. -/
theorem TopContainer.comparatorFloat_keyed (t : TopContainer)
    (h : ∀ w ∈ t.mValues, floatIsNaN w = false) : t.comparatorFloat = t.keyed.comparator := by
  funext a b
  show (if t.mLargest = true then compareDescendFloat t.mValues
      else compareAscendFloat t.mValues) a b =
    (if t.mLargest = true then compareDescend (t.mValues.map floatKey)
      else compareAscend (t.mValues.map floatKey)) a b
  split_ifs
  · exact compareDescendFloat_eq _ a b (getD_not_nan _ h a) (getD_not_nan _ h b)
  · exact compareAscendFloat_eq _ a b (getD_not_nan _ h a) (getD_not_nan _ h b)

theorem TopContainer.pushFloat_keyed (t : TopContainer) (a : Nat)
    (h : ∀ w ∈ t.mValues, floatIsNaN w = false) : (t.pushFloat a).keyed = t.keyed.push a := by
  unfold TopContainer.pushFloat TopContainer.push
  rw [TopContainer.comparatorFloat_keyed t h]
  simp only [TopContainer.keyed]
  split_ifs <;> rfl

theorem TopContainer.foldl_pushFloat_keyed (qs : List Nat) :
    ∀ t : TopContainer, (∀ w ∈ t.mValues, floatIsNaN w = false) →
      (qs.foldl TopContainer.pushFloat t).keyed = qs.foldl TopContainer.push t.keyed := by
  induction qs with
  | nil => intro t _; rfl
  | cons q qs ih =>
    intro t h
    rw [List.foldl_cons, List.foldl_cons,
      ih (t.pushFloat q) (by rw [TopContainer.pushFloat_mValues]; exact h),
      TopContainer.pushFloat_keyed t q h]

theorem TopContainer.sortedResultFloat_keyed (t : TopContainer)
    (h : ∀ w ∈ t.mValues, floatIsNaN w = false) :
    t.sortedResultFloat.keyed = t.keyed.sortedResult := by
  unfold TopContainer.sortedResultFloat TopContainer.sortedResult
  rw [TopContainer.comparatorFloat_keyed t h]
  simp only [TopContainer.keyed]
  split_ifs <;> rfl

/-- On a row without NaN the container returned for the row holds the first `mK` entries of
the column indices sorted by the full comparator on the keys. -/
theorem collectRowFloat_container (topc : TopContainer) (values : List Int) (rowSize : Nat)
    (h : ∀ w ∈ values, floatIsNaN w = false) :
    (collectRowFloat topc values rowSize).mContainer =
      rowTopK topc.mLargest (values.map floatKey) rowSize topc.mK := by
  have hk : (collectRowFloat topc values rowSize).keyed =
      collectRow topc (values.map floatKey) rowSize := by
    unfold collectRowFloat collectRow
    rw [TopContainer.sortedResultFloat_keyed _
      (by rw [TopContainer.foldl_pushFloat_mValues]; exact h),
      TopContainer.foldl_pushFloat_keyed _ _ h]
    rfl
  have hc : (collectRowFloat topc values rowSize).mContainer =
      (collectRowFloat topc values rowSize).keyed.mContainer := rfl
  rw [hc, hk, collectRow_container]
  rfl

theorem remainderStepFloat_keyed (row : List Int) (base j : Nat) (best : Int × Nat)
    (hb : floatIsNaN best.1 = false) (hj : floatIsNaN (row.getD (base + j) 0) = false) :
    (floatKey (remainderStepFloat row base best j).1, (remainderStepFloat row base best j).2) =
      remainderStep (row.map floatKey) base (floatKey best.1, best.2) j ∧
    floatIsNaN (remainderStepFloat row base best j).1 = false ∧
    (best.1 = row.getD best.2 0 →
      (remainderStepFloat row base best j).1 =
        row.getD (remainderStepFloat row base best j).2 0) := by
  unfold remainderStepFloat remainderStep
  rw [getD_map_floatKey, floatLt_eq _ _ hb hj]
  by_cases hlt : floatKey best.1 < floatKey (row.getD (base + j) 0)
  · rw [if_pos (decide_eq_true hlt), if_pos hlt]
    exact ⟨rfl, hj, fun _ => rfl⟩
  · rw [if_neg (by simpa using hlt), if_neg hlt]
    exact ⟨rfl, hb, fun h => h⟩

theorem foldl_remainderStepFloat_keyed (row : List Int) (base : Nat) :
    ∀ (r : Nat) (best : Int × Nat), floatIsNaN best.1 = false →
      (∀ j, j < r → floatIsNaN (row.getD (base + j) 0) = false) →
      (floatKey ((List.range r).foldl (remainderStepFloat row base) best).1,
        ((List.range r).foldl (remainderStepFloat row base) best).2) =
        (List.range r).foldl (remainderStep (row.map floatKey) base) (floatKey best.1, best.2) ∧
      floatIsNaN ((List.range r).foldl (remainderStepFloat row base) best).1 = false ∧
      (best.1 = row.getD best.2 0 →
        ((List.range r).foldl (remainderStepFloat row base) best).1 =
          row.getD ((List.range r).foldl (remainderStepFloat row base) best).2 0) := by
  intro r
  induction r with
  | zero => intro best hb _; exact ⟨rfl, hb, fun h => h⟩
  | succ r ih =>
    intro best hb hrow
    obtain ⟨h1, h2, h3⟩ := ih best hb (fun j hj => hrow j (by omega))
    rw [List.range_succ, List.foldl_append, List.foldl_cons, List.foldl_nil, List.foldl_append,
      List.foldl_cons, List.foldl_nil, ← h1]
    obtain ⟨g1, g2, g3⟩ := remainderStepFloat_keyed row base r _ h2 (hrow r (by omega))
    exact ⟨g1, g2, fun h => g3 (h3 h)⟩

theorem top1ScanFloat_contract : Top1ContractFloat top1ScanFloat := by
  intro input blocks cells _ hnan
  refine ⟨fun hb => ?_, fun hb => ?_⟩
  · rw [hb]
    rfl
  · obtain ⟨h1, _, h3⟩ := foldl_remainderStepFloat_keyed input 0 (4 * blocks)
      (input.getD 0 0, 0) (hnan 0 (by omega)) (fun j hj => by
        rw [Nat.zero_add]
        exact hnan j hj)
    obtain ⟨_, hc⟩ := top1Scan_contract (input.map floatKey) blocks cells
      (by rw [List.length_map]; assumption)
    obtain ⟨c1, _, c3⟩ := hc hb
    have hkey : (floatKey (top1ScanFloat input blocks cells).1,
        (top1ScanFloat input blocks cells).2) = top1Scan (input.map floatKey) blocks cells := by
      unfold top1ScanFloat top1Scan
      rw [h1, getD_map_floatKey]
    have hidx : (top1Scan (input.map floatKey) blocks cells).2 =
        (top1ScanFloat input blocks cells).2 := by
      rw [← hkey]
    rw [hidx] at c1 c3
    refine ⟨c1, h3 rfl, fun j hj => ?_⟩
    rcases c3 j hj with h | h
    · left
      rw [compareDescendFloat_eq _ _ _ (hnan _ c1) (hnan j hj)]
      exact h
    · exact Or.inr h

theorem fastPathRowFloat_bestPair (top1F : List Int → Nat → Int × Nat → Int × Nat)
    (row : List Int) (rowSize : Nat) (cells : Int × Nat) (hc : Top1ContractFloat top1F)
    (hlen : rowSize ≤ row.length) (hnan : ∀ w ∈ row, floatIsNaN w = false) :
    (fastPathRowFloat top1F row rowSize cells).1 =
      row.getD (fastPathRowFloat top1F row rowSize cells).2 0 ∧
    BestPair (row.map floatKey) rowSize
      (floatKey (fastPathRowFloat top1F row rowSize cells).1,
        (fastPathRowFloat top1F row rowSize cells).2) := by
  have hsplit : rowSize / 4 * 4 + rowSize % 4 = rowSize := Nat.div_add_mod' _ 4
  obtain ⟨hz, hpos⟩ := hc row (rowSize / 4) cells (by omega)
    (fun j _ => getD_not_nan row hnan j)
  have hstart : (top1F row (rowSize / 4) cells).1 =
        row.getD (top1F row (rowSize / 4) cells).2 0 ∧
      BestPair (row.map floatKey) (rowSize / 4 * 4)
        (floatKey (top1F row (rowSize / 4) cells).1, (top1F row (rowSize / 4) cells).2) := by
    by_cases hb : 1 ≤ rowSize / 4
    · obtain ⟨h1, h2, h3⟩ := hpos hb
      refine ⟨h2, ?_, by simp only []; omega, fun j hj => ?_⟩
      · show floatKey _ = (row.map floatKey).getD _ 0
        rw [getD_map_floatKey, ← h2]
      · rcases h3 j (by omega) with h | h
        · left
          rw [← compareDescendFloat_eq _ _ _ (getD_not_nan row hnan _) (getD_not_nan row hnan _)]
          exact h
        · exact Or.inr h
    · have h0 : rowSize / 4 = 0 := by omega
      rw [hz h0, h0]
      refine ⟨rfl, ?_, ?_, fun j hj => absurd hj (by omega)⟩
      · show floatKey _ = (row.map floatKey).getD 0 0
        rw [getD_map_floatKey]
      · show 0 < max (0 * 4) 1
        decide
  obtain ⟨h1, _, h3⟩ := foldl_remainderStepFloat_keyed row (rowSize / 4 * 4) (rowSize % 4)
    (top1F row (rowSize / 4) cells) (by rw [hstart.1]; exact getD_not_nan row hnan _)
    (fun j _ => getD_not_nan row hnan _)
  have hfin := foldl_remainderStep_bestPair (row.map floatKey) (rowSize / 4 * 4) (rowSize % 4)
    _ hstart.2
  rw [hsplit, ← h1] at hfin
  exact ⟨h3 hstart.1, hfin⟩

/-! ## Equivalence of the fast paths and the general paths -/

theorem rowDrop_length (inputData : List Int) (rowSize numRows r : Nat)
    (hdata : inputData.length = numRows * rowSize) (hr : r < numRows) :
    rowSize ≤ (inputData.drop (r * rowSize)).length := by
  have := rowOf_length inputData rowSize numRows r hdata hr
  unfold rowOf at this
  rw [List.length_take] at this
  omega

theorem list_eq_singleton {α : Type} (l : List α) (x : α) (hlen : l.length = 1)
    (h0 : l[0]? = some x) : l = [x] := by
  match l, hlen, h0 with
  | [a], _, h0 =>
    rw [List.getElem?_cons_zero] at h0
    rw [Option.some.inj h0]

theorem bestPair_congr (row row2 : List Int) (m : Nat) (best : Int × Nat) (hm : 1 ≤ m)
    (h : ∀ i, i < m → row.getD i 0 = row2.getD i 0) (hb : BestPair row m best) :
    BestPair row2 m best := by
  obtain ⟨b1, b2, b3⟩ := hb
  have hlt : best.2 < m := by omega
  refine ⟨by rw [← h _ hlt]; exact b1, b2, fun j hj => ?_⟩
  rcases b3 j hj with h3 | h3
  · left
    unfold compareDescend at h3 ⊢
    rw [← h _ hlt, ← h _ hj]
    exact h3
  · exact Or.inr h3

theorem collectRowFloat_of_bestPair (row : List Int) (rowSize : Nat) (best : Int × Nat)
    (hrow : 1 ≤ rowSize) (hnan : ∀ w ∈ row, floatIsNaN w = false)
    (hb : BestPair (row.map floatKey) rowSize best) :
    (collectRowFloat (TopContainer.new 1 rowSize true) row rowSize).mContainer = [best.2] :=
  (collectRowFloat_container _ _ _ hnan).trans (rowTopK_one_eq _ rowSize _ hrow hb)

/-- The `int32_t` fast path leaves in the output buffers what `findTopK` with `k = 1`,
`largest = true` leaves. -/
theorem fastPathInt32_eq_findTopK (top1 : List Int → Nat → Int × Nat → Int × Nat)
    (rowSize numRows : Nat) (inputData : List Int) (outputData : List Int)
    (outputIndices : List Nat) (hc : Top1Contract top1) (hrow : 1 ≤ rowSize)
    (hdata : inputData.length = numRows * rowSize) (hV : numRows ≤ outputData.length)
    (hI : numRows ≤ outputIndices.length) :
    fastPathInt32 top1 rowSize numRows inputData 1 outputData outputIndices =
      ((findTopK rowSize numRows inputData 1 outputIndices outputData true).2,
       (findTopK rowSize numRows inputData 1 outputIndices outputData true).1) := by
  have hbest : ∀ r, r < numRows → ∀ cells : Int × Nat,
      BestPair (inputData.drop (r * rowSize)) rowSize
        (fastPathRow top1 (inputData.drop (r * rowSize)) rowSize cells) :=
    fun r hr cells => fastPathRow_bestPair top1 _ rowSize cells hc
      (rowDrop_length inputData rowSize numRows r hdata hr)
  have htop : ∀ r, r < numRows → ∀ cells : Int × Nat,
      rowTopK true (inputData.drop (r * rowSize)) rowSize 1 =
        [(fastPathRow top1 (inputData.drop (r * rowSize)) rowSize cells).2] :=
    fun r hr cells => rowTopK_one_eq _ rowSize _ hrow (hbest r hr cells)
  obtain ⟨_, _, g3, g4⟩ := cellLoop_spec
    (fun i cells => fastPathRow top1 (inputData.drop (i * rowSize)) rowSize cells) 1
    (Nat.le_refl 1) outputData outputIndices numRows (by omega) (by omega)
  obtain ⟨_, _, _, _, f5, f6⟩ := findTopK_loop rowSize inputData 1 true outputIndices
    outputData hrow numRows (by omega) (by omega)
  have hpos : ∀ p : Nat,
      (fastPathInt32 top1 rowSize numRows inputData 1 outputData outputIndices).1[p]? =
        (findTopK rowSize numRows inputData 1 outputIndices outputData true).2[p]? ∧
      (fastPathInt32 top1 rowSize numRows inputData 1 outputData outputIndices).2[p]? =
        (findTopK rowSize numRows inputData 1 outputIndices outputData true).1[p]? := by
    intro p
    by_cases hp : p < numRows
    · obtain ⟨a1, a2⟩ := g3 p hp
      obtain ⟨b1, b2⟩ := f5 p 0 hp (by omega)
      rw [Nat.mul_one] at a1 a2
      rw [Nat.mul_one, Nat.add_zero] at b1 b2
      rw [htop p hp (outputData.getD p 0, outputIndices.getD p 0)] at b1 b2
      have hv := (hbest p hp (outputData.getD p 0, outputIndices.getD p 0)).1
      refine ⟨?_, ?_⟩
      · show _ = ((List.range numRows).foldl (findTopKRow rowSize inputData 1)
          (TopContainer.new 1 rowSize true, outputIndices, outputData)).2.2[p]?
        rw [b2]
        show _ = some ((inputData.drop (p * rowSize)).getD _ 0)
        rw [← hv]
        exact a1
      · show _ = ((List.range numRows).foldl (findTopKRow rowSize inputData 1)
          (TopContainer.new 1 rowSize true, outputIndices, outputData)).2.1[p]?
        rw [b1]
        exact a2
    · obtain ⟨a1, a2⟩ := g4 p (fun r hr => by omega)
      obtain ⟨b1, b2⟩ := f6 p (by omega)
      refine ⟨?_, ?_⟩
      · show _ = ((List.range numRows).foldl (findTopKRow rowSize inputData 1)
          (TopContainer.new 1 rowSize true, outputIndices, outputData)).2.2[p]?
        rw [b2]
        exact a1
      · show _ = ((List.range numRows).foldl (findTopKRow rowSize inputData 1)
          (TopContainer.new 1 rowSize true, outputIndices, outputData)).2.1[p]?
        rw [b1]
        exact a2
  apply Prod.ext
  · exact List.ext_getElem? (fun p => (hpos p).1)
  · exact List.ext_getElem? (fun p => (hpos p).2)

/-- The pair of the `int32_t` fast path for a row is the pair of `findTopK` on that row
alone. -/
theorem fastPathRow_eq_findTopK (top1 : List Int → Nat → Int × Nat → Int × Nat)
    (rowSize numRows : Nat) (inputData : List Int) (hc : Top1Contract top1)
    (hrow : 1 ≤ rowSize) (hdata : inputData.length = numRows * rowSize) (r : Nat)
    (hr : r < numRows) (cells : Int × Nat) :
    findTopK rowSize 1 (rowOf inputData rowSize r) 1 [cells.2] [cells.1] true =
      ([(fastPathRow top1 (inputData.drop (r * rowSize)) rowSize cells).2],
       [(fastPathRow top1 (inputData.drop (r * rowSize)) rowSize cells).1]) := by
  have hbest := fastPathRow_bestPair top1 _ rowSize cells hc
    (rowDrop_length inputData rowSize numRows r hdata hr)
  have htop := rowTopK_one_eq _ rowSize _ hrow hbest
  have hlen := rowOf_length inputData rowSize numRows r hdata hr
  have hsingle := findTopK_single_row (rowOf inputData rowSize r) 1 true [cells.2] [cells.1]
    (by rw [hlen]; exact hrow) rfl rfl
  rw [hlen] at hsingle
  have hlt : (fastPathRow top1 (inputData.drop (r * rowSize)) rowSize cells).2 < rowSize := by
    have := hbest.2.1
    omega
  have htake := getD_take_int (inputData.drop (r * rowSize)) rowSize _ hlt
  rw [hsingle, ← rowTopK_eq_bruteForceOrder true inputData rowSize 1 r hlen, htop,
    List.map_singleton, hbest.1]
  unfold rowOf
  rw [htake]

/-- The `float` fast path leaves in the output buffers what `findTopK<float>` with `k = 1`,
`largest = true` leaves, on an input without NaN. -/
theorem fastPathFloat_eq_findTopKFloat (top1F : List Int → Nat → Int × Nat → Int × Nat)
    (rowSize numRows : Nat) (inputData : List Int) (outputData : List Int)
    (outputIndices : List Nat) (hc : Top1ContractFloat top1F) (hrow : 1 ≤ rowSize)
    (hdata : inputData.length = numRows * rowSize) (hV : numRows ≤ outputData.length)
    (hI : numRows ≤ outputIndices.length) (hnan : ∀ w ∈ inputData, floatIsNaN w = false) :
    fastPathFloat top1F rowSize numRows inputData 1 outputData outputIndices =
      ((findTopKFloat rowSize numRows inputData 1 outputIndices outputData true).2,
       (findTopKFloat rowSize numRows inputData 1 outputIndices outputData true).1) := by
  have hdropnan : ∀ r, ∀ w ∈ inputData.drop (r * rowSize), floatIsNaN w = false :=
    fun r w hw => hnan w (List.mem_of_mem_drop hw)
  have hbest : ∀ r, r < numRows → ∀ cells : Int × Nat,
      (fastPathRowFloat top1F (inputData.drop (r * rowSize)) rowSize cells).1 =
        (inputData.drop (r * rowSize)).getD
          (fastPathRowFloat top1F (inputData.drop (r * rowSize)) rowSize cells).2 0 ∧
      BestPair ((inputData.drop (r * rowSize)).map floatKey) rowSize
        (floatKey (fastPathRowFloat top1F (inputData.drop (r * rowSize)) rowSize cells).1,
          (fastPathRowFloat top1F (inputData.drop (r * rowSize)) rowSize cells).2) :=
    fun r hr cells => fastPathRowFloat_bestPair top1F _ rowSize cells hc
      (rowDrop_length inputData rowSize numRows r hdata hr) (hdropnan r)
  have htop : ∀ r, r < numRows → ∀ cells : Int × Nat,
      (collectRowFloat (TopContainer.new 1 rowSize true) (inputData.drop (r * rowSize))
        rowSize).mContainer =
        [(fastPathRowFloat top1F (inputData.drop (r * rowSize)) rowSize cells).2] :=
    fun r hr cells => collectRowFloat_of_bestPair _ rowSize
      (floatKey (fastPathRowFloat top1F (inputData.drop (r * rowSize)) rowSize cells).1,
        (fastPathRowFloat top1F (inputData.drop (r * rowSize)) rowSize cells).2)
      hrow (hdropnan r) (hbest r hr cells).2
  obtain ⟨_, _, g3, g4⟩ := cellLoop_spec
    (fun i cells => fastPathRowFloat top1F (inputData.drop (i * rowSize)) rowSize cells) 1
    (Nat.le_refl 1) outputData outputIndices numRows (by omega) (by omega)
  obtain ⟨_, _, _, _, f5, f6⟩ := findTopKFloat_loop rowSize inputData 1 true outputIndices
    outputData hrow numRows (by omega) (by omega)
  have hpos : ∀ p : Nat,
      (fastPathFloat top1F rowSize numRows inputData 1 outputData outputIndices).1[p]? =
        (findTopKFloat rowSize numRows inputData 1 outputIndices outputData true).2[p]? ∧
      (fastPathFloat top1F rowSize numRows inputData 1 outputData outputIndices).2[p]? =
        (findTopKFloat rowSize numRows inputData 1 outputIndices outputData true).1[p]? := by
    intro p
    by_cases hp : p < numRows
    · obtain ⟨a1, a2⟩ := g3 p hp
      obtain ⟨b1, b2⟩ := f5 p 0 hp (by omega)
      rw [Nat.mul_one] at a1 a2
      rw [Nat.mul_one, Nat.add_zero] at b1 b2
      rw [htop p hp (outputData.getD p 0, outputIndices.getD p 0)] at b1 b2
      have hv := (hbest p hp (outputData.getD p 0, outputIndices.getD p 0)).1
      refine ⟨?_, ?_⟩
      · show _ = ((List.range numRows).foldl (findTopKRowFloat rowSize inputData 1)
          (TopContainer.new 1 rowSize true, outputIndices, outputData)).2.2[p]?
        rw [b2]
        show _ = some ((inputData.drop (p * rowSize)).getD _ 0)
        rw [← hv]
        exact a1
      · show _ = ((List.range numRows).foldl (findTopKRowFloat rowSize inputData 1)
          (TopContainer.new 1 rowSize true, outputIndices, outputData)).2.1[p]?
        rw [b1]
        exact a2
    · obtain ⟨a1, a2⟩ := g4 p (fun r hr => by omega)
      obtain ⟨b1, b2⟩ := f6 p (by omega)
      refine ⟨?_, ?_⟩
      · show _ = ((List.range numRows).foldl (findTopKRowFloat rowSize inputData 1)
          (TopContainer.new 1 rowSize true, outputIndices, outputData)).2.2[p]?
        rw [b2]
        exact a1
      · show _ = ((List.range numRows).foldl (findTopKRowFloat rowSize inputData 1)
          (TopContainer.new 1 rowSize true, outputIndices, outputData)).2.1[p]?
        rw [b1]
        exact a2
  apply Prod.ext
  · exact List.ext_getElem? (fun p => (hpos p).1)
  · exact List.ext_getElem? (fun p => (hpos p).2)

/-- The pair of the `float` fast path for a row without NaN is the pair of
`findTopK<float>` on that row alone. -/
theorem fastPathRowFloat_eq_findTopKFloat
    (top1F : List Int → Nat → Int × Nat → Int × Nat) (rowSize numRows : Nat)
    (inputData : List Int) (hc : Top1ContractFloat top1F) (hrow : 1 ≤ rowSize)
    (hdata : inputData.length = numRows * rowSize)
    (hnan : ∀ w ∈ inputData, floatIsNaN w = false) (r : Nat) (hr : r < numRows)
    (cells : Int × Nat) :
    findTopKFloat rowSize 1 (rowOf inputData rowSize r) 1 [cells.2] [cells.1] true =
      ([(fastPathRowFloat top1F (inputData.drop (r * rowSize)) rowSize cells).2],
       [(fastPathRowFloat top1F (inputData.drop (r * rowSize)) rowSize cells).1]) := by
  have hdropnan : ∀ w ∈ inputData.drop (r * rowSize), floatIsNaN w = false :=
    fun w hw => hnan w (List.mem_of_mem_drop hw)
  obtain ⟨hval, hbest⟩ := fastPathRowFloat_bestPair top1F _ rowSize cells hc
    (rowDrop_length inputData rowSize numRows r hdata hr) hdropnan
  have hlt : (fastPathRowFloat top1F (inputData.drop (r * rowSize)) rowSize cells).2 <
      rowSize := by
    have := hbest.2.1
    simp only [] at this
    omega
  have hrownan : ∀ w ∈ (rowOf inputData rowSize r).drop (0 * rowSize),
      floatIsNaN w = false := by
    intro w hw
    unfold rowOf at hw
    exact hdropnan w (List.mem_of_mem_take (List.mem_of_mem_drop hw))
  have hget : ∀ i, i < rowSize →
      ((inputData.drop (r * rowSize)).map floatKey).getD i 0 =
        (((rowOf inputData rowSize r).drop (0 * rowSize)).map floatKey).getD i 0 := by
    intro i hi
    rw [getD_map_floatKey, getD_map_floatKey, Nat.zero_mul, List.drop_zero]
    unfold rowOf
    rw [getD_take_int _ _ _ hi]
  have hcont := collectRowFloat_of_bestPair _ rowSize _ hrow hrownan
    (bestPair_congr _ _ rowSize _ hrow hget hbest)
  obtain ⟨_, _, f3, f4, f5, _⟩ := findTopKFloat_loop rowSize (rowOf inputData rowSize r) 1 true
    [cells.2] [cells.1] hrow 1 (by simp) (by simp)
  obtain ⟨c1, c2⟩ := f5 0 0 (by omega) (by omega)
  rw [hcont] at c1 c2
  apply Prod.ext
  · exact list_eq_singleton _ _ f3 c1
  · apply list_eq_singleton _ _ f4
    show ((List.range 1).foldl (findTopKRowFloat rowSize (rowOf inputData rowSize r) 1)
      (TopContainer.new 1 rowSize true, [cells.2], [cells.1])).2.2[0]? = _
    rw [show (0 : Nat) = 0 * 1 + 0 from rfl, c2, hval]
    show some (((rowOf inputData rowSize r).drop (0 * rowSize)).getD _ 0) = _
    rw [Nat.zero_mul, List.drop_zero]
    unfold rowOf
    rw [getD_take_int _ _ _ hlt]

/-- C2: for `k = 1`, Largest and `numRows` rows of length `rowSize ≥ 1` (any remainder
`rowSize % 4`, zero blocks included, duplicate maxima included), with the block primitive
taken at its contract, the fast path of `onExecute` leaves in the two output buffers
exactly what the general path `findTopK` with `k = 1`, `largest = true` leaves for the same
input, and `onExecute` returns these buffers; row by row, the pair computed by the fast
path is the pair that `findTopK` produces for that row alone.  This holds for `int32_t`
inputs, and for `float` inputs that hold no NaN. -/
theorem fastPath_eq_generalPath (top1F top1 : List Int → Nat → Int × Nat → Int × Nat)
    (rowSize numRows : Nat) (inputData : List Int) (outputData : List Int)
    (outputIndices : List Nat) (hrow : 1 ≤ rowSize)
    (hdata : inputData.length = numRows * rowSize) (hV : numRows ≤ outputData.length)
    (hI : numRows ≤ outputIndices.length) :
    (Top1Contract top1 →
      fastPathInt32 top1 rowSize numRows inputData 1 outputData outputIndices =
        ((findTopK rowSize numRows inputData 1 outputIndices outputData true).2,
         (findTopK rowSize numRows inputData 1 outputIndices outputData true).1) ∧
      onExecute top1F top1 true ⟨HalideTypeCode.halide_type_int, 32⟩ rowSize
          (numRows * rowSize) inputData 1 outputData outputIndices =
        ExecResult.NO_ERROR
          (findTopK rowSize numRows inputData 1 outputIndices outputData true).2
          (findTopK rowSize numRows inputData 1 outputIndices outputData true).1 ∧
      (∀ r, r < numRows → ∀ cells : Int × Nat,
        findTopK rowSize 1 (rowOf inputData rowSize r) 1 [cells.2] [cells.1] true =
          ([(fastPathRow top1 (inputData.drop (r * rowSize)) rowSize cells).2],
           [(fastPathRow top1 (inputData.drop (r * rowSize)) rowSize cells).1]))) ∧
    (Top1ContractFloat top1F → (∀ w ∈ inputData, floatIsNaN w = false) →
      fastPathFloat top1F rowSize numRows inputData 1 outputData outputIndices =
        ((findTopKFloat rowSize numRows inputData 1 outputIndices outputData true).2,
         (findTopKFloat rowSize numRows inputData 1 outputIndices outputData true).1) ∧
      onExecute top1F top1 true ⟨HalideTypeCode.halide_type_float, 32⟩ rowSize
          (numRows * rowSize) inputData 1 outputData outputIndices =
        ExecResult.NO_ERROR
          (findTopKFloat rowSize numRows inputData 1 outputIndices outputData true).2
          (findTopKFloat rowSize numRows inputData 1 outputIndices outputData true).1 ∧
      (∀ r, r < numRows → ∀ cells : Int × Nat,
        findTopKFloat rowSize 1 (rowOf inputData rowSize r) 1 [cells.2] [cells.1] true =
          ([(fastPathRowFloat top1F (inputData.drop (r * rowSize)) rowSize cells).2],
           [(fastPathRowFloat top1F (inputData.drop (r * rowSize)) rowSize cells).1]))) := by
  refine ⟨fun hc => ?_, fun hc hnan => ?_⟩
  · have hfast := fastPathInt32_eq_findTopK top1 rowSize numRows inputData outputData
      outputIndices hc hrow hdata hV hI
    refine ⟨hfast, ?_, fun r hr cells =>
      fastPathRow_eq_findTopK top1 rowSize numRows inputData hc hrow hdata r hr cells⟩
    unfold onExecute
    rw [if_neg (not_not.2 hrow), if_neg (by omega), if_pos ⟨rfl, rfl⟩, if_neg (by decide),
      if_pos ⟨rfl, rfl⟩, Nat.mul_div_cancel _ (by omega), hfast]
  · have hfast := fastPathFloat_eq_findTopKFloat top1F rowSize numRows inputData outputData
      outputIndices hc hrow hdata hV hI hnan
    refine ⟨hfast, ?_, fun r hr cells =>
      fastPathRowFloat_eq_findTopKFloat top1F rowSize numRows inputData hc hrow hdata hnan r hr
        cells⟩
    unfold onExecute
    rw [if_neg (not_not.2 hrow), if_neg (by omega), if_pos ⟨rfl, rfl⟩, if_pos rfl,
      Nat.mul_div_cancel _ (by omega), hfast]

/-- Witness of C2 with the primitives `top1Scan` and `top1ScanFloat`.  As `int32_t`: the
rows `[1, 2, 3, 4, 5, 6, 7]` (index 6, value 7) and `[9, 3, 9, 1, 2, 9, 4]` (duplicate
maxima, index 0), and the rows `[10]` (index 0, value 10) and `[-3]` of a single element
(zero blocks).  As `float`: the rows 1.0 .. 7.0 (index 6, value 7.0) and
9.0, 3.0, 9.0, 1.0, 2.0, 9.0, 4.0 (index 0), and the rows 10.0 (index 0) and -3.0. -/
theorem fastPath_eq_generalPath_witness :
    ((1 ≤ 7 ∧ [(1 : Int), 2, 3, 4, 5, 6, 7, 9, 3, 9, 1, 2, 9, 4].length = 2 * 7) ∧
      onExecute top1ScanFloat top1Scan true ⟨HalideTypeCode.halide_type_int, 32⟩ 7 (2 * 7)
        [1, 2, 3, 4, 5, 6, 7, 9, 3, 9, 1, 2, 9, 4] 1 [0, 0] [0, 0] =
        ExecResult.NO_ERROR [7, 9] [6, 0] ∧
      findTopK 7 2 [1, 2, 3, 4, 5, 6, 7, 9, 3, 9, 1, 2, 9, 4] 1 [0, 0] [0, 0] true =
        ([6, 0], [7, 9])) ∧
    ((1 ≤ 1 ∧ [(10 : Int), -3].length = 2 * 1) ∧
      onExecute top1ScanFloat top1Scan true ⟨HalideTypeCode.halide_type_int, 32⟩ 1 (2 * 1)
        [10, -3] 1 [0, 0] [0, 0] = ExecResult.NO_ERROR [10, -3] [0, 0] ∧
      findTopK 1 2 [10, -3] 1 [0, 0] [0, 0] true = ([0, 0], [10, -3])) ∧
    ((∀ w ∈ [(1065353216 : Int), 1073741824, 1077936128, 1082130432, 1084227584, 1086324736,
          1088421888, 1091567616, 1077936128, 1091567616, 1065353216, 1073741824, 1091567616,
          1082130432], floatIsNaN w = false) ∧
      onExecute top1ScanFloat top1Scan true ⟨HalideTypeCode.halide_type_float, 32⟩ 7 (2 * 7)
        [1065353216, 1073741824, 1077936128, 1082130432, 1084227584, 1086324736, 1088421888,
          1091567616, 1077936128, 1091567616, 1065353216, 1073741824, 1091567616, 1082130432]
        1 [0, 0] [0, 0] = ExecResult.NO_ERROR [1088421888, 1091567616] [6, 0] ∧
      findTopKFloat 7 2
        [1065353216, 1073741824, 1077936128, 1082130432, 1084227584, 1086324736, 1088421888,
          1091567616, 1077936128, 1091567616, 1065353216, 1073741824, 1091567616, 1082130432]
        1 [0, 0] [0, 0] true = ([6, 0], [1088421888, 1091567616])) ∧
    ((∀ w ∈ [(1092616192 : Int), 3225419776], floatIsNaN w = false) ∧
      onExecute top1ScanFloat top1Scan true ⟨HalideTypeCode.halide_type_float, 32⟩ 1 (2 * 1)
        [1092616192, 3225419776] 1 [0, 0] [0, 0] =
        ExecResult.NO_ERROR [1092616192, 3225419776] [0, 0] ∧
      findTopKFloat 1 2 [1092616192, 3225419776] 1 [0, 0] [0, 0] true =
        ([0, 0], [1092616192, 3225419776])) :=
  ⟨⟨by decide,
    ((fastPath_eq_generalPath top1ScanFloat top1Scan 7 2
      [1, 2, 3, 4, 5, 6, 7, 9, 3, 9, 1, 2, 9, 4] [0, 0] [0, 0] (by decide) rfl (by decide)
      (by decide)).1 top1Scan_contract).2.1.trans (by decide), by decide⟩,
   ⟨by decide,
    ((fastPath_eq_generalPath top1ScanFloat top1Scan 1 2 [10, -3] [0, 0] [0, 0] (by decide)
      rfl (by decide) (by decide)).1 top1Scan_contract).2.1.trans (by decide),
    by decide⟩,
   ⟨by decide,
    ((fastPath_eq_generalPath top1ScanFloat top1Scan 7 2
      [1065353216, 1073741824, 1077936128, 1082130432, 1084227584, 1086324736, 1088421888,
        1091567616, 1077936128, 1091567616, 1065353216, 1073741824, 1091567616, 1082130432]
      [0, 0] [0, 0] (by decide) rfl (by decide) (by decide)).2 top1ScanFloat_contract
      (by decide)).2.1.trans (by decide), by decide⟩,
   ⟨by decide,
    ((fastPath_eq_generalPath top1ScanFloat top1Scan 1 2 [1092616192, 3225419776] [0, 0]
      [0, 0] (by decide) rfl (by decide) (by decide)).2 top1ScanFloat_contract
      (by decide)).2.1.trans (by decide), by decide⟩⟩

/-! ## Concat shape computation -/

theorem memcpyDims_length (obDim inputDim : List Int) (n : Nat) :
    (memcpyDims obDim inputDim n).length = obDim.length :=
  std_copy_length _ _ _

theorem memcpyDims_getD (obDim inputDim : List Int) (n : Nat) (ho : n ≤ obDim.length)
    (hi : n ≤ inputDim.length) (i : Nat) (h : i < n) :
    (memcpyDims obDim inputDim n).getD i 0 = inputDim.getD i 0 := by
  have hl : (inputDim.take n).length = n := by
    rw [List.length_take]
    omega
  unfold memcpyDims
  rw [List.getD_eq_getElem?_getD, List.getD_eq_getElem?_getD,
    std_copy_getElem? _ 0 _ (by rw [hl]; omega), hl, if_pos (by omega), Nat.sub_zero,
    List.getElem?_take, if_pos h]

theorem dimsMatch_iff (axis : Int) (t : Tensor) (obDim : List Int) :
    dimsMatch axis t obDim = true ↔
      ∀ i, i < t.dimensions → (i : Int) = axis ∨ t.dim.getD i 0 = obDim.getD i 0 := by
  unfold dimsMatch
  rw [List.all_eq_true]
  constructor
  · intro h i hi
    have := h i (List.mem_range.2 hi)
    rw [Bool.or_eq_true, decide_eq_true_eq, decide_eq_true_eq] at this
    exact this
  · intro h i hi
    rw [Bool.or_eq_true, decide_eq_true_eq, decide_eq_true_eq]
    exact h i (List.mem_range.1 hi)

theorem wrapInt32_idem (x : Int) : wrapInt32 (wrapInt32 x) = wrapInt32 x := by
  unfold wrapInt32
  omega

theorem wrapInt32_add_left (x y : Int) : wrapInt32 (wrapInt32 x + y) = wrapInt32 (x + y) := by
  unfold wrapInt32
  omega

theorem wrapInt32_of_range (x : Int) (h : -2147483648 ≤ x ∧ x < 2147483648) :
    wrapInt32 x = x := by
  unfold wrapInt32
  omega

theorem sumAndCheck_spec (axis : Int) :
    ∀ (ts : List Tensor) (ob : Tensor) (sum : Int),
      ((sumAndCheck axis ts ob sum).1 = true ↔ ∀ t ∈ ts, dimsMatch axis t ob.dim = true) ∧
      (sumAndCheck axis ts ob sum).2.1.dim = ob.dim ∧
      (sumAndCheck axis ts ob sum).2.1.dimensions = ob.dimensions ∧
      ((sumAndCheck axis ts ob sum).1 = true → wrapInt32 sum = sum →
        (sumAndCheck axis ts ob sum).2.2 =
          wrapInt32 (sum + (ts.map (fun t => extentAt t.dim axis)).sum)) := by
  intro ts
  induction ts with
  | nil =>
    intro ob sum
    refine ⟨⟨fun _ t ht => absurd ht (List.not_mem_nil t), fun _ => rfl⟩, rfl, rfl,
      fun _ hs => ?_⟩
    show sum = wrapInt32 (sum + 0)
    rw [Int.add_zero, hs]
  | cons t ts ih =>
    intro ob sum
    unfold sumAndCheck
    by_cases hm : dimsMatch axis t ob.dim = true
    · rw [if_pos hm]
      obtain ⟨h1, h2, h3, h4⟩ :=
        ih ⟨ob.dimensions, ob.dim, t.type, ob.size, ob.dimensionFormat⟩
          (wrapInt32 (sum + extentAt t.dim axis))
      refine ⟨⟨fun h u hu => ?_, fun h => h1.2 (fun u hu => h u (List.mem_cons_of_mem _ hu))⟩,
        h2, h3, fun h _ => ?_⟩
      · rcases List.mem_cons.1 hu with hu | hu
        · rw [hu]
          exact hm
        · exact h1.1 h u hu
      · rw [h4 h (wrapInt32_idem _), wrapInt32_add_left, List.map_cons, List.sum_cons,
          Int.add_assoc]
    · rw [if_neg hm]
      refine ⟨⟨fun h => Bool.noConfusion h, fun h => absurd (h t (List.mem_cons_self _ _)) hm⟩,
        rfl, rfl, fun h => Bool.noConfusion h⟩

theorem scanFirstNonEmpty_head (ob : Tensor) (axis : Int) (maxDim : Nat) (input : Tensor)
    (rest : List Tensor) (h : 0 < input.size) :
    scanFirstNonEmpty ob axis maxDim (input :: rest) =
      (true,
       ⟨input.dimensions, memcpyDims ob.dim input.dim input.dimensions, input.type, ob.size,
         ob.dimensionFormat⟩,
       normalizedAxis axis input.dimensions, maxDim) := by
  unfold scanFirstNonEmpty
  rw [if_neg (by omega)]
  rfl

theorem scanFirstNonEmpty_of_find (ob : Tensor) (axis : Int) (ne : Tensor) :
    ∀ (inputs : List Tensor) (maxDim : Nat),
      inputs.find? (fun t => decide (0 < t.size)) = some ne →
      (scanFirstNonEmpty ob axis maxDim inputs).1 = true ∧
      (scanFirstNonEmpty ob axis maxDim inputs).2.1 =
        ⟨ne.dimensions, memcpyDims ob.dim ne.dim ne.dimensions, ne.type, ob.size,
          ob.dimensionFormat⟩ ∧
      (scanFirstNonEmpty ob axis maxDim inputs).2.2.1 = normalizedAxis axis ne.dimensions := by
  intro inputs
  induction inputs with
  | nil =>
    intro maxDim h
    exact absurd h (by simp)
  | cons input rest ih =>
    intro maxDim h
    by_cases hs : 0 < input.size
    · rw [List.find?_cons_of_pos _ (by simpa using hs)] at h
      have hEq : input = ne := Option.some.inj h
      rw [scanFirstNonEmpty_head ob axis maxDim input rest hs, hEq]
      exact ⟨rfl, rfl, rfl⟩
    · rw [List.find?_cons_of_neg _ (by simpa using hs)] at h
      unfold scanFirstNonEmpty
      rw [if_pos (by omega)]
      exact ih _ h

theorem scanFirstNonEmpty_all_empty (ob : Tensor) (axis : Int) :
    ∀ (inputs : List Tensor) (maxDim : Nat), (∀ t ∈ inputs, t.size ≤ 0) →
      scanFirstNonEmpty ob axis maxDim inputs =
        (false, ob, axis, inputs.foldl (fun m t => max m t.dimensions) maxDim) := by
  intro inputs
  induction inputs with
  | nil => intro maxDim _; rfl
  | cons input rest ih =>
    intro maxDim h
    unfold scanFirstNonEmpty
    rw [if_pos (h input (List.mem_cons_self _ _)),
      ih _ (fun t ht => h t (List.mem_cons_of_mem _ ht)), List.foldl_cons]
    congr 4
    split_ifs <;> omega

theorem onComputeSize_eq (op : Op) (first second : Tensor) (rest : List Tensor)
    (output : Tensor) :
    onComputeSize op (first :: second :: rest) output =
      if (firstLoop op (first :: second :: rest) output).1 = false then
        some (true,
          ⟨(firstLoop op (first :: second :: rest) output).2.2.2, output.dim, first.type,
            output.size, first.dimensionFormat⟩)
      else if (secondLoop op (first :: second :: rest) output).1 = false then
        some (false, (secondLoop op (first :: second :: rest) output).2.1)
      else
        some (true,
          ⟨(secondLoop op (first :: second :: rest) output).2.1.dimensions,
            setExtent (secondLoop op (first :: second :: rest) output).2.1.dim
              (firstLoop op (first :: second :: rest) output).2.2.1
              (secondLoop op (first :: second :: rest) output).2.2,
            (secondLoop op (first :: second :: rest) output).2.1.type, output.size,
            first.dimensionFormat⟩) := rfl

theorem extentAt_setExtent_self (dim : List Int) (axis value : Int) (h0 : 0 ≤ axis)
    (hlt : axis.toNat < dim.length) : extentAt (setExtent dim axis value) axis = value := by
  unfold extentAt setExtent
  rw [if_neg (by omega), if_neg (by omega), List.getD_eq_getElem?_getD,
    List.getElem?_set_self hlt]
  rfl

theorem getD_setExtent_ne (dim : List Int) (axis value : Int) (i : Nat) (h : (i : Int) ≠ axis) :
    (setExtent dim axis value).getD i 0 = dim.getD i 0 := by
  unfold setExtent
  split_ifs with hneg
  · rfl
  · rw [List.getD_eq_getElem?_getD, List.getD_eq_getElem?_getD,
      List.getElem?_set_ne (by omega)]

theorem secondLoop_ok_iff (op : Op) (inputs : List Tensor) (output : Tensor) (ne : Tensor)
    (d : Nat) (hin : ∀ t ∈ inputs, t.dimensions = d ∧ d ≤ t.dim.length)
    (hout : d ≤ output.dim.length) (hne : ne ∈ inputs)
    (hob : (firstLoop op inputs output).2.1 =
      ⟨ne.dimensions, memcpyDims output.dim ne.dim ne.dimensions, ne.type, output.size,
        output.dimensionFormat⟩)
    (hax : (firstLoop op inputs output).2.2.1 = normalizedAxis (basicAxis op) ne.dimensions) :
    (secondLoop op inputs output).1 = true ↔
      ∀ t ∈ inputs, ∀ i, i < d →
        (i : Int) = normalizedAxis (basicAxis op) d ∨ t.dim.getD i 0 = ne.dim.getD i 0 := by
  obtain ⟨hnd, hnl⟩ := hin ne hne
  unfold secondLoop
  rw [(sumAndCheck_spec _ inputs _ 0).1, hob, hax, hnd]
  constructor
  · intro h t ht i hi
    have := (dimsMatch_iff _ t _).1 (h t ht) i (by rw [(hin t ht).1]; exact hi)
    rw [memcpyDims_getD _ _ d hout hnl i hi] at this
    exact this
  · intro h t ht
    rw [dimsMatch_iff]
    intro i hi
    rw [(hin t ht).1] at hi
    rw [memcpyDims_getD _ _ d hout hnl i hi]
    exact h t ht i hi

theorem secondLoop_spec (op : Op) (inputs : List Tensor) (output : Tensor) :
    (secondLoop op inputs output).2.1.dim = (firstLoop op inputs output).2.1.dim ∧
    (secondLoop op inputs output).2.1.dimensions = (firstLoop op inputs output).2.1.dimensions ∧
    ((secondLoop op inputs output).1 = true →
      (secondLoop op inputs output).2.2 =
        wrapInt32
          (inputs.map (fun t => extentAt t.dim (firstLoop op inputs output).2.2.1)).sum) := by
  obtain ⟨_, h2, h3, h4⟩ := sumAndCheck_spec (firstLoop op inputs output).2.2.1 inputs
    (firstLoop op inputs output).2.1 0
  refine ⟨h2, h3, fun h => ?_⟩
  have := h4 h (by decide)
  rw [Int.zero_add] at this
  exact this

/-- C19 (amended): for at least two non-empty inputs that all have `d` dimensions, an axis `a`
with `-d ≤ a < d` and equal extents in every dimension other than the normalised axis,
`onComputeSize` returns true and the output has `d` dimensions, each non-axis extent equal
to that of the first input, and the axis extent equal to the sum of the axis extents of all
inputs reduced to a 32-bit `int`; it is the sum itself when the sum fits a 32-bit `int`. -/
theorem concat_output_shape (op : Op) (first second : Tensor) (rest : List Tensor)
    (output : Tensor) (d : Nat)
    (hin : ∀ t ∈ first :: second :: rest, 0 < t.size ∧ t.dimensions = d ∧ d ≤ t.dim.length)
    (hout : d ≤ output.dim.length)
    (ha : -(d : Int) ≤ basicAxis op ∧ basicAxis op < (d : Int))
    (heq : ∀ t ∈ first :: second :: rest, ∀ i, i < d →
      (i : Int) ≠ normalizedAxis (basicAxis op) d → t.dim.getD i 0 = first.dim.getD i 0) :
    ∃ out, onComputeSize op (first :: second :: rest) output = some (true, out) ∧
      out.dimensions = d ∧
      (∀ i, i < d → (i : Int) ≠ normalizedAxis (basicAxis op) d →
        out.dim.getD i 0 = first.dim.getD i 0) ∧
      extentAt out.dim (normalizedAxis (basicAxis op) d) =
        wrapInt32 ((first :: second :: rest).map
          (fun t => extentAt t.dim (normalizedAxis (basicAxis op) d))).sum ∧
      ((-2147483648 ≤ ((first :: second :: rest).map
            (fun t => extentAt t.dim (normalizedAxis (basicAxis op) d))).sum ∧
          ((first :: second :: rest).map
            (fun t => extentAt t.dim (normalizedAxis (basicAxis op) d))).sum < 2147483648) →
        extentAt out.dim (normalizedAxis (basicAxis op) d) =
          ((first :: second :: rest).map
            (fun t => extentAt t.dim (normalizedAxis (basicAxis op) d))).sum) := by
  obtain ⟨hfs, hfd, hfl⟩ := hin first (List.mem_cons_self _ _)
  have hscan : firstLoop op (first :: second :: rest) output =
      (true,
       ⟨first.dimensions, memcpyDims output.dim first.dim first.dimensions, first.type,
         output.size, output.dimensionFormat⟩,
       normalizedAxis (basicAxis op) first.dimensions, 0) :=
    scanFirstNonEmpty_head output (basicAxis op) 0 first (second :: rest) hfs
  have hvalid : (firstLoop op (first :: second :: rest) output).1 = true := by rw [hscan]
  have hob : (firstLoop op (first :: second :: rest) output).2.1 =
      ⟨first.dimensions, memcpyDims output.dim first.dim first.dimensions, first.type,
        output.size, output.dimensionFormat⟩ := by rw [hscan]
  have hax : (firstLoop op (first :: second :: rest) output).2.2.1 =
      normalizedAxis (basicAxis op) first.dimensions := by rw [hscan]
  have hok : (secondLoop op (first :: second :: rest) output).1 = true := by
    rw [secondLoop_ok_iff op _ output first d (fun t ht => (hin t ht).2) hout
      (List.mem_cons_self _ _) hob hax]
    intro t ht i hi
    by_cases hia : (i : Int) = normalizedAxis (basicAxis op) d
    · exact Or.inl hia
    · exact Or.inr (heq t ht i hi hia)
  obtain ⟨hdim, hdims, hsum⟩ := secondLoop_spec op (first :: second :: rest) output
  have hsum2 := hsum hok
  rw [hax, hfd] at hsum2
  rw [hob] at hdim hdims
  have hdim2 : (secondLoop op (first :: second :: rest) output).2.1.dim =
      memcpyDims output.dim first.dim d := by rw [hdim, hfd]
  have hdims2 : (secondLoop op (first :: second :: rest) output).2.1.dimensions = d := by
    rw [hdims, hfd]
  have hnorm : 0 ≤ normalizedAxis (basicAxis op) d ∧
      (normalizedAxis (basicAxis op) d).toNat < d := by
    unfold normalizedAxis
    split_ifs <;> omega
  rw [onComputeSize_eq, if_neg (by rw [hvalid]; decide), if_neg (by rw [hok]; decide)]
  have hext : extentAt (setExtent (secondLoop op (first :: second :: rest) output).2.1.dim
      (firstLoop op (first :: second :: rest) output).2.2.1
      (secondLoop op (first :: second :: rest) output).2.2)
      (normalizedAxis (basicAxis op) d) =
      wrapInt32 ((first :: second :: rest).map
        (fun t => extentAt t.dim (normalizedAxis (basicAxis op) d))).sum := by
    rw [hax, hfd, extentAt_setExtent_self _ _ _ hnorm.1 (by
      rw [hdim2, memcpyDims_length]
      omega)]
    exact hsum2
  refine ⟨_, rfl, hdims2, ?_, hext, fun hrange => ?_⟩
  · intro i hi hia
    show (setExtent (secondLoop op (first :: second :: rest) output).2.1.dim _ _).getD i 0 = _
    rw [hax, hfd, getD_setExtent_ne _ _ _ i hia, hdim2]
    exact memcpyDims_getD _ _ d hout hfl i hi
  · exact hext.trans (wrapInt32_of_range _ hrange)

/-- Witness of C19: the inputs of extents `[2, 3]` and `[2, 5]` with axis `-1` (normalised
to 1) give the output extents `[2, 8]`. -/
theorem concat_output_shape_witness :
    ((∀ t ∈ [(⟨2, [2, 3, 0, 0], ⟨HalideTypeCode.halide_type_float, 32⟩, 24, 0⟩ : Tensor),
        ⟨2, [2, 5, 0, 0], ⟨HalideTypeCode.halide_type_float, 32⟩, 40, 0⟩],
        0 < t.size ∧ t.dimensions = 2 ∧ 2 ≤ t.dim.length) ∧
      (-(2 : Int) ≤ basicAxis ⟨OpType.OpType_Concat, -1, 0⟩ ∧
        basicAxis ⟨OpType.OpType_Concat, -1, 0⟩ < 2)) ∧
    onComputeSize ⟨OpType.OpType_Concat, -1, 0⟩
      [⟨2, [2, 3, 0, 0], ⟨HalideTypeCode.halide_type_float, 32⟩, 24, 0⟩,
        ⟨2, [2, 5, 0, 0], ⟨HalideTypeCode.halide_type_float, 32⟩, 40, 0⟩]
      ⟨0, [9, 9, 9, 9], ⟨HalideTypeCode.halide_type_float, 32⟩, 0, 0⟩ =
      some (true, ⟨2, [2, 8, 9, 9], ⟨HalideTypeCode.halide_type_float, 32⟩, 0, 0⟩) ∧
    (∃ out, onComputeSize ⟨OpType.OpType_Concat, -1, 0⟩
      [⟨2, [2, 3, 0, 0], ⟨HalideTypeCode.halide_type_float, 32⟩, 24, 0⟩,
        ⟨2, [2, 5, 0, 0], ⟨HalideTypeCode.halide_type_float, 32⟩, 40, 0⟩]
      ⟨0, [9, 9, 9, 9], ⟨HalideTypeCode.halide_type_float, 32⟩, 0, 0⟩ = some (true, out) ∧
      out.dimensions = 2) :=
  ⟨by decide, by decide,
   (concat_output_shape ⟨OpType.OpType_Concat, -1, 0⟩
     ⟨2, [2, 3, 0, 0], ⟨HalideTypeCode.halide_type_float, 32⟩, 24, 0⟩
     ⟨2, [2, 5, 0, 0], ⟨HalideTypeCode.halide_type_float, 32⟩, 40, 0⟩ []
     ⟨0, [9, 9, 9, 9], ⟨HalideTypeCode.halide_type_float, 32⟩, 0, 0⟩ 2 (by decide) (by decide)
     (by decide) (by decide)).imp (fun _ h => ⟨h.1, h.2.1⟩)⟩

/-- Counterexample to C19 as stated: two non-empty inputs of one dimension with extent
`2^30` each and axis 0 meet every condition of the claim; the sum of the axis extents is
`2147483648`, the 32-bit `int sum` wraps and `onComputeSize` stores the axis extent
`-2147483648`. -/
theorem concat_output_shape_sum_wraps :
    (∀ t ∈ [(⟨1, [1073741824], ⟨HalideTypeCode.halide_type_int, 8⟩, 1073741824, 0⟩ : Tensor),
        ⟨1, [1073741824], ⟨HalideTypeCode.halide_type_int, 8⟩, 1073741824, 0⟩],
        0 < t.size ∧ t.dimensions = 1 ∧ 1 ≤ t.dim.length) ∧
    (-(1 : Int) ≤ basicAxis ⟨OpType.OpType_Concat, 0, 0⟩ ∧
      basicAxis ⟨OpType.OpType_Concat, 0, 0⟩ < 1) ∧
    onComputeSize ⟨OpType.OpType_Concat, 0, 0⟩
      [⟨1, [1073741824], ⟨HalideTypeCode.halide_type_int, 8⟩, 1073741824, 0⟩,
        ⟨1, [1073741824], ⟨HalideTypeCode.halide_type_int, 8⟩, 1073741824, 0⟩]
      ⟨0, [0], ⟨HalideTypeCode.halide_type_int, 8⟩, 0, 0⟩ =
      some (true, ⟨1, [-2147483648], ⟨HalideTypeCode.halide_type_int, 8⟩, 0, 0⟩) ∧
    ([(⟨1, [1073741824], ⟨HalideTypeCode.halide_type_int, 8⟩, 1073741824, 0⟩ : Tensor),
        ⟨1, [1073741824], ⟨HalideTypeCode.halide_type_int, 8⟩, 1073741824, 0⟩].map
        (fun t => extentAt t.dim 0)).sum = 2147483648 := by
  decide

/-- C20: for at least two inputs of the same number of dimensions `d` with a first non-empty
input `ne`, `onComputeSize` returns false if and only if some input has a dimension `i`
other than the normalised axis whose extent differs from the extent of dimension `i` of
`ne`; when every input is empty (`size() <= 0`) it returns true with the output dimension
count set to the largest input dimension count. -/
theorem concat_mismatch_rejection (op : Op) (first second : Tensor) (rest : List Tensor)
    (output : Tensor) :
    (∀ (d : Nat) (ne : Tensor),
      (∀ t ∈ first :: second :: rest, t.dimensions = d ∧ d ≤ t.dim.length) →
      d ≤ output.dim.length →
      (first :: second :: rest).find? (fun t => decide (0 < t.size)) = some ne →
      ∃ b out, onComputeSize op (first :: second :: rest) output = some (b, out) ∧
        (b = false ↔
          ∃ t ∈ first :: second :: rest, ∃ i, i < d ∧
            (i : Int) ≠ normalizedAxis (basicAxis op) d ∧
            t.dim.getD i 0 ≠ ne.dim.getD i 0)) ∧
    ((∀ t ∈ first :: second :: rest, t.size ≤ 0) →
      ∃ out, onComputeSize op (first :: second :: rest) output = some (true, out) ∧
        out.dimensions =
          (first :: second :: rest).foldl (fun m t => max m t.dimensions) 0) := by
  constructor
  · intro d ne hin hout hfind
    have hne : ne ∈ first :: second :: rest := List.mem_of_find?_eq_some hfind
    obtain ⟨hvalid, hob, hax⟩ :=
      scanFirstNonEmpty_of_find output (basicAxis op) ne (first :: second :: rest) 0 hfind
    have hiff := secondLoop_ok_iff op (first :: second :: rest) output ne d hin hout hne hob hax
    have hmis : (secondLoop op (first :: second :: rest) output).1 = false ↔
        ∃ t ∈ first :: second :: rest, ∃ i, i < d ∧
          (i : Int) ≠ normalizedAxis (basicAxis op) d ∧
          t.dim.getD i 0 ≠ ne.dim.getD i 0 := by
      rw [← Bool.not_eq_true, hiff]
      constructor
      · intro h
        by_contra hno
        apply h
        intro t ht i hi
        by_contra hor
        exact hno ⟨t, ht, i, hi, fun h1 => hor (Or.inl h1), fun h2 => hor (Or.inr h2)⟩
      · rintro ⟨t, ht, i, hi, h1, h2⟩ h
        rcases h t ht i hi with h3 | h3
        · exact h1 h3
        · exact h2 h3
    have hv : ¬ (firstLoop op (first :: second :: rest) output).1 = false := by
      intro h
      have h2 : (firstLoop op (first :: second :: rest) output).1 = true := hvalid
      rw [h] at h2
      exact Bool.noConfusion h2
    rw [onComputeSize_eq, if_neg hv]
    by_cases hs : (secondLoop op (first :: second :: rest) output).1 = false
    · rw [if_pos hs]
      exact ⟨false, _, rfl, ⟨fun _ => hmis.1 hs, fun _ => rfl⟩⟩
    · rw [if_neg hs]
      exact ⟨true, _, rfl, ⟨fun h => Bool.noConfusion h, fun h => absurd (hmis.2 h) hs⟩⟩
  · intro hempty
    have hscan : firstLoop op (first :: second :: rest) output =
        (false, output, basicAxis op,
          (first :: second :: rest).foldl (fun m t => max m t.dimensions) 0) :=
      scanFirstNonEmpty_all_empty output (basicAxis op) (first :: second :: rest) 0 hempty
    rw [onComputeSize_eq, if_pos (by rw [hscan])]
    refine ⟨_, rfl, ?_⟩
    show (firstLoop op (first :: second :: rest) output).2.2.2 = _
    rw [hscan]

/-- Witness of C20: an empty input of extents `[2, 0]` followed by the inputs `[2, 3]` and
`[4, 5]` with axis 1; dimension 0 of the third input differs from the first non-empty input,
and `onComputeSize` returns false. -/
theorem concat_mismatch_rejection_witness :
    ((∀ t ∈ [(⟨2, [2, 0, 0, 0], ⟨HalideTypeCode.halide_type_float, 32⟩, 0, 0⟩ : Tensor),
        ⟨2, [2, 3, 0, 0], ⟨HalideTypeCode.halide_type_float, 32⟩, 24, 0⟩,
        ⟨2, [4, 5, 0, 0], ⟨HalideTypeCode.halide_type_float, 32⟩, 80, 0⟩],
        t.dimensions = 2 ∧ 2 ≤ t.dim.length) ∧
      [(⟨2, [2, 0, 0, 0], ⟨HalideTypeCode.halide_type_float, 32⟩, 0, 0⟩ : Tensor),
        ⟨2, [2, 3, 0, 0], ⟨HalideTypeCode.halide_type_float, 32⟩, 24, 0⟩,
        ⟨2, [4, 5, 0, 0], ⟨HalideTypeCode.halide_type_float, 32⟩, 80, 0⟩].find?
          (fun t => decide (0 < t.size)) =
        some ⟨2, [2, 3, 0, 0], ⟨HalideTypeCode.halide_type_float, 32⟩, 24, 0⟩) ∧
    (onComputeSize ⟨OpType.OpType_Concat, 1, 0⟩
      [⟨2, [2, 0, 0, 0], ⟨HalideTypeCode.halide_type_float, 32⟩, 0, 0⟩,
        ⟨2, [2, 3, 0, 0], ⟨HalideTypeCode.halide_type_float, 32⟩, 24, 0⟩,
        ⟨2, [4, 5, 0, 0], ⟨HalideTypeCode.halide_type_float, 32⟩, 80, 0⟩]
      ⟨0, [9, 9, 9, 9], ⟨HalideTypeCode.halide_type_float, 32⟩, 0, 0⟩).map Prod.fst =
      some false ∧
    (∃ b out, onComputeSize ⟨OpType.OpType_Concat, 1, 0⟩
      [⟨2, [2, 0, 0, 0], ⟨HalideTypeCode.halide_type_float, 32⟩, 0, 0⟩,
        ⟨2, [2, 3, 0, 0], ⟨HalideTypeCode.halide_type_float, 32⟩, 24, 0⟩,
        ⟨2, [4, 5, 0, 0], ⟨HalideTypeCode.halide_type_float, 32⟩, 80, 0⟩]
      ⟨0, [9, 9, 9, 9], ⟨HalideTypeCode.halide_type_float, 32⟩, 0, 0⟩ = some (b, out)) :=
  ⟨by decide, by decide,
   ((concat_mismatch_rejection ⟨OpType.OpType_Concat, 1, 0⟩
     ⟨2, [2, 0, 0, 0], ⟨HalideTypeCode.halide_type_float, 32⟩, 0, 0⟩
     ⟨2, [2, 3, 0, 0], ⟨HalideTypeCode.halide_type_float, 32⟩, 24, 0⟩
     [⟨2, [4, 5, 0, 0], ⟨HalideTypeCode.halide_type_float, 32⟩, 80, 0⟩]
     ⟨0, [9, 9, 9, 9], ⟨HalideTypeCode.halide_type_float, 32⟩, 0, 0⟩).1 2
     ⟨2, [2, 3, 0, 0], ⟨HalideTypeCode.halide_type_float, 32⟩, 24, 0⟩ (by decide) (by decide)
     (by decide)).imp (fun _ h => h.imp (fun _ h2 => h2.1))⟩

end MNN
